import Mathlib

/-!
# og-tags-preview: the OG tag client, the result cache and the handler

A shallow embedding of `internal/ogtags/ogtags.go`: the extraction of Open
Graph tags from a parsed HTML tree, and `Client.GetOGTags`, which guards every
fetch with one circuit breaker per host, the breakers being kept in an LRU
cache of capacity 100; of `internal/ogtags_cache/cache.go`: the cache of
results under a digest key, with a time-to-live of one hour; of the handler
`ogTagHandler` of `cmd/application.go`, which answers from the cache or from
the client; and of the function `Latency` of `pkg/metrics/metrics.go`.

Go strings are modelled by `String`, the nil pointer and the nil error by
`Option.none`, Go slices of strings by `Option (List String)` (`none` is the
nil slice), `uint32` counters by `Nat` reduced modulo `2 ^ 32`, and instants of
the monotonic clock by `Nat` (nanoseconds).
-/

namespace ogtags

/-! ## Strings -/

/-- Go `strings.HasPrefix(s, p)`. -/
def HasPrefix (s p : String) : Bool :=
  p.toList.isPrefixOf s.toList

/-- Go `fmt.Sprintf("%s %s", a, b)`. -/
def Sprintf_s_s (a b : String) : String :=
  a ++ " " ++ b

/-- Go `strings.Contains(s, sub)` as a proposition on the characters. -/
def Contains (s sub : String) : Prop :=
  sub.toList <:+: s.toList

/-- A Go `[]string`; `none` is the nil slice. -/
abbrev StrSlice := Option (List String)

/-- Go `append(s, x)` on a `[]string`: the result is never nil. -/
def goAppend : StrSlice → String → StrSlice
  | none, x => some [x]
  | some l, x => some (l ++ [x])

/-! ## The HTML tree of `golang.org/x/net/html` -/

/-- The `html.NodeType` constants. -/
inductive NodeType where
  | ErrorNode
  | TextNode
  | DocumentNode
  | ElementNode
  | CommentNode
  | DoctypeNode
  | RawNode
  deriving DecidableEq, Repr

/-- The `html.Attribute` struct. -/
structure Attribute where
  Namespace : String
  Key : String
  Val : String
  deriving DecidableEq, Repr

/-- The `html.Node` struct: the sibling and child pointers are replaced by the
list of children, in order. -/
inductive Node where
  | mk (Kind : NodeType) (Data : String) (Attr : List Attribute) (children : List Node)

/-- The field `Type` of a node. -/
def Node.Kind : Node → NodeType
  | .mk k _ _ _ => k

/-- The field `Data` of a node. -/
def Node.Data : Node → String
  | .mk _ d _ _ => d

/-- The field `Attr` of a node. -/
def Node.Attr : Node → List Attribute
  | .mk _ _ a _ => a

/-- The children of a node, first to last. -/
def Node.children : Node → List Node
  | .mk _ _ _ cs => cs

mutual
/-- The sequence `n.Descendants()` yields: every descendant of `n`, in document
order (depth first, a node before its children), `n` itself excluded. -/
def Node.Descendants : Node → List Node
  | .mk _ _ _ cs => DescendantsOfList cs
/-- The nodes of a list of siblings and their descendants, in document order. -/
def DescendantsOfList : List Node → List Node
  | [] => []
  | c :: cs => c :: (c.Descendants ++ DescendantsOfList cs)
end

/-! ## `processMetaTag` and the scan of the tree -/

/-- One round of the loop `for _, attr := range n.Attr` of `processMetaTag`,
on the pair `(prop, cont)`. -/
def attrStep (pc : String × String) (attr : Attribute) : String × String :=
  if attr.Key = "property" then (attr.Val, pc.2)
  else if attr.Key = "content" then (pc.1, attr.Val)
  else pc

/-- The function `processMetaTag`. -/
def processMetaTag (n : Node) : String × Bool :=
  let pc := n.Attr.foldl attrStep ("", "")
  if !HasPrefix pc.1 "og:" then ("", false)
  else (Sprintf_s_s pc.1 pc.2, true)

/-- The inner loop `for mn := range n.Descendants()` of `GetOGTags`, on the
remaining nodes and the tags gathered so far. -/
def collectMeta : List Node → StrSlice → StrSlice
  | [], tags => tags
  | mn :: rest, tags =>
    if mn.Kind = NodeType.ElementNode ∧ mn.Data = "meta" then
      match processMetaTag mn with
      | (p, true) => collectMeta rest (goAppend tags p)
      | (_, false) => collectMeta rest tags
    else collectMeta rest tags

/-- The outer loop `for n := range doc.Descendants()` of `GetOGTags`: the
first element named `head` is scanned, then the loop is left (`break`). -/
def scanHead : List Node → StrSlice → StrSlice
  | [], tags => tags
  | n :: rest, tags =>
    if n.Kind = NodeType.ElementNode ∧ n.Data = "head" then
      collectMeta n.Descendants tags
    else scanHead rest tags

/-- The struct `OGTags`. -/
structure OGTags where
  URL : String
  Tags : StrSlice
  deriving DecidableEq, Repr

/-- The part of the closure of `GetOGTags` that follows `html.Parse`: the
value built from the parsed tree `doc`. -/
def buildOGTags (url : String) (doc : Node) : OGTags :=
  { URL := url, Tags := scanHead doc.Descendants (some []) }

/-! ## Errors -/

/-- The errors of the Redis client: `Nil` is the value `redis.Nil` (the reply
for a key that holds no value), `other` any other failure (connection, timeout)
with its message. -/
inductive RedisError where
  | Nil
  | other (msg : String)
  deriving DecidableEq, Repr

/-- The Go errors the client can return. `ErrOpenState` and
`ErrTooManyRequests` are the two sentinel values of gobreaker, `ext` is an
error of a collaborator (URL parser, HTTP client, HTML parser) with its
message, `wrap ctx e` is `fmt.Errorf(ctx + " %w", e)` and `wrapNil ctx` the
same call on a nil error. `ErrKeyNotFound` is the sentinel value of
`ogtags_cache`, `redis e` an error returned by the Redis client. -/
inductive Error where
  | ErrOpenState
  | ErrTooManyRequests
  | ext (msg : String)
  | wrap (ctx : String) (cause : Error)
  | wrapNil (ctx : String)
  | ErrKeyNotFound
  | redis (e : RedisError)
  deriving DecidableEq, Repr

/-- The method `Error()`: the message of an error. -/
def Error.Error : Error → String
  | .ErrOpenState => "circuit breaker is open"
  | .ErrTooManyRequests => "too many requests"
  | .ext msg => msg
  | .wrap ctx cause => ctx ++ " " ++ cause.Error
  | .wrapNil ctx => ctx ++ " %!w(<nil>)"
  | .ErrKeyNotFound => "key not found or expired"
  | .redis .Nil => "redis: nil"
  | .redis (.other msg) => msg

/-- Go `errors.Is(err, target)` for a sentinel `target`: `err` is the target or
wraps it, through any number of `%w` wrappings. -/
def Error.Is : ogtags.Error → ogtags.Error → Bool
  | .wrap ctx cause, target => (ogtags.Error.wrap ctx cause == target) || Error.Is cause target
  | err, target => err == target

/-- Go `fmt.Errorf(ctx + " %w", err)`, `err` possibly nil. -/
def Errorf_w (ctx : String) (err : Option Error) : Error :=
  match err with
  | some e => Error.wrap ctx e
  | none => Error.wrapNil ctx

/-! ## The circuit breaker (`github.com/sony/gobreaker/v2`)

`GetOGTags` runs every fetch through `CircuitBreaker.Execute` of the imported
library; the type is not defined in the repository. The definitions below
follow the library with the settings `newHostBreaker` passes (no bucket period,
so one fixed counting window per generation; the default `IsSuccessful`,
`err == nil`): counts are kept per generation; `ReadyToTrip` is asked when a
failure is recorded in the closed state; the closed state starts a new
generation on the first request after `Interval` has passed; the open state
becomes half-open on the first request after `Timeout` has passed; an outcome
that arrives in a later generation than its request is dropped. -/

/-- A `uint32` value. -/
def u32 (n : Nat) : Nat := n % 2 ^ 32

/-- A `uint64` value. -/
def u64 (n : Nat) : Nat := n % 2 ^ 64

/-- The `gobreaker.State` constants. -/
inductive State where
  | StateClosed
  | StateHalfOpen
  | StateOpen
  deriving DecidableEq, Repr

/-- The struct `gobreaker.Counts`. -/
structure Counts where
  Requests : Nat
  TotalSuccesses : Nat
  TotalFailures : Nat
  ConsecutiveSuccesses : Nat
  ConsecutiveFailures : Nat
  deriving DecidableEq, Repr

/-- The method `Counts.clear`. -/
def Counts.clear : Counts := ⟨0, 0, 0, 0, 0⟩

/-- The method `Counts.onRequest`. -/
def Counts.onRequest (c : Counts) : Counts :=
  { c with Requests := u32 (c.Requests + 1) }

/-- The method `Counts.onSuccess`. -/
def Counts.onSuccess (c : Counts) : Counts :=
  { c with TotalSuccesses := u32 (c.TotalSuccesses + 1),
           ConsecutiveSuccesses := u32 (c.ConsecutiveSuccesses + 1),
           ConsecutiveFailures := 0 }

/-- The method `Counts.onFailure`. -/
def Counts.onFailure (c : Counts) : Counts :=
  { c with TotalFailures := u32 (c.TotalFailures + 1),
           ConsecutiveFailures := u32 (c.ConsecutiveFailures + 1),
           ConsecutiveSuccesses := 0 }

/-- A `float64` constant of the source, kept as the decimal fraction
`num / den` it is written as (`0.6` is `6 / 10`). -/
structure Fraction where
  num : Nat
  den : Nat
  deriving DecidableEq, Repr

/-- The struct `breakerConfig`; durations are in nanoseconds. -/
structure breakerConfig where
  maxRequest : Nat
  interval : Nat
  timeout : Nat
  tripRequestCount : Nat
  tripFailureRatio : Fraction
  deriving DecidableEq, Repr

/-- One second, as a `time.Duration`. -/
def Second : Nat := 1000000000

/-- The configuration `New` builds. -/
def defaultBkcfg : breakerConfig :=
  { maxRequest := 3, interval := 10 * Second, timeout := 30 * Second,
    tripRequestCount := 5, tripFailureRatio := ⟨6, 10⟩ }

/-- The test `float64(f) / float64(r) >= x` on two `uint32` counts, in exact
arithmetic. For `r = 0` the quotient is `+Inf` (`f > 0`, the test holds) or
`NaN` (`f = 0`, it fails). For `r > 0` and `x = 0.6` the rounded quotient is at
least the rounded constant exactly when `f / r ≥ 6 / 10`: rounding is monotone,
and a quotient below `6 / 10` is below it by at least `1 / (5 * r)`, far more
than the spacing of the `float64` values there. -/
def ratioGe (f r : Nat) (x : Fraction) : Bool :=
  if r = 0 then decide (0 < f) else decide (x.num * r ≤ f * x.den)

/-- The closure `ReadyToTrip` of `newHostBreaker`. -/
def ReadyToTrip (cfg : breakerConfig) (counts : Counts) : Bool :=
  decide (counts.Requests ≥ u32 cfg.tripRequestCount) &&
    ratioGe counts.TotalFailures counts.Requests cfg.tripFailureRatio

/-- The struct `gobreaker.CircuitBreaker`. The closure `readyToTrip` is kept
as the configuration it captures; `expiry = none` is the zero `time.Time`. -/
structure CircuitBreaker where
  name : String
  maxRequests : Nat
  interval : Nat
  timeout : Nat
  tripCfg : breakerConfig
  state : State
  generation : Nat
  counts : Counts
  expiry : Option Nat
  deriving DecidableEq, Repr

/-- The method `toNewGeneration`. -/
def CircuitBreaker.toNewGeneration (cb : CircuitBreaker) (now : Nat) : CircuitBreaker :=
  { cb with
    generation := u64 (cb.generation + 1),
    counts := Counts.clear,
    expiry :=
      match cb.state with
      | State.StateClosed => if cb.interval = 0 then none else some (now + cb.interval)
      | State.StateOpen => some (now + cb.timeout)
      | State.StateHalfOpen => none }

/-- The method `setState` (the `OnStateChange` callback only prints). -/
def CircuitBreaker.setState (cb : CircuitBreaker) (state : State) (now : Nat) : CircuitBreaker :=
  if cb.state = state then cb
  else ({ cb with state := state } : CircuitBreaker).toNewGeneration now

/-- Go `expiry.Before(now)`; the zero time is before every reading of the clock. -/
def expiryBefore (expiry : Option Nat) (now : Nat) : Bool :=
  match expiry with
  | none => true
  | some e => decide (e < now)

/-- The method `currentState`: the breaker after the check of its expiry. -/
def CircuitBreaker.currentState (cb : CircuitBreaker) (now : Nat) : CircuitBreaker :=
  match cb.state with
  | State.StateClosed =>
    if cb.expiry.isSome ∧ expiryBefore cb.expiry now then cb.toNewGeneration now else cb
  | State.StateOpen =>
    if expiryBefore cb.expiry now then cb.setState State.StateHalfOpen now else cb
  | State.StateHalfOpen => cb

/-- The method `beforeRequest`: the breaker, the generation and the error. -/
def CircuitBreaker.beforeRequest (cb : CircuitBreaker) (now : Nat) :
    CircuitBreaker × Nat × Option Error :=
  let cb1 := cb.currentState now
  if cb1.state = State.StateOpen then (cb1, cb1.generation, some Error.ErrOpenState)
  else if cb1.state = State.StateHalfOpen ∧ cb1.counts.Requests ≥ cb1.maxRequests then
    (cb1, cb1.generation, some Error.ErrTooManyRequests)
  else ({ cb1 with counts := cb1.counts.onRequest }, cb1.generation, none)

/-- The method `onSuccess` of the breaker. -/
def CircuitBreaker.onSuccess (cb : CircuitBreaker) (state : State) (now : Nat) : CircuitBreaker :=
  match state with
  | State.StateClosed => { cb with counts := cb.counts.onSuccess }
  | State.StateHalfOpen =>
    let cb1 := { cb with counts := cb.counts.onSuccess }
    if cb1.counts.ConsecutiveSuccesses ≥ cb1.maxRequests then cb1.setState State.StateClosed now
    else cb1
  | State.StateOpen => cb

/-- The method `onFailure` of the breaker. -/
def CircuitBreaker.onFailure (cb : CircuitBreaker) (state : State) (now : Nat) : CircuitBreaker :=
  match state with
  | State.StateClosed =>
    let cb1 := { cb with counts := cb.counts.onFailure }
    if ReadyToTrip cb1.tripCfg cb1.counts then cb1.setState State.StateOpen now else cb1
  | State.StateHalfOpen => cb.setState State.StateOpen now
  | State.StateOpen => cb

/-- The method `afterRequest`. -/
def CircuitBreaker.afterRequest (cb : CircuitBreaker) (before : Nat) (success : Bool)
    (now : Nat) : CircuitBreaker :=
  let cb1 := cb.currentState now
  if cb1.generation ≠ before then cb1
  else if success then cb1.onSuccess cb1.state now
  else cb1.onFailure cb1.state now

/-- The method `Execute`, for a request `req` that acts on a state `σ` and does
not panic. `tBefore` and `tAfter` are the readings of the clock in
`beforeRequest` and `afterRequest`; success is `err == nil`. -/
def CircuitBreaker.Execute {σ T : Type} (cb : CircuitBreaker) (tBefore tAfter : Nat)
    (req : σ → (Option T × Option Error) × σ) (w : σ) :
    (Option T × Option Error) × CircuitBreaker × σ :=
  match cb.beforeRequest tBefore with
  | (cb1, _, some err) => ((none, some err), cb1, w)
  | (cb1, generation, none) =>
    let (res, w1) := req w
    (res, cb1.afterRequest generation res.2.isNone tAfter, w1)

/-- The function `gobreaker.NewCircuitBreaker` on the settings `newHostBreaker`
passes, created when the clock reads `now`. -/
def NewCircuitBreaker (name : String) (MaxRequests Interval Timeout : Nat)
    (cfg : breakerConfig) (now : Nat) : CircuitBreaker :=
  let cb : CircuitBreaker :=
    { name := name,
      maxRequests := if MaxRequests = 0 then 1 else MaxRequests,
      interval := Interval,
      timeout := if Timeout = 0 then 60 * Second else Timeout,
      tripCfg := cfg,
      state := State.StateClosed,
      generation := 0,
      counts := Counts.clear,
      expiry := none }
  cb.toNewGeneration now

/-- The function `newHostBreaker`. -/
def newHostBreaker (host : String) (cfg : breakerConfig) (now : Nat) : CircuitBreaker :=
  NewCircuitBreaker (host ++ "-breaker") (u32 cfg.maxRequest) cfg.interval cfg.timeout cfg now

/-! ## The trip predicate in `float64` arithmetic -/

/-- A `float64` value that is not negative: NaN, `+Inf`, or the finite value
`m / 2 ^ e`. -/
inductive Float64 where
  | NaN
  | Inf
  | fin (m e : Nat)
  deriving DecidableEq, Repr

/-- The integer nearest to `n / d`, the even one of the two on a tie. -/
def roundHalfEven (n d : Nat) : Nat :=
  if 2 * (n % d) < d then n / d
  else if d < 2 * (n % d) then n / d + 1
  else if (n / d) % 2 = 0 then n / d
  else n / d + 1

/-- The search for the binary scale of `n / d`: the least `e` from `e` on with
`2 ^ 52 ≤ (n / d) * 2 ^ e`, given up after `fuel` steps. -/
def scaleFrom (n d : Nat) : Nat → Nat → Nat
  | 0, e => e
  | fuel + 1, e => if 2 ^ 52 * d ≤ n * 2 ^ e then e else scaleFrom n d fuel (e + 1)

/-- The binary scale at which `n / d` is rounded to a `float64`: 53 significant
bits, and never finer than `2 ^ -1074`, the spacing of the subnormal values. -/
def scale (n d : Nat) : Nat := scaleFrom n d 1074 0

/-- The `float64` nearest to the quotient `n / d` of two natural numbers, for a
quotient below `2 ^ 53`: the result of the division `float64(n) / float64(d)`
of two `uint32` values (the conversions are exact, the division is correctly
rounded, `x / 0` is `+Inf` and `0 / 0` is NaN), and the value of a decimal
constant `n / d` of the source. -/
def roundToFloat64 (n d : Nat) : Float64 :=
  if d = 0 then (if n = 0 then Float64.NaN else Float64.Inf)
  else if n = 0 then Float64.fin 0 0
  else Float64.fin (roundHalfEven (n * 2 ^ scale n d) d) (scale n d)

/-- The comparison `a >= b` of two `float64` values; a comparison with NaN is
false. -/
def Float64.ge : Float64 → Float64 → Bool
  | .NaN, _ => false
  | _, .NaN => false
  | .Inf, _ => true
  | .fin _ _, .Inf => false
  | .fin m1 e1, .fin m2 e2 => decide (m2 * 2 ^ e1 ≤ m1 * 2 ^ e2)

/-- The closure `ReadyToTrip` of `newHostBreaker` in `float64` arithmetic: the
ratio is computed first, by a division that cannot fault, then the two tests
are made. -/
def ReadyToTripFloat64 (cfg : breakerConfig) (counts : Counts) : Bool :=
  let failureRatio := roundToFloat64 counts.TotalFailures counts.Requests
  decide (counts.Requests ≥ u32 cfg.tripRequestCount) &&
    failureRatio.ge (roundToFloat64 cfg.tripFailureRatio.num cfg.tripFailureRatio.den)

/-! ## The LRU cache (`github.com/hashicorp/golang-lru/v2`)

The cache type is imported as well. Its entries are kept here as a list, the
most recently used first: `Get` and `Add` move an entry to the front, `Add`
evicts the last entry when the size is exceeded. -/

/-- The `lru.Cache` of breakers: its size and its entries, the most recently
used first. -/
structure Cache where
  size : Nat
  items : List (String × CircuitBreaker)
  deriving DecidableEq

/-- The function `lru.New(size)`, for a positive size. -/
def Cache.New (size : Nat) : Cache := { size := size, items := [] }

/-- The method `Len`. -/
def Cache.Len (c : Cache) : Nat := c.items.length

/-- The keys of the cache, the most recently used first. -/
def Cache.Keys (c : Cache) : List String := c.items.map Prod.fst

/-- The method `Contains`: no change of recency. -/
def Cache.Contains (c : Cache) (key : String) : Bool :=
  (c.items.find? (fun e => e.1 = key)).isSome

/-- The method `Peek`: the value under `key`, no change of recency. -/
def Cache.Peek (c : Cache) (key : String) : Option CircuitBreaker :=
  (c.items.find? (fun e => e.1 = key)).map Prod.snd

/-- The method `Get`: a hit moves the entry to the front. -/
def Cache.Get (c : Cache) (key : String) : Option CircuitBreaker × Cache :=
  match c.items.find? (fun e => e.1 = key) with
  | some e => (some e.2, { c with items := e :: c.items.eraseP (fun e => e.1 = key) })
  | none => (none, c)

/-- The method `Add`: an entry that exists is updated and moved to the front;
a new entry is put in front and, when the size is exceeded, the oldest entry
is removed. The result says whether an entry was evicted. -/
def Cache.Add (c : Cache) (key : String) (value : CircuitBreaker) : Bool × Cache :=
  if (c.items.find? (fun e => e.1 = key)).isSome then
    (false, { c with items := (key, value) :: c.items.eraseP (fun e => e.1 = key) })
  else
    let items := (key, value) :: c.items
    if items.length > c.size then (true, { c with items := items.dropLast })
    else (false, { c with items := items })

/-- The effect on the cache of a write through the pointer it holds under
`key`: the entry gets the new value, the recency order is untouched. -/
def Cache.store (c : Cache) (key : String) (value : CircuitBreaker) : Cache :=
  { c with items := c.items.map (fun e => if e.1 = key then (key, value) else e) }

/-! ## Collaborators -/

/-- The fields of `url.URL` the client and its callers read. -/
structure URL where
  Scheme : String
  Host : String
  Path : String
  deriving DecidableEq, Repr

/-- The fields of `http.Response` the client can read. -/
structure Response where
  StatusCode : Int
  Body : String
  deriving DecidableEq, Repr

/-- The imported functions `url.Parse` and `html.Parse`, as parameters. -/
structure Env where
  urlParse : String → Except Error URL
  htmlParse : String → Except Error Node

/-- An `HTTPClient`: `GetFunc k url` is its answer to `Get(url)` when `k`
calls have been made before, `calls` the URLs it was called with, in order
(the `GetCalls()` of the mock in the tests). -/
structure HTTPClient where
  GetFunc : Nat → String → Except Error Response
  calls : List String

/-- The method `Get` of an `HTTPClient`. -/
def HTTPClient.Get (h : HTTPClient) (url : String) : Except Error Response × HTTPClient :=
  (h.GetFunc h.calls.length url, { h with calls := h.calls ++ [url] })

/-! ## The client -/

/-- The struct `Client`. -/
structure Client where
  client : HTTPClient
  breakersCache : Cache
  bkcfg : breakerConfig

/-- The function `New`. -/
def New (c : HTTPClient) : Client :=
  { client := c, breakersCache := Cache.New 100, bkcfg := defaultBkcfg }

/-- The function `getHost`: the host and the error. -/
def getHost (env : Env) (rawURL : String) : String × Option Error :=
  match env.urlParse rawURL with
  | .error err => ("", some err)
  | .ok parsed => (parsed.Host, none)

/-- The closure `GetOGTags` passes to `Execute`, as a function of the HTTP
client it calls. -/
def fetchOGTags (env : Env) (url : String) (h : HTTPClient) :
    (Option OGTags × Option Error) × HTTPClient :=
  match h.Get url with
  | (.error err, h1) => ((none, some (Errorf_w "GetOGTags:retryablehttp.Get" (some err))), h1)
  | (.ok res, h1) =>
    match env.htmlParse res.Body with
    | .error err => ((none, some (Errorf_w "GetOGTags:html.Parse" (some err))), h1)
    | .ok doc => ((some (buildOGTags url doc), none), h1)

/-- The readings of the clock during one call of `GetOGTags`: in
`NewCircuitBreaker` (read only when a breaker is created), in `beforeRequest`
and in `afterRequest`. -/
structure Clock where
  created : Nat
  before : Nat
  after : Nat
  deriving DecidableEq, Repr

/-- The method `Client.GetOGTags`: the result, the error and the client after
the call. -/
def GetOGTags (env : Env) (c : Client) (url : String) (clk : Clock) :
    (Option OGTags × Option Error) × Client :=
  let (host, err) := getHost env url
  if err.isSome ∨ host = "" then ((none, some (Errorf_w "GetOGTags:getHost" err)), c)
  else
    let (cb, cache) :=
      match c.breakersCache.Get host with
      | (some cb, cache) => (cb, cache)
      | (none, cache) =>
        let cb := newHostBreaker host c.bkcfg clk.created
        (cb, (cache.Add host cb).2)
    let (res, cb1, h1) := cb.Execute clk.before clk.after (fetchOGTags env url) c.client
    (res, { c with client := h1, breakersCache := cache.store host cb1 })

/-- A run of `GetOGTags` calls, one after the other: the results in order and
the client at the end. -/
def runCalls (env : Env) : Client → List (String × Clock) →
    List (Option OGTags × Option Error) × Client
  | c, [] => ([], c)
  | c, (url, clk) :: rest =>
    let (r, c1) := GetOGTags env c url clk
    let (rs, c2) := runCalls env c1 rest
    (r :: rs, c2)

/-! ## Specification of the extraction -/

/-- The value of the last attribute of the list with the given key. -/
def lastAttr (key : String) : List Attribute → Option String
  | [] => none
  | a :: rest =>
    match lastAttr key rest with
    | some v => some v
    | none => if a.Key = key then some a.Val else none

/-- An element named `head`. -/
def isHead (n : Node) : Prop := n.Kind = NodeType.ElementNode ∧ n.Data = "head"

instance (n : Node) : Decidable (isHead n) := by
  unfold isHead; infer_instance

/-- The item a node contributes: for an element named `meta` whose `property`
value starts with `og:`, that value, a blank and the `content` value. -/
def ogItem (mn : Node) : Option String :=
  let p := (lastAttr "property" mn.Attr).getD ""
  let c := (lastAttr "content" mn.Attr).getD ""
  if mn.Kind = NodeType.ElementNode ∧ mn.Data = "meta" ∧ HasPrefix p "og:" = true then
    some (p ++ " " ++ c)
  else none

/-- A tree that yields no item: it has no `head` element, or the first `head`
element in document order has no descendant that contributes an item. -/
def noOGItems (doc : Node) : Prop :=
  (∀ n ∈ doc.Descendants, ¬ isHead n) ∨
  (∃ pre hd post, doc.Descendants = pre ++ hd :: post ∧ (∀ n ∈ pre, ¬ isHead n) ∧ isHead hd ∧
    ∀ mn ∈ hd.Descendants, ogItem mn = none)

/-! ## The result cache (`internal/ogtags_cache`) -/

/-- The constant `ttl`: one hour. -/
def ttl : Nat := 3600 * Second

/-- The constant `sessionKeyPrefix`. -/
def sessionKeyPrefix : String := "ogtag"

/-- The table `hextable` of `encoding/hex`. -/
def hextable : List Char := "0123456789abcdef".toList

/-- The character `hextable[n]`, for `n < 16`. -/
def hexDigit (n : Nat) : Char := hextable.getD n '0'

/-- The loop of `hex.Encode`: two characters for each byte, `hextable[v >> 4]`
and `hextable[v & 0x0f]`. -/
def hexEncode : List (Fin 256) → List Char
  | [] => []
  | v :: rest => hexDigit (v.val / 16) :: hexDigit (v.val % 16) :: hexEncode rest

/-- Go `hex.EncodeToString`. -/
def EncodeToString (src : List (Fin 256)) : String := String.mk (hexEncode src)

/-- A SHA-256 digest, the Go type `[32]byte`. -/
abbrev Digest := Fin 32 → Fin 256

/-- The function `createKey`; `sum256` stands for `sha256.Sum256` on the bytes
of the string. -/
def createKey (sum256 : String → Digest) (url : String) : String :=
  sessionKeyPrefix ++ ":" ++ EncodeToString (List.ofFn (sum256 url))

/-- An entry of the backing store. -/
structure Entry where
  key : String
  value : String
  expiresAt : Nat
  deriving DecidableEq, Repr

/-- Modelled from the spec: the backing store (a Redis server reached through
`redis.Client`, neither among the sources). Following the data model of
`CacheEntry`, it holds for each key at most one entry with a payload and the
instant `expiresAt`, and it is the sole authority on expiry. -/
structure Store where
  entries : List Entry
  deriving DecidableEq, Repr

/-- Modelled from the spec: the live entry under a key when the clock of the
store reads `now`; an entry is never returned once `now ≥ expiresAt`. -/
def Store.lookup (s : Store) (now : Nat) (k : String) : Option Entry :=
  s.entries.find? (fun e => e.key = k ∧ now < e.expiresAt)

/-- Modelled from the spec: `rc.Get(ctx, k).Result()`. A failure of the store
or of the connection (`fault`, with its message) is returned as it is; absence
and expiry are both reported with `redis.Nil`. -/
def Store.Get (s : Store) (now : Nat) (fault : Option String) (k : String) :
    Except RedisError String :=
  match fault with
  | some msg => .error (RedisError.other msg)
  | none =>
    match s.lookup now k with
    | some e => .ok e.value
    | none => .error RedisError.Nil

/-- Modelled from the spec: `rc.Set(ctx, k, v, ttl).Err()`. A write that fails
(`fault`) leaves the store as it is; a write that succeeds replaces the entry
of the key by the value with the expiry `now + ttl`. -/
def Store.Set (s : Store) (now : Nat) (fault : Option String) (k v : String) (life : Nat) :
    Option RedisError × Store :=
  match fault with
  | some msg => (some (RedisError.other msg), s)
  | none =>
    (none, { entries := { key := k, value := v, expiresAt := now + life } ::
      s.entries.filter (fun e => e.key ≠ k) })

/-- The struct `OGCache`: the Redis client, here the store it talks to, and the
digest function `createKey` uses. -/
structure OGCache where
  rc : Store
  sum256 : String → Digest

/-- The method `OGCache.Set`, when the clock of the store reads `now`. -/
def OGCache.Set (c : OGCache) (now : Nat) (fault : Option String) (url : String)
    (jsonByte : String) : Option Error × OGCache :=
  let k := createKey c.sum256 url
  match c.rc.Set now fault k jsonByte ttl with
  | (some err, rc1) =>
    (some (Errorf_w "Set:redisClient.Set:" (some (Error.redis err))), { c with rc := rc1 })
  | (none, rc1) => (none, { c with rc := rc1 })

/-- The method `OGCache.Get`, when the clock of the store reads `now`. -/
def OGCache.Get (c : OGCache) (now : Nat) (fault : Option String) (url : String) :
    String × Option Error :=
  let k := createKey c.sum256 url
  match c.rc.Get now fault k with
  | .error err =>
    if (Error.redis err).Is (Error.redis RedisError.Nil) then ("", some Error.ErrKeyNotFound)
    else ("", some (Errorf_w "Get:redisClient.Get:" (some (Error.redis err))))
  | .ok jsonStr => (jsonStr, none)

/-! ## Views of the client used in the statements -/

/-- The host under which `GetOGTags` looks up the breaker of a target, `none`
when the target is rejected (parse error or empty host). -/
def validHost (env : Env) (url : String) : Option String :=
  match getHost env url with
  | (host, none) => if host = "" then none else some host
  | (_, some _) => none

/-- The hosts a run of calls looks up, in call order. -/
def hostsOf (env : Env) (calls : List (String × Clock)) : List String :=
  calls.filterMap (fun p => validHost env p.1)

/-- The use of `h` in a list of hosts ordered by last use, the most recently
used first: `h` moves (or comes) to the front. -/
def useHost (order : List String) (h : String) : List String :=
  h :: order.erase h

/-- The hosts of a sequence of lookups ordered by last use, the most recently
used first, each host once. -/
def recency (hosts : List String) : List String :=
  hosts.foldl useHost []

/-- What a lookup of `h` by `GetOGTags` does to the keys of a cache of the given
size: a key that is present moves to the front; a new key is put in front, and
the last key is dropped when the size is exceeded. -/
def keysStep (size : Nat) (keys : List String) (h : String) : List String :=
  if h ∈ keys then h :: keys.erase h
  else if keys.length + 1 > size then (h :: keys).dropLast
  else h :: keys


/-- The cache after the lookup of `GetOGTags` for `host`: a hit moves the entry
to the front, a miss inserts `cb`. -/
def Cache.touch (cache : Cache) (host : String) (cb : CircuitBreaker) : Cache :=
  match cache.Get host with
  | (some _, c1) => c1
  | (none, c1) => (c1.Add host cb).2

/-- The breaker a call of `GetOGTags` for `host` runs on: the one the cache
holds, or else a new one, created when the clock reads `created`. -/
def Client.breakerFor (c : Client) (host : String) (created : Nat) : CircuitBreaker :=
  (c.breakersCache.Peek host).getD (newHostBreaker host c.bkcfg created)

/-- The calls of a run that all go to one breaker `cb`: the results in order,
the breaker and the HTTP client at the end. -/
def execSeq (env : Env) : CircuitBreaker → HTTPClient → List (String × Clock) →
    List (Option OGTags × Option Error) × CircuitBreaker × HTTPClient
  | cb, h, [] => ([], cb, h)
  | cb, h, (url, clk) :: rest =>
    let (r, cb1, h1) := cb.Execute clk.before clk.after (fetchOGTags env url) h
    let (rs, cb2, h2) := execSeq env cb1 h1 rest
    (r :: rs, cb2, h2)

/-- The result of a call whose fetch failed in the HTTP client with `e`. -/
def fetchFailed (e : Error) : Option OGTags × Option Error :=
  (none, some (Error.wrap "GetOGTags:retryablehttp.Get" e))

/-- The result of a call the breaker rejected in the open state. -/
def breakerOpen : Option OGTags × Option Error :=
  (none, some Error.ErrOpenState)

/-- The breaker of `host`, made by `newHostBreaker` from the configuration of
`New`, once its first counting window has ended in a trip at the instant
`now`: open, second generation, counts cleared, expiry `now` plus the timeout. -/
def openedBreaker (host : String) (now : Nat) : CircuitBreaker :=
  { name := host ++ "-breaker", maxRequests := 3, interval := 10 * Second,
    timeout := 30 * Second, tripCfg := defaultBkcfg, state := State.StateOpen,
    generation := 2, counts := Counts.clear, expiry := some (now + 30 * Second) }

/-- The state and the request and failure counts of a breaker. -/
def CircuitBreaker.summary (cb : CircuitBreaker) : State × Nat × Nat :=
  (cb.state, cb.counts.Requests, cb.counts.TotalFailures)

/-! ## Example collaborators -/

/-- The URL parser of the examples, on the characters of the string: for
`https://host/path` and `http://host/path` with a plain host it gives the
scheme, host and path `url.Parse` gives; any other string is taken as a path
with no host, as `url.Parse` takes `haha`. -/
def exParseChars : List Char → URL
  | 'h' :: 't' :: 't' :: 'p' :: 's' :: ':' :: '/' :: '/' :: rest =>
    { Scheme := "https", Host := String.mk (rest.takeWhile (fun ch => ch ≠ '/')),
      Path := String.mk (rest.dropWhile (fun ch => ch ≠ '/')) }
  | 'h' :: 't' :: 't' :: 'p' :: ':' :: '/' :: '/' :: rest =>
    { Scheme := "http", Host := String.mk (rest.takeWhile (fun ch => ch ≠ '/')),
      Path := String.mk (rest.dropWhile (fun ch => ch ≠ '/')) }
  | cs => { Scheme := "", Host := "", Path := String.mk cs }

/-- An element node. -/
def elem (name : String) (attrs : List Attribute) (children : List Node) : Node :=
  Node.mk NodeType.ElementNode name attrs children

/-- A `meta` element with a `property` and a `content` attribute. -/
def metaTag (property content : String) : Node :=
  elem "meta" [⟨"", "property", property⟩, ⟨"", "content", content⟩] []

/-- The page of the isolation test,
`<html><head><meta property="og:title" content="Test"/></head></html>`. -/
def exPage : String :=
  "<html><head><meta property=\"og:title\" content=\"Test\"/></head></html>"

/-- The tree `html.Parse` builds for `exPage`. -/
def exPageTree : Node :=
  Node.mk NodeType.DocumentNode "" []
    [elem "html" [] [elem "head" [] [metaTag "og:title" "Test"], elem "body" [] []]]

/-- A page with og tags in the head and one more `meta` in the body. -/
def exBodyPage : String :=
  "<html><head><meta property=\"og:title\" content=\"A\"/><meta name=\"og:type\" content=\"B\"/>" ++
  "<meta property=\"og:url\" content=\"C\"/></head>" ++
  "<body><meta property=\"og:image\" content=\"D\"/></body></html>"

/-- The tree `html.Parse` builds for `exBodyPage`. -/
def exBodyPageTree : Node :=
  Node.mk NodeType.DocumentNode "" []
    [elem "html" []
      [elem "head" []
        [metaTag "og:title" "A",
         elem "meta" [⟨"", "name", "og:type"⟩, ⟨"", "content", "B"⟩] [],
         metaTag "og:url" "C"],
       elem "body" [] [metaTag "og:image" "D"]]]

/-- The tree `html.Parse` builds for the empty input. -/
def exEmptyTree : Node :=
  Node.mk NodeType.DocumentNode "" [] [elem "html" [] [elem "head" [] [], elem "body" [] []]]

/-- The HTML parser of the examples: the trees of the example pages, and the
empty document for the empty input (and for the bodies the examples do not use). -/
def exHtmlParse (body : String) : Except Error Node :=
  if body = exPage then .ok exPageTree
  else if body = exBodyPage then .ok exBodyPageTree
  else .ok exEmptyTree

/-- The collaborators of the examples. -/
def exEnv : Env :=
  { urlParse := fun u => .ok (exParseChars u.toList), htmlParse := exHtmlParse }

/-- An HTTP client that fails on every call (the mock of the breaker tests). -/
def exFailing : HTTPClient :=
  { GetFunc := fun _ _ => .error (Error.ext "network error"), calls := [] }

/-- An HTTP client that answers every call with status 200 and the given body. -/
def exServing (body : String) : HTTPClient :=
  { GetFunc := fun _ _ => .ok { StatusCode := 200, Body := body }, calls := [] }

/-- A clock that reads `t` at each of its three readings. -/
def at_ (t : Nat) : Clock := ⟨t, t, t⟩

/-- An HTTP client whose first `n` calls fail and whose later calls are answered
with status 200 and an empty body. -/
def exFailingFirst (n : Nat) : HTTPClient :=
  { GetFunc := fun k _ =>
      if k < n then .error (Error.ext "network error") else .ok { StatusCode := 200, Body := "" },
    calls := [] }

/-- The URL `https://h….com` of the `i`-th filler host (`i` letters `x`). -/
def exHostUrl (i : Nat) : String :=
  "https://h" ++ String.mk (List.replicate i 'x') ++ ".com"

/-- One call, at instant 0, to each of the first `n` filler hosts. -/
def exFiller (n : Nat) : List (String × Clock) :=
  (List.range n).map (fun i => (exHostUrl i, at_ 0))

/-- An HTTP client that fails for the URL `bad` and answers every other URL with
status 200 and the given body (the mock of the isolation test). -/
def exFailingFor (bad : String) (body : String) : HTTPClient :=
  { GetFunc := fun _ u =>
      if u = bad then .error (Error.ext "network error")
      else .ok { StatusCode := 200, Body := body },
    calls := [] }

/-- A client whose cache is full: five failing calls for `example.com` at
instant 0 have opened its breaker, then 99 other hosts were called, so that
`example.com` is the least recently used of 100 cached hosts. -/
def exFull : Client :=
  (runCalls exEnv (New (exFailingFor "https://example.com" exPage))
    (List.replicate 5 ("https://example.com", at_ 0) ++ exFiller 99)).2

/-- The client of the isolation test after the five failing calls for
`example.com` at instant 0: the breaker of that host is open until 30 s. -/
def exTripped : Client :=
  (runCalls exEnv (New (exFailingFor "https://example.com" exPage))
    (List.replicate 5 ("https://example.com", at_ 0))).2

/-- The breaker of `example.com` that opened at instant 0, once three calls
have been admitted at 31 s, past its timeout, and none of them has ended:
half-open, with three requests. -/
def exTrialsInFlight : CircuitBreaker :=
  ((((openedBreaker "example.com" 0).beforeRequest (31 * Second)).1.beforeRequest
    (31 * Second)).1.beforeRequest (31 * Second)).1

/-- A client that holds the breaker `exTrialsInFlight` for `example.com`. -/
def exHalfOpenClient : Client :=
  { New (exServing exPage) with
    breakersCache := ((Cache.New 100).Add "example.com" exTrialsInFlight).2 }

/-- The breaker of `example.com` that opened at instant 0, at the first request
past its timeout, at 31 s: half-open, with cleared counts. -/
def exHalfOpen : CircuitBreaker :=
  (openedBreaker "example.com" 0).currentState (31 * Second)

/-- A client that holds the breaker `exHalfOpen` for `example.com` and whose
HTTP client serves the page `exPage`. -/
def exTrialClient : Client :=
  { New (exServing exPage) with
    breakersCache := ((Cache.New 100).Add "example.com" exHalfOpen).2 }

/-- A client after four failing calls for `example.com`, 3 s apart from
instant 0 on. -/
def exFourClient : Client :=
  (runCalls exEnv (New exFailing)
    [("https://example.com", at_ 0), ("https://example.com", at_ (3 * Second)),
     ("https://example.com", at_ (6 * Second)), ("https://example.com", at_ (9 * Second))]).2

/-- The breaker of `example.com`, created at instant 0, with four failed
requests counted in its first window. -/
def exFourFailures : CircuitBreaker :=
  { newHostBreaker "example.com" defaultBkcfg 0 with counts := ⟨4, 0, 4, 0, 4⟩ }

/-- The HTTP client `h` with the status code of every response replaced: the
answer to the call number `k` for `url` gets the status code `f k url`, and
keeps its body. -/
def HTTPClient.withStatus (h : HTTPClient) (f : Nat → String → Int) : HTTPClient :=
  { GetFunc := fun k url =>
      match h.GetFunc k url with
      | .error err => .error err
      | .ok res => .ok { res with StatusCode := f k url },
    calls := h.calls }

/-- An HTTP client that answers every call with status 500 and the page
`exPage` as the error page. -/
def exErrorPages : HTTPClient :=
  { GetFunc := fun _ _ => .ok { StatusCode := 500, Body := exPage }, calls := [] }

/-! ## The request handler (`cmd/application.go`, `cmd/errors.go`) -/

/-- The `http.ResponseWriter` a handler writes to, as a
`httptest.ResponseRecorder` shows it: the header map, the status code once the
header is written (`none` before), and the body. -/
structure ResponseWriter where
  header : List (String × String)
  status : Option Nat
  body : String
  deriving DecidableEq, Repr

/-- Go `httptest.NewRecorder()`: nothing written yet. -/
def NewRecorder : ResponseWriter :=
  { header := [], status := none, body := "" }

/-- Go `w.Header().Set(key, value)`. -/
def ResponseWriter.HeaderSet (w : ResponseWriter) (key value : String) : ResponseWriter :=
  { w with header := (key, value) :: w.header.filter (fun kv => kv.1 ≠ key) }

/-- Go `w.Header().Get(key)`. -/
def ResponseWriter.HeaderGet (w : ResponseWriter) (key : String) : String :=
  match w.header.find? (fun kv => kv.1 = key) with
  | some kv => kv.2
  | none => ""

/-- Go `w.WriteHeader(code)`: the first call fixes the status code, a later call
is superfluous and changes nothing. -/
def ResponseWriter.WriteHeader (w : ResponseWriter) (code : Nat) : ResponseWriter :=
  match w.status with
  | none => { w with status := some code }
  | some _ => w

/-- Go `w.Write(b)`: writes the header with status 200 when none was written,
then appends to the body. -/
def ResponseWriter.Write (w : ResponseWriter) (b : String) : ResponseWriter :=
  let w1 := w.WriteHeader 200
  { w1 with body := w1.body ++ b }

/-- A value stored in an `envelope`: the handlers store a string (a message) or
the `*OGTags` of a result. -/
inductive Value where
  | str (s : String)
  | ogs (o : Option OGTags)
  deriving DecidableEq, Repr

/-- The type `envelope` (`map[string]any`, not among the sources): the keys
with their values. -/
abbrev envelope := List (String × Value)

/-- What `validator.Struct(input)` returns for the decoded `url` field: nil, a
`validator.ValidationErrors` (the field broke `required` or `url`) with its
message, or another error. -/
inductive Validation where
  | ok
  | ValidationErrors (msg : String)
  | other (err : Error)
  deriving DecidableEq, Repr

/-- The interface `OGCacheClient`, over the state `σ` of the implementation. -/
structure OGCacheClient (σ : Type) where
  Set : σ → String → String → Option Error × σ
  Get : σ → String → (String × Option Error) × σ

/-- The interface `OGTagClient`, over the state `τ` of the implementation. -/
structure OGTagClient (τ : Type) where
  GetOGTags : τ → String → (Option OGTags × Option Error) × τ

/-- The struct `application`, with the collaborators its handlers use: the
client, the cache, `validator.Struct` on the input of `/og`, the method
`readJSON` (not among the sources; it decodes the body of the request into the
`url` field or fails) and `json.MarshalIndent(data, "", "\t")` on an envelope. -/
structure application (σ τ : Type) where
  client : OGTagClient τ
  cache : OGCacheClient σ
  validator : String → Validation
  readJSON : String → Except Error String
  MarshalIndent : envelope → Except Error String

/-- What a request leaves to observe besides the response: the calls of
`pkg/metrics` and the calls of the collaborators, in order. -/
inductive Event where
  | Inc (endpoint : String)
  | CountResponse (status : Nat) (endpoint : String)
  | CacheHit
  | CacheMiss
  | cacheGet (url : String)
  | cacheSet (url : String) (jsonByte : String)
  | clientGetOGTags (url : String)
  deriving DecidableEq, Repr

/-- Is the event a call of `cache.Get`? -/
def Event.isCacheGet : Event → Bool
  | .cacheGet _ => true
  | _ => false

/-- Is the event a call of `cache.Set`? -/
def Event.isCacheSet : Event → Bool
  | .cacheSet _ _ => true
  | _ => false

/-- Is the event a call of `client.GetOGTags`? -/
def Event.isClientCall : Event → Bool
  | .clientGetOGTags _ => true
  | _ => false

/-- Modelled from the spec: the method `writeJSON` (not among the sources), with
nil extra headers as every caller passes: the envelope is marshalled with tab
indentation and a newline is appended, which is the payload the handler hands
to the cache ("make sure cached value similar to writeJSON result"); then the
content type is set, the status is written and the body follows. When the
marshalling fails nothing is written and the error is returned. -/
def writeJSON (MarshalIndent : envelope → Except Error String) (w : ResponseWriter)
    (status : Nat) (data : envelope) : Option Error × ResponseWriter :=
  match MarshalIndent data with
  | .error err => (some err, w)
  | .ok js =>
    (none, ((w.HeaderSet "Content-Type" "application/json").WriteHeader status).Write (js ++ "\n"))

/-- The method `errorResponse`. -/
def errorResponse {σ τ : Type} (app : application σ τ) (w : ResponseWriter) (status : Nat)
    (message : String) : ResponseWriter :=
  let evl : envelope := [("error", Value.str message)]
  match writeJSON app.MarshalIndent w status evl with
  | (some _, w1) => w1.WriteHeader 500
  | (none, w1) => w1

/-- The method `badRequestResponse`. -/
def badRequestResponse {σ τ : Type} (app : application σ τ) (w : ResponseWriter)
    (_err : Error) : ResponseWriter :=
  errorResponse app w 400 "received bad request"

/-- The method `failedValidationResponse`; `msg` is `err.Error()`. -/
def failedValidationResponse {σ τ : Type} (app : application σ τ) (w : ResponseWriter)
    (msg : String) : ResponseWriter :=
  errorResponse app w 422 msg

/-- The method `serverErrorResponse`. -/
def serverErrorResponse {σ τ : Type} (app : application σ τ) (w : ResponseWriter)
    (_err : Error) : ResponseWriter :=
  errorResponse app w 500 "the server encountered a problem and could not process your request"

/-- What `ogTagHandler` leaves: the response, the states of the cache and of
the client, and the events in order. -/
structure Served (σ τ : Type) where
  w : ResponseWriter
  cache : σ
  client : τ
  events : List Event

/-- The method `ogTagHandler` on the body `r` of a request, from the states
`cs` of the cache and `ts` of the client. -/
def ogTagHandler {σ τ : Type} (app : application σ τ) (w : ResponseWriter) (r : String)
    (cs : σ) (ts : τ) : Served σ τ :=
  let endpoint := "/og"
  let ev := [Event.Inc endpoint]
  match app.readJSON r with
  | .error err =>
    { w := badRequestResponse app w err, cache := cs, client := ts,
      events := ev ++ [Event.CountResponse 400 endpoint] }
  | .ok url =>
    match app.validator url with
    | .ValidationErrors msg =>
      { w := failedValidationResponse app w msg, cache := cs, client := ts,
        events := ev ++ [Event.CountResponse 422 endpoint] }
    | .other err =>
      { w := serverErrorResponse app w err, cache := cs, client := ts,
        events := ev ++ [Event.CountResponse 500 endpoint] }
    | .ok =>
      match app.cache.Get cs url with
      | ((cachedJSON, none), cs1) =>
        { w := ((w.HeaderSet "Content-Type" "application/json").WriteHeader 200).Write cachedJSON,
          cache := cs1, client := ts,
          events := ev ++ [Event.cacheGet url, Event.CacheHit] }
      | ((_, some _), cs1) =>
        let ev := ev ++ [Event.cacheGet url, Event.CacheMiss]
        match app.client.GetOGTags ts url with
        | ((_, some err), ts1) =>
          { w := serverErrorResponse app w err, cache := cs1, client := ts1,
            events := ev ++ [Event.clientGetOGTags url, Event.CountResponse 500 endpoint] }
        | ((ogs, none), ts1) =>
          let ev := ev ++ [Event.clientGetOGTags url]
          let response : envelope := [("result", Value.ogs ogs)]
          match writeJSON app.MarshalIndent w 200 response with
          | (some err, w1) =>
            { w := serverErrorResponse app w1 err, cache := cs1, client := ts1,
              events := ev ++ [Event.CountResponse 500 endpoint] }
          | (none, w1) =>
            match app.MarshalIndent response with
            | .error _ => { w := w1, cache := cs1, client := ts1, events := ev }
            | .ok jsonBytes =>
              let jsonBytes := jsonBytes ++ "\n"
              { w := w1, cache := (app.cache.Set cs1 url jsonBytes).2, client := ts1,
                events := ev ++ [Event.cacheSet url jsonBytes] }

/-! ## Example collaborators of the handler -/

/-- The cache `OGCache` behind the interface `OGCacheClient`, with the clock of
the store at `now` and the given fault of the store for every call. -/
def OGCache.asClient (now : Nat) (fault : Option String) : OGCacheClient OGCache :=
  { Set := fun c url jsonByte => c.Set now fault url jsonByte,
    Get := fun c url => (c.Get now fault url, c) }

/-- The client `Client` behind the interface `OGTagClient`, every call with the
readings `clk` of the clock. -/
def Client.asClient (env : Env) (clk : Clock) : OGTagClient Client :=
  { GetOGTags := fun c url => GetOGTags env c url clk }

/-- A JSON string literal for a string with nothing to escape. -/
def exQuote (s : String) : String := "\"" ++ s ++ "\""

/-- The tab-indented JSON of a value, for strings with nothing to escape. -/
def exMarshalValue : Value → String
  | .str s => exQuote s
  | .ogs none => "null"
  | .ogs (some o) =>
    "\x7b\n\t\t\"url\": " ++ exQuote o.URL ++ ",\n\t\t\"og_tags\": " ++
      (match o.Tags with
       | none => "null"
       | some [] => "[]"
       | some tags => "[\n\t\t\t" ++ ",\n\t\t\t".intercalate (tags.map exQuote) ++ "\n\t\t]") ++
      "\n\t\x7d"

/-- The `json.MarshalIndent(data, "", "\t")` of the examples, for an envelope
with one key. -/
def exMarshalIndent : envelope → Except Error String
  | [(key, v)] => .ok ("\x7b\n\t" ++ exQuote key ++ ": " ++ exMarshalValue v ++ "\n\x7d")
  | _ => .error (Error.ext "json: unsupported value")

/-- The `readJSON` of the examples: the `url` field of a body of the shape
`\x7b"url":"…"\x7d`, an error for any other body. -/
def exReadJSON (r : String) : Except Error String :=
  let cs := r.toList
  if "\x7b\"url\":\"".toList.isPrefixOf cs ∧ "\"\x7d".toList.isSuffixOf cs then
    .ok (String.mk ((cs.drop 8).take (cs.length - 10)))
  else .error (Error.ext "body contains badly-formed JSON")

/-- The validator of the examples: `required` fails on the empty string, `url`
on a string that the URL parser of the examples gives no scheme. -/
def exValidator (url : String) : Validation :=
  if url = "" then
    Validation.ValidationErrors
      "Key: 'URL' Error:Field validation for 'URL' failed on the 'required' tag"
  else if (exParseChars url.toList).Scheme = "" then
    Validation.ValidationErrors
      "Key: 'URL' Error:Field validation for 'URL' failed on the 'url' tag"
  else Validation.ok

/-- The digest of the examples: the first 32 characters of the string, each
reduced to a byte. The examples do not depend on the digest being SHA-256. -/
def exSum256 (s : String) : Digest :=
  fun i => ⟨(s.toList.getD i.val 'x').toNat % 256, Nat.mod_lt _ (by decide)⟩

/-- The application of the examples: the client and the cache of the sources
behind their interfaces, at the instant `now`. -/
def exApp (now : Nat) (fault : Option String) : application OGCache Client :=
  { client := Client.asClient exEnv (at_ now),
    cache := OGCache.asClient now fault,
    validator := exValidator,
    readJSON := exReadJSON,
    MarshalIndent := exMarshalIndent }

/-- An empty cache. -/
def exEmptyCache : OGCache := { rc := { entries := [] }, sum256 := exSum256 }

/-- The body of a request for `https://example.com`. -/
def exRequest : String := "\x7b\"url\":\"https://example.com\"\x7d"

/-- The URL parser of the examples, extended to `file://host/path`: for
`file:///path` it gives the scheme `file`, an empty host and the path, as
`url.Parse` does. -/
def exParseAny : List Char → URL
  | 'f' :: 'i' :: 'l' :: 'e' :: ':' :: '/' :: '/' :: rest =>
    { Scheme := "file", Host := String.mk (rest.takeWhile (fun ch => ch ≠ '/')),
      Path := String.mk (rest.dropWhile (fun ch => ch ≠ '/')) }
  | cs => exParseChars cs

/-- The collaborators of the examples, with the extended URL parser. -/
def exFileEnv : Env :=
  { urlParse := fun u => .ok (exParseAny u.toList), htmlParse := exHtmlParse }

/-- The validator of the examples on the extended URL parser: `required` fails
on the empty string, `url` on a string without a scheme; `file:///path` passes,
as it passes the `url` tag of the validator. -/
def exFileValidator (url : String) : Validation :=
  if url = "" then
    Validation.ValidationErrors
      "Key: 'URL' Error:Field validation for 'URL' failed on the 'required' tag"
  else if (exParseAny url.toList).Scheme = "" then
    Validation.ValidationErrors
      "Key: 'URL' Error:Field validation for 'URL' failed on the 'url' tag"
  else Validation.ok

/-- The application of the examples on the extended URL parser. -/
def exFileApp (now : Nat) (fault : Option String) : application OGCache Client :=
  { client := Client.asClient exFileEnv (at_ now),
    cache := OGCache.asClient now fault,
    validator := exFileValidator,
    readJSON := exReadJSON,
    MarshalIndent := exMarshalIndent }

/-- The body of a request for `file:///path`. -/
def exFileRequest : String := "\x7b\"url\":\"file:///path\"\x7d"

/-! ## The metrics (`pkg/metrics`) -/

/-- One millisecond, as a `time.Duration`. -/
def Millisecond : Nat := 1000000

/-- A `prometheus.HistogramVec`: its name and help, and the values observed so
far, each with its label values, in order. -/
structure HistogramVec where
  Name : String
  Help : String
  observations : List (List String × Float64)
  deriving DecidableEq, Repr

/-- The variable `requestLatency`, with nothing observed. -/
def requestLatency : HistogramVec :=
  { Name := "http_request_duration_seconds",
    Help := "Request latency in seconds by endpoint",
    observations := [] }

/-- The function `Latency` on the histogram `hv`, for a duration that is not
negative and below `2 ^ 53` ns: `float64(duration)` is the number of
nanoseconds of the duration. -/
def Latency (hv : HistogramVec) (args : List String) (duration : Nat) : HistogramVec :=
  let durationSeconds := roundToFloat64 duration 1
  { hv with observations := hv.observations ++ [(args, durationSeconds)] }

/-! # Theorems -/

/-! ## Lemmas on the extraction -/

theorem foldl_attrStep_fst (attrs : List Attribute) (p c : String) :
    (attrs.foldl attrStep (p, c)).1 = (lastAttr "property" attrs).getD p := by
  induction attrs generalizing p c with
  | nil => simp [lastAttr]
  | cons a rest ih =>
    simp only [List.foldl_cons, lastAttr]
    by_cases hp : a.Key = "property"
    · simp only [attrStep, hp, if_true, ih]
      cases lastAttr "property" rest <;> simp
    · by_cases hc : a.Key = "content"
      · simp only [attrStep, hp, hc, if_true, if_false, ih]
        cases lastAttr "property" rest <;> simp
      · simp only [attrStep, hp, hc, if_false, ih]
        cases lastAttr "property" rest <;> simp

theorem foldl_attrStep_snd (attrs : List Attribute) (p c : String) :
    (attrs.foldl attrStep (p, c)).2 = (lastAttr "content" attrs).getD c := by
  induction attrs generalizing p c with
  | nil => simp [lastAttr]
  | cons a rest ih =>
    simp only [List.foldl_cons, lastAttr]
    by_cases hp : a.Key = "property"
    · have hc : a.Key ≠ "content" := by rw [hp]; decide
      simp only [attrStep, hp, if_true, ih]
      cases lastAttr "content" rest <;> simp
    · by_cases hc : a.Key = "content"
      · simp only [attrStep, hp, hc, if_true, if_false, ih]
        cases lastAttr "content" rest <;> simp
      · simp only [attrStep, hp, hc, if_false, ih]
        cases lastAttr "content" rest <;> simp

theorem lastAttr_none_of_no_key (key : String) (attrs : List Attribute)
    (h : ∀ a ∈ attrs, a.Key ≠ key) : lastAttr key attrs = none := by
  induction attrs with
  | nil => rfl
  | cons a rest ih =>
    have h1 : a.Key ≠ key := h a (List.mem_cons_self _ _)
    have h2 := ih (fun b hb => h b (List.mem_cons_of_mem _ hb))
    simp [lastAttr, h2, h1]

theorem processMetaTag_eq (n : Node) :
    processMetaTag n =
      if HasPrefix ((lastAttr "property" n.Attr).getD "") "og:" = true then
        (((lastAttr "property" n.Attr).getD "") ++ " " ++ ((lastAttr "content" n.Attr).getD ""),
          true)
      else ("", false) := by
  unfold processMetaTag
  simp only [foldl_attrStep_fst, foldl_attrStep_snd, Sprintf_s_s]
  cases HasPrefix ((lastAttr "property" n.Attr).getD "") "og:" <;> simp

theorem hasPrefix_iff (s p : String) : HasPrefix s p = true ↔ p.toList <+: s.toList := by
  unfold HasPrefix
  exact List.isPrefixOf_iff_prefix

theorem collectMeta_eq (nodes : List Node) (acc : List String) :
    collectMeta nodes (some acc) = some (acc ++ nodes.filterMap ogItem) := by
  induction nodes generalizing acc with
  | nil => simp [collectMeta]
  | cons mn rest ih =>
    unfold collectMeta
    by_cases hm : mn.Kind = NodeType.ElementNode ∧ mn.Data = "meta"
    · rw [if_pos hm, processMetaTag_eq]
      by_cases hp : HasPrefix ((lastAttr "property" mn.Attr).getD "") "og:" = true
      · have hi : ogItem mn = some (((lastAttr "property" mn.Attr).getD "") ++ " " ++
            ((lastAttr "content" mn.Attr).getD "")) := by
          simp [ogItem, hm.1, hm.2, hp]
        simp only [if_pos hp, goAppend, ih, List.filterMap_cons, hi, List.append_assoc,
          List.singleton_append]
      · have hi : ogItem mn = none := by
          simp [ogItem, hp]
        simp only [if_neg hp, ih, List.filterMap_cons, hi]
    · have hi : ogItem mn = none := by
        unfold ogItem
        rw [if_neg]
        intro h
        exact hm ⟨h.1, h.2.1⟩
      rw [if_neg hm, ih, List.filterMap_cons, hi]

theorem scanHead_no_head (nodes : List Node) (tags : StrSlice)
    (h : ∀ n ∈ nodes, ¬ isHead n) : scanHead nodes tags = tags := by
  induction nodes with
  | nil => rfl
  | cons n rest ih =>
    unfold scanHead
    have h1 : ¬ (n.Kind = NodeType.ElementNode ∧ n.Data = "head") := h n (List.mem_cons_self _ _)
    rw [if_neg h1]
    exact ih (fun m hm => h m (List.mem_cons_of_mem _ hm))

theorem scanHead_first_head (pre post : List Node) (hd : Node) (tags : StrSlice)
    (hpre : ∀ n ∈ pre, ¬ isHead n) (hhd : isHead hd) :
    scanHead (pre ++ hd :: post) tags = collectMeta hd.Descendants tags := by
  induction pre with
  | nil =>
    have h1 : hd.Kind = NodeType.ElementNode ∧ hd.Data = "head" := hhd
    simp only [List.nil_append, scanHead, if_pos h1]
  | cons n rest ih =>
    have h1 : ¬ (n.Kind = NodeType.ElementNode ∧ n.Data = "head") := hpre n (List.mem_cons_self _ _)
    simp only [List.cons_append, scanHead, if_neg h1]
    exact ih (fun m hm => hpre m (List.mem_cons_of_mem _ hm))

/-- The value built from a parsed tree: the input URL, and the items of the
descendants of the first `head` element in document order (no item when the
tree has no such element). -/
theorem buildOGTags_eq (url : String) (doc : Node) :
    (buildOGTags url doc).URL = url ∧
    ((∀ n ∈ doc.Descendants, ¬ isHead n) → (buildOGTags url doc).Tags = some []) ∧
    (∀ pre hd post, doc.Descendants = pre ++ hd :: post → (∀ n ∈ pre, ¬ isHead n) →
      isHead hd → (buildOGTags url doc).Tags = some (hd.Descendants.filterMap ogItem)) := by
  refine ⟨rfl, ?_, ?_⟩
  · intro h
    simp only [buildOGTags]
    exact scanHead_no_head _ _ h
  · intro pre hd post hdoc hpre hhd
    simp only [buildOGTags, hdoc]
    rw [scanHead_first_head pre post hd _ hpre hhd, collectMeta_eq]
    simp

/-! ## C8 -/

/-- C8: `processMetaTag` returns the `property` value, a blank and the
`content` value (empty when absent), with `true`, exactly when the `property`
value has the prefix `og:` (case-sensitive); otherwise it returns the empty
string and `false`, in particular when there is no `property` attribute, as
for a tag that carries the og name in a `name` attribute. A tag without content
gives the property and a trailing blank, and every emitted item starts with
`og:`. -/
theorem processMetaTag_spec (n : Node) :
    (HasPrefix ((lastAttr "property" n.Attr).getD "") "og:" = true →
      processMetaTag n =
        (((lastAttr "property" n.Attr).getD "") ++ " " ++ ((lastAttr "content" n.Attr).getD ""),
          true)) ∧
    (HasPrefix ((lastAttr "property" n.Attr).getD "") "og:" = false →
      processMetaTag n = ("", false)) ∧
    ((∀ a ∈ n.Attr, a.Key ≠ "property") → processMetaTag n = ("", false)) ∧
    (∀ s, processMetaTag n = (s, true) → "og:".toList <+: s.toList) ∧
    processMetaTag (Node.mk NodeType.ElementNode "meta" [⟨"", "property", "og:title"⟩] [])
      = ("og:title ", true) ∧
    processMetaTag (Node.mk NodeType.ElementNode "meta"
      [⟨"", "name", "og:title"⟩, ⟨"", "content", "Hello"⟩] []) = ("", false) ∧
    processMetaTag (Node.mk NodeType.ElementNode "meta"
      [⟨"", "property", "OG:title"⟩, ⟨"", "content", "Hello"⟩] []) = ("", false) := by
  refine ⟨?_, ?_, ?_, ?_, by decide, by decide, by decide⟩
  · intro h
    rw [processMetaTag_eq, if_pos h]
  · intro h
    rw [processMetaTag_eq, h]
    simp
  · intro h
    rw [processMetaTag_eq, lastAttr_none_of_no_key _ _ h]
    rfl
  · intro s hs
    rw [processMetaTag_eq] at hs
    by_cases hp : HasPrefix ((lastAttr "property" n.Attr).getD "") "og:" = true
    · rw [if_pos hp] at hs
      have hs1 : s = ((lastAttr "property" n.Attr).getD "") ++ " " ++
          ((lastAttr "content" n.Attr).getD "") := (congrArg Prod.fst hs).symm
      rw [hs1]
      have h1 := (hasPrefix_iff _ _).1 hp
      simp only [String.toList, String.data_append] at h1 ⊢
      exact h1.trans (by simp [List.append_assoc])
    · rw [if_neg hp] at hs
      exact absurd (congrArg Prod.snd hs) (by simp)

/-! ## Lemmas on the LRU cache -/

theorem find_eraseP_ne (items : List (String × CircuitBreaker)) (a b : String) (hab : a ≠ b) :
    (items.eraseP (fun e => e.1 = b)).find? (fun e => e.1 = a)
      = items.find? (fun e => e.1 = a) := by
  have hba : ¬ b = a := fun h => hab h.symm
  induction items with
  | nil => rfl
  | cons x rest ih =>
    by_cases hxb : x.1 = b
    · simp [List.eraseP_cons, hxb, List.find?_cons, hba]
    · by_cases hxa : x.1 = a
      · simp [List.eraseP_cons, hxb, List.find?_cons, hxa, hab]
      · simp [List.eraseP_cons, hxb, List.find?_cons, hxa, ih]

theorem find_store_ne (items : List (String × CircuitBreaker)) (a b : String) (hab : a ≠ b)
    (v : CircuitBreaker) :
    (items.map (fun e => if e.1 = b then (b, v) else e)).find? (fun e => e.1 = a)
      = items.find? (fun e => e.1 = a) := by
  have hba : ¬ b = a := fun h => hab h.symm
  induction items with
  | nil => rfl
  | cons x rest ih =>
    rw [List.map_cons, List.find?_cons, List.find?_cons, ih]
    by_cases hxb : x.1 = b
    · have hxa : ¬ x.1 = a := fun h => hab (h.symm.trans hxb)
      simp [hxb, hxa, hba]
    · simp [hxb]

theorem find_some_fst (items : List (String × CircuitBreaker)) (a : String)
    (e : String × CircuitBreaker) (h : items.find? (fun e => e.1 = a) = some e) : e.1 = a := by
  have := List.find?_some h
  simpa using this

theorem Cache.peek_store_ne (cache : Cache) (a b : String) (hab : a ≠ b) (v : CircuitBreaker) :
    (cache.store b v).Peek a = cache.Peek a := by
  simp only [Cache.Peek, Cache.store, find_store_ne _ _ _ hab]

theorem Cache.peek_touch_ne (cache : Cache) (a host : String) (cb : CircuitBreaker)
    (hab : a ≠ host) (hroom : cache.Contains host = true ∨ cache.Len < cache.size) :
    (cache.touch host cb).Peek a = cache.Peek a := by
  unfold Cache.touch Cache.Get
  cases hf : cache.items.find? (fun e => e.1 = host) with
  | some e =>
    have he := find_some_fst _ _ _ hf
    have hea : ¬ e.1 = a := fun h => hab (h.symm.trans he)
    simp [Cache.Peek, List.find?_cons, hea, find_eraseP_ne _ _ _ hab]
  | none =>
    have hlen : cache.Len < cache.size := by
      rcases hroom with h | h
      · simp [Cache.Contains, hf] at h
      · exact h
    have hl : ¬ ((host, cb) :: cache.items).length > cache.size := by
      simp only [List.length_cons, Cache.Len] at hlen ⊢
      omega
    have hha : ¬ host = a := fun h => hab h.symm
    simp only [Cache.Add, hf, Option.isSome_none, Bool.false_eq_true, if_false, if_neg hl]
    simp [Cache.Peek, List.find?_cons, hha]

/-! ## Lemmas on the breaker -/

theorem currentState_open_in_timeout (cb : CircuitBreaker) (e now : Nat)
    (hs : cb.state = State.StateOpen) (he : cb.expiry = some e) (hn : now ≤ e) :
    cb.currentState now = cb := by
  have h : ¬ e < now := by omega
  simp [CircuitBreaker.currentState, hs, he, expiryBefore, h]

/-- An open breaker whose timeout has not passed rejects the request: the
request is not run and the breaker is unchanged. -/
theorem Execute_open {σ T : Type} (cb : CircuitBreaker) (e tB tA : Nat)
    (req : σ → (Option T × Option Error) × σ) (w : σ)
    (hs : cb.state = State.StateOpen) (he : cb.expiry = some e) (hb : tB ≤ e) :
    cb.Execute tB tA req w = ((none, some Error.ErrOpenState), cb, w) := by
  simp [CircuitBreaker.Execute, CircuitBreaker.beforeRequest,
    currentState_open_in_timeout cb e tB hs he hb, hs]

/-- A closed breaker runs the request; when both readings of the clock fall in
the current counting window the outcome is recorded on top of the request
count. -/
theorem Execute_closed_in_window {σ T : Type} (cb : CircuitBreaker) (e tB tA : Nat)
    (req : σ → (Option T × Option Error) × σ) (w : σ)
    (hs : cb.state = State.StateClosed) (he : cb.expiry = some e) (hb : tB ≤ e) (ha : tA ≤ e) :
    cb.Execute tB tA req w =
      ((req w).1,
        (if (req w).1.2.isNone then
          ({ cb with counts := cb.counts.onRequest } : CircuitBreaker).onSuccess
            State.StateClosed tA
        else
          ({ cb with counts := cb.counts.onRequest } : CircuitBreaker).onFailure
            State.StateClosed tA),
        (req w).2) := by
  obtain ⟨name, mr, iv, tmo, cfg, st, gen, cnt, ex⟩ := cb
  simp only at hs he
  subst hs he
  have hb1 : ¬ e < tB := by omega
  have ha1 : ¬ e < tA := by omega
  simp [CircuitBreaker.Execute, CircuitBreaker.beforeRequest, CircuitBreaker.currentState,
    CircuitBreaker.afterRequest, expiryBefore, hb1, ha1]

/-! ## Lemmas on `GetOGTags` -/

theorem GetOGTags_valid (env : Env) (c : Client) (url : String) (clk : Clock) (host : String)
    (hh : getHost env url = (host, none)) (hne : host ≠ "") :
    GetOGTags env c url clk =
      (((c.breakerFor host clk.created).Execute clk.before clk.after
          (fetchOGTags env url) c.client).1,
        { c with
          client := ((c.breakerFor host clk.created).Execute clk.before clk.after
            (fetchOGTags env url) c.client).2.2,
          breakersCache :=
            (c.breakersCache.touch host (newHostBreaker host c.bkcfg clk.created)).store host
              ((c.breakerFor host clk.created).Execute clk.before clk.after
                (fetchOGTags env url) c.client).2.1 }) := by
  unfold GetOGTags
  simp only [hh, Option.isSome_none, Bool.false_eq_true, false_or, if_neg hne]
  unfold Client.breakerFor Cache.touch Cache.Peek Cache.Get
  cases hf : c.breakersCache.items.find? (fun e => e.1 = host) with
  | some e => simp
  | none => simp

theorem contains_of_wrap (ctx : String) (err : Option Error) :
    Contains (Errorf_w ctx err).Error ctx := by
  unfold Contains
  cases err with
  | none =>
    simp only [Errorf_w, Error.Error, String.toList, String.data_append]
    exact (List.prefix_append _ _).isInfix
  | some e =>
    simp only [Errorf_w, Error.Error, String.toList, String.data_append, List.append_assoc]
    exact (List.prefix_append _ _).isInfix

/-! ## Runs of calls for one host -/

theorem Cache.size_touch (cache : Cache) (host : String) (cb : CircuitBreaker) :
    (cache.touch host cb).size = cache.size := by
  unfold Cache.touch Cache.Get Cache.Add
  cases hf : cache.items.find? (fun e => e.1 = host) with
  | some e => rfl
  | none =>
    simp only [hf, Option.isSome_none, Bool.false_eq_true, if_false]
    split <;> rfl

theorem Cache.keys_store (cache : Cache) (host : String) (v : CircuitBreaker) :
    (cache.store host v).Keys = cache.Keys := by
  simp only [Cache.Keys, Cache.store, List.map_map]
  apply List.map_congr_left
  intro e _
  by_cases he : e.1 = host
  · simp [he]
  · simp [he]

theorem Cache.front_touch_store (cache : Cache) (host : String) (cb v : CircuitBreaker)
    (hsize : 1 ≤ cache.size) :
    ∃ l, ((cache.touch host cb).store host v).items = (host, v) :: l := by
  unfold Cache.touch Cache.Get
  cases hf : cache.items.find? (fun e => e.1 = host) with
  | some e =>
    have he := find_some_fst _ _ _ hf
    simp [Cache.store, he]
  | none =>
    simp only [Cache.Add, hf, Option.isSome_none, Bool.false_eq_true, if_false]
    by_cases hl : ((host, cb) :: cache.items).length > cache.size
    · rw [if_pos hl]
      cases hi : cache.items with
      | nil => simp [hi] at hl; omega
      | cons y l =>
        have hd : ((host, cb) :: y :: l).dropLast = (host, cb) :: (y :: l).dropLast := rfl
        simp [Cache.store, hd]
    · rw [if_neg hl]
      simp [Cache.store]

theorem Cache.touch_front (cache : Cache) (host : String) (cb v : CircuitBreaker)
    (l : List (String × CircuitBreaker)) (hi : cache.items = (host, v) :: l) :
    cache.touch host cb = cache := by
  obtain ⟨size, items⟩ := cache
  simp only at hi
  subst hi
  simp [Cache.touch, Cache.Get]

theorem Cache.peek_front (cache : Cache) (host : String) (v : CircuitBreaker)
    (l : List (String × CircuitBreaker)) (hi : cache.items = (host, v) :: l) :
    cache.Peek host = some v := by
  simp [Cache.Peek, hi]

theorem runCalls_cons (env : Env) (c : Client) (url : String) (clk : Clock)
    (rest : List (String × Clock)) :
    runCalls env c ((url, clk) :: rest)
      = ((GetOGTags env c url clk).1 :: (runCalls env (GetOGTags env c url clk).2 rest).1,
          (runCalls env (GetOGTags env c url clk).2 rest).2) := by
  conv_lhs => rw [runCalls]

theorem runCalls_single (env : Env) (c : Client) (url : String) (clk : Clock) :
    runCalls env c [(url, clk)] = ([(GetOGTags env c url clk).1], (GetOGTags env c url clk).2) := by
  rw [runCalls_cons]
  rfl

theorem execSeq_cons (env : Env) (cb : CircuitBreaker) (h : HTTPClient) (url : String)
    (clk : Clock) (rest : List (String × Clock)) :
    execSeq env cb h ((url, clk) :: rest)
      = ((cb.Execute clk.before clk.after (fetchOGTags env url) h).1 ::
          (execSeq env (cb.Execute clk.before clk.after (fetchOGTags env url) h).2.1
            (cb.Execute clk.before clk.after (fetchOGTags env url) h).2.2 rest).1,
          (execSeq env (cb.Execute clk.before clk.after (fetchOGTags env url) h).2.1
            (cb.Execute clk.before clk.after (fetchOGTags env url) h).2.2 rest).2) := by
  conv_lhs => rw [execSeq]

/-- What one call for a valid host does to the client, in terms of the run of
`Execute` on the host's breaker. -/
theorem GetOGTags_valid_facts (env : Env) (c : Client) (url : String) (clk : Clock)
    (host : String) (hh : getHost env url = (host, none)) (hne : host ≠ "")
    (hsize : 1 ≤ c.breakersCache.size) :
    (GetOGTags env c url clk).1
        = ((c.breakerFor host clk.created).Execute clk.before clk.after
            (fetchOGTags env url) c.client).1 ∧
    (GetOGTags env c url clk).2.client
        = ((c.breakerFor host clk.created).Execute clk.before clk.after
            (fetchOGTags env url) c.client).2.2 ∧
    (∃ l, (GetOGTags env c url clk).2.breakersCache.items
        = (host, ((c.breakerFor host clk.created).Execute clk.before clk.after
            (fetchOGTags env url) c.client).2.1) :: l) ∧
    (GetOGTags env c url clk).2.breakersCache.Keys
        = (c.breakersCache.touch host (newHostBreaker host c.bkcfg clk.created)).Keys ∧
    (GetOGTags env c url clk).2.breakersCache.size = c.breakersCache.size ∧
    (GetOGTags env c url clk).2.bkcfg = c.bkcfg := by
  rw [GetOGTags_valid env c url clk host hh hne]
  refine ⟨rfl, rfl, ?_, ?_, ?_, rfl⟩
  · exact Cache.front_touch_store _ _ _ _ hsize
  · exact Cache.keys_store _ _ _
  · show (c.breakersCache.touch host _).size = _
    exact Cache.size_touch _ _ _

/-- A run of calls that all go to one host is a run on that host's breaker: the
results, the HTTP client and the breaker at the end are those of `execSeq` on
the breaker the first call finds or creates, and the keys of the cache are
those left by the first lookup. -/
theorem runCalls_same_host (env : Env) (host : String) (hne : host ≠ "") :
    ∀ (rest : List (String × Clock)) (c : Client) (url : String) (clk : Clock),
      1 ≤ c.breakersCache.size → getHost env url = (host, none) →
      (∀ p ∈ rest, getHost env p.1 = (host, none)) →
      (runCalls env c ((url, clk) :: rest)).1
          = (execSeq env (c.breakerFor host clk.created) c.client ((url, clk) :: rest)).1 ∧
      (runCalls env c ((url, clk) :: rest)).2.client
          = (execSeq env (c.breakerFor host clk.created) c.client ((url, clk) :: rest)).2.2 ∧
      (∃ l, (runCalls env c ((url, clk) :: rest)).2.breakersCache.items
          = (host, (execSeq env (c.breakerFor host clk.created) c.client
              ((url, clk) :: rest)).2.1) :: l) ∧
      (runCalls env c ((url, clk) :: rest)).2.breakersCache.Keys
          = (c.breakersCache.touch host (newHostBreaker host c.bkcfg clk.created)).Keys ∧
      (runCalls env c ((url, clk) :: rest)).2.breakersCache.size = c.breakersCache.size ∧
      (runCalls env c ((url, clk) :: rest)).2.bkcfg = c.bkcfg := by
  intro rest
  induction rest with
  | nil =>
    intro c url clk hsize hh _
    obtain ⟨f1, f2, f3, f4, f5, f6⟩ := GetOGTags_valid_facts env c url clk host hh hne hsize
    rw [runCalls_cons, execSeq_cons]
    simp only [runCalls, execSeq]
    exact ⟨by rw [f1], f2, f3, f4, f5, f6⟩
  | cons p rest ih =>
    intro c url clk hsize hh hrest
    obtain ⟨url2, clk2⟩ := p
    have hh2 : getHost env url2 = (host, none) := hrest (url2, clk2) (List.mem_cons_self _ _)
    have hrest2 : ∀ q ∈ rest, getHost env q.1 = (host, none) :=
      fun q hq => hrest q (List.mem_cons_of_mem _ hq)
    obtain ⟨f1, f2, ⟨l, f3⟩, f4, f5, f6⟩ :=
      GetOGTags_valid_facts env c url clk host hh hne hsize
    have step := ih (GetOGTags env c url clk).2 url2 clk2 (by rw [f5]; exact hsize) hh2 hrest2
    have hbf : (GetOGTags env c url clk).2.breakerFor host clk2.created
        = ((c.breakerFor host clk.created).Execute clk.before clk.after
            (fetchOGTags env url) c.client).2.1 := by
      show ((GetOGTags env c url clk).2.breakersCache.Peek host).getD _ = _
      rw [Cache.peek_front _ host _ l f3]
      rfl
    have htouch : (GetOGTags env c url clk).2.breakersCache.touch host
        (newHostBreaker host (GetOGTags env c url clk).2.bkcfg clk2.created)
        = (GetOGTags env c url clk).2.breakersCache :=
      Cache.touch_front _ host _ _ l f3
    rw [hbf, f2, htouch, f4, f5, f6] at step
    obtain ⟨s1, s2, s3, s4, s5, s6⟩ := step
    rw [runCalls_cons, execSeq_cons]
    exact ⟨by rw [f1, s1], s2, s3, s4, s5, s6⟩

theorem runCalls_append (env : Env) (l1 l2 : List (String × Clock)) (c : Client) :
    runCalls env c (l1 ++ l2)
      = ((runCalls env c l1).1 ++ (runCalls env (runCalls env c l1).2 l2).1,
          (runCalls env (runCalls env c l1).2 l2).2) := by
  induction l1 generalizing c with
  | nil => simp [runCalls]
  | cons p rest ih =>
    obtain ⟨url, clk⟩ := p
    rw [List.cons_append, runCalls_cons, runCalls_cons, ih]
    simp

theorem fetchOGTags_fail (env : Env) (h : HTTPClient) (url : String) (e : Error)
    (hf : h.GetFunc h.calls.length url = .error e) :
    fetchOGTags env url h = (fetchFailed e, { h with calls := h.calls ++ [url] }) := by
  simp [fetchOGTags, HTTPClient.Get, hf, fetchFailed, Errorf_w]

theorem fetchOGTags_ok (env : Env) (h : HTTPClient) (url : String) (res : Response) (doc : Node)
    (hok : h.GetFunc h.calls.length url = .ok res) (hdoc : env.htmlParse res.Body = .ok doc) :
    fetchOGTags env url h
      = ((some (buildOGTags url doc), none), { h with calls := h.calls ++ [url] }) := by
  simp [fetchOGTags, HTTPClient.Get, hok, hdoc]

theorem toNewGeneration_state (cb : CircuitBreaker) (now : Nat) :
    (cb.toNewGeneration now).state = cb.state := rfl

theorem currentState_closed_state (cb : CircuitBreaker) (now : Nat)
    (hs : cb.state = State.StateClosed) : (cb.currentState now).state = State.StateClosed := by
  unfold CircuitBreaker.currentState
  rw [hs]
  by_cases h : cb.expiry.isSome ∧ expiryBefore cb.expiry now
  · simp only [if_pos h, toNewGeneration_state, hs]
  · simp only [if_neg h, hs]

theorem beforeRequest_closed (cb : CircuitBreaker) (now : Nat)
    (hs : cb.state = State.StateClosed) :
    cb.beforeRequest now
      = ({ cb.currentState now with counts := (cb.currentState now).counts.onRequest },
          (cb.currentState now).generation, none) := by
  simp [CircuitBreaker.beforeRequest, currentState_closed_state cb now hs]

/-- A closed breaker runs the request, whatever the clock reads: the result and
the effect on the outer state are those of the request. -/
theorem Execute_closed_runs {σ T : Type} (cb : CircuitBreaker) (tB tA : Nat)
    (req : σ → (Option T × Option Error) × σ) (w : σ) (hs : cb.state = State.StateClosed) :
    (cb.Execute tB tA req w).1 = (req w).1 ∧ (cb.Execute tB tA req w).2.2 = (req w).2 := by
  simp [CircuitBreaker.Execute, beforeRequest_closed cb tB hs]

/-- A success recorded by a closed breaker leaves it closed, whatever the clock
reads and whatever its counts are. -/
theorem Execute_closed_success {σ T : Type} (cb : CircuitBreaker) (tB tA : Nat)
    (req : σ → (Option T × Option Error) × σ) (w : σ) (hs : cb.state = State.StateClosed)
    (hok : (req w).1.2 = none) :
    (cb.Execute tB tA req w).2.1.state = State.StateClosed := by
  have h1 : ({ cb.currentState tB with counts := (cb.currentState tB).counts.onRequest } :
      CircuitBreaker).state = State.StateClosed := currentState_closed_state cb tB hs
  have h2 := currentState_closed_state _ tA h1
  simp only [CircuitBreaker.Execute, beforeRequest_closed cb tB hs, CircuitBreaker.afterRequest,
    hok, Option.isNone_none, if_true]
  split_ifs
  · exact h2
  · rw [h2]
    exact h2

/-! ## Five failures in one counting window -/

/-- Five failing fetches on a new breaker, all within its first counting
window: each is run, and the fifth opens the breaker. -/
theorem execSeq_five_failures (env : Env) (h : HTTPClient) (host : String)
    (u1 u2 u3 u4 u5 : String) (c1 c2 c3 c4 c5 : Clock) (e1 e2 e3 e4 e5 : Error)
    (hf1 : h.GetFunc h.calls.length u1 = .error e1)
    (hf2 : h.GetFunc (h.calls.length + 1) u2 = .error e2)
    (hf3 : h.GetFunc (h.calls.length + 2) u3 = .error e3)
    (hf4 : h.GetFunc (h.calls.length + 3) u4 = .error e4)
    (hf5 : h.GetFunc (h.calls.length + 4) u5 = .error e5)
    (hw : ∀ clk ∈ [c1, c2, c3, c4, c5],
      clk.before ≤ c1.created + 10 * Second ∧ clk.after ≤ c1.created + 10 * Second) :
    execSeq env (newHostBreaker host defaultBkcfg c1.created) h
      [(u1, c1), (u2, c2), (u3, c3), (u4, c4), (u5, c5)]
      = ([fetchFailed e1, fetchFailed e2, fetchFailed e3, fetchFailed e4, fetchFailed e5],
          openedBreaker host c5.after,
          { h with calls := h.calls ++ [u1, u2, u3, u4, u5] }) := by
  simp only [List.mem_cons, List.mem_singleton, forall_eq_or_imp, forall_eq, List.not_mem_nil,
    false_implies, implies_true, and_true] at hw
  obtain ⟨⟨b1, a1⟩, ⟨b2, a2⟩, ⟨b3, a3⟩, ⟨b4, a4⟩, ⟨b5, a5⟩⟩ := hw
  have nb1 : ¬ (c1.created + 10 * Second < c1.before) := by omega
  have na1 : ¬ (c1.created + 10 * Second < c1.after) := by omega
  have nb2 : ¬ (c1.created + 10 * Second < c2.before) := by omega
  have na2 : ¬ (c1.created + 10 * Second < c2.after) := by omega
  have nb3 : ¬ (c1.created + 10 * Second < c3.before) := by omega
  have na3 : ¬ (c1.created + 10 * Second < c3.after) := by omega
  have nb4 : ¬ (c1.created + 10 * Second < c4.before) := by omega
  have na4 : ¬ (c1.created + 10 * Second < c4.after) := by omega
  have nb5 : ¬ (c1.created + 10 * Second < c5.before) := by omega
  have na5 : ¬ (c1.created + 10 * Second < c5.after) := by omega
  have hs : ¬ (10 * Second = 0) := by decide
  have hs3 : ¬ (30 * Second = 0) := by decide
  simp [execSeq, newHostBreaker, NewCircuitBreaker, defaultBkcfg, CircuitBreaker.toNewGeneration,
    CircuitBreaker.Execute, CircuitBreaker.beforeRequest, CircuitBreaker.currentState,
    CircuitBreaker.afterRequest, CircuitBreaker.onFailure, CircuitBreaker.setState,
    expiryBefore, ReadyToTrip, ratioGe, Counts.onRequest, Counts.onFailure, Counts.clear, u32, u64,
    fetchOGTags, HTTPClient.Get, fetchFailed, Errorf_w, openedBreaker,
    hf1, hf2, hf3, hf4, hf5, nb1, na1, nb2, na2, nb3, na3, nb4, na4, nb5, na5, hs, hs3]

/-- On a fresh client, a run of calls for one host is the run of `execSeq` on a
new breaker of that host. -/
theorem runCalls_fresh_same_host (env : Env) (h : HTTPClient) (host : String) (hne : host ≠ "")
    (url : String) (clk : Clock) (rest : List (String × Clock))
    (hh : getHost env url = (host, none))
    (hrest : ∀ p ∈ rest, getHost env p.1 = (host, none)) :
    (runCalls env (New h) ((url, clk) :: rest)).1
        = (execSeq env (newHostBreaker host defaultBkcfg clk.created) h ((url, clk) :: rest)).1 ∧
    (runCalls env (New h) ((url, clk) :: rest)).2.client
        = (execSeq env (newHostBreaker host defaultBkcfg clk.created) h ((url, clk) :: rest)).2.2 ∧
    (runCalls env (New h) ((url, clk) :: rest)).2.breakersCache.items
        = [(host, (execSeq env (newHostBreaker host defaultBkcfg clk.created) h
            ((url, clk) :: rest)).2.1)] ∧
    (runCalls env (New h) ((url, clk) :: rest)).2.breakersCache.size = 100 ∧
    (runCalls env (New h) ((url, clk) :: rest)).2.bkcfg = defaultBkcfg := by
  have hbf : (New h).breakerFor host clk.created = newHostBreaker host defaultBkcfg clk.created := by
    simp [Client.breakerFor, New, Cache.New, Cache.Peek]
  obtain ⟨r1, r2, ⟨l, r3⟩, r4, r5, r6⟩ :=
    runCalls_same_host env host hne rest (New h) url clk (by simp [New, Cache.New]) hh hrest
  rw [hbf] at r1 r2 r3
  have hk : ((New h).breakersCache.touch host (newHostBreaker host (New h).bkcfg clk.created)).Keys
      = [host] := by
    simp [New, Cache.New, Cache.touch, Cache.Get, Cache.Add, Cache.Keys]
  rw [hk] at r4
  have hl : l = [] := by
    have := congrArg List.length r4
    simp only [Cache.Keys, List.length_map, r3, List.length_cons, List.length_nil] at this
    exact List.length_eq_zero.1 (by omega)
  subst hl
  exact ⟨r1, r2, r3, r5, r6⟩

/-! ## Calls on a client that holds an open breaker, calls for another host -/

/-- A call for a host whose cached breaker is open and whose timeout has not
passed is rejected with the breaker-open error: the HTTP client is not called
and the breaker stays as it is, in front of the cache. -/
theorem GetOGTags_rejected_when_open (env : Env) (c : Client) (url : String) (clk : Clock)
    (host : String) (cb : CircuitBreaker) (e : Nat)
    (hh : getHost env url = (host, none)) (hne : host ≠ "") (hsize : 1 ≤ c.breakersCache.size)
    (hp : c.breakersCache.Peek host = some cb) (hs : cb.state = State.StateOpen)
    (he : cb.expiry = some e) (hb : clk.before ≤ e) :
    (GetOGTags env c url clk).1 = breakerOpen ∧
    (GetOGTags env c url clk).2.client = c.client ∧
    (∃ l, (GetOGTags env c url clk).2.breakersCache.items = (host, cb) :: l) ∧
    (GetOGTags env c url clk).2.breakersCache.Keys
      = (c.breakersCache.touch host (newHostBreaker host c.bkcfg clk.created)).Keys ∧
    (GetOGTags env c url clk).2.breakersCache.size = c.breakersCache.size ∧
    (GetOGTags env c url clk).2.bkcfg = c.bkcfg := by
  obtain ⟨f1, f2, f3, f4, f5, f6⟩ := GetOGTags_valid_facts env c url clk host hh hne hsize
  have hbf : c.breakerFor host clk.created = cb := by
    simp [Client.breakerFor, hp]
  rw [hbf, Execute_open cb e clk.before clk.after _ _ hs he hb] at f1 f2 f3
  exact ⟨f1, f2, f3, f4, f5, f6⟩

/-- A call for a valid host `b` leaves the breaker cached for another host `a`
as it is, provided `b` is cached already or the cache has room. -/
theorem GetOGTags_peek_other (env : Env) (c : Client) (url : String) (clk : Clock)
    (a b : String) (hh : getHost env url = (b, none)) (hne : b ≠ "") (hab : a ≠ b)
    (hroom : c.breakersCache.Contains b = true ∨ c.breakersCache.Len < c.breakersCache.size) :
    (GetOGTags env c url clk).2.breakersCache.Peek a = c.breakersCache.Peek a := by
  rw [GetOGTags_valid env c url clk b hh hne]
  show (Cache.store _ b _).Peek a = _
  rw [Cache.peek_store_ne _ a b hab, Cache.peek_touch_ne _ a b _ hab hroom]

/-- On a fresh client, five failing calls for URLs of one host, all within the
first counting window of its breaker: each is run, and the cache then holds the
opened breaker of that host and nothing else. -/
theorem runCalls_fresh_five_failures (env : Env) (h : HTTPClient) (host : String)
    (hne : host ≠ "") (u1 u2 u3 u4 u5 : String) (c1 c2 c3 c4 c5 : Clock)
    (hu : ∀ u ∈ [u1, u2, u3, u4, u5], getHost env u = (host, none))
    (hfail : ∀ k, ∀ u ∈ [u1, u2, u3, u4, u5], ∃ e, h.GetFunc k u = .error e)
    (hw : ∀ clk ∈ [c1, c2, c3, c4, c5],
      clk.before ≤ c1.created + 10 * Second ∧ clk.after ≤ c1.created + 10 * Second) :
    (∃ e1 e2 e3 e4 e5,
      (runCalls env (New h) [(u1, c1), (u2, c2), (u3, c3), (u4, c4), (u5, c5)]).1
        = [fetchFailed e1, fetchFailed e2, fetchFailed e3, fetchFailed e4, fetchFailed e5]) ∧
    (runCalls env (New h) [(u1, c1), (u2, c2), (u3, c3), (u4, c4), (u5, c5)]).2.client
      = { h with calls := h.calls ++ [u1, u2, u3, u4, u5] } ∧
    (runCalls env (New h) [(u1, c1), (u2, c2), (u3, c3), (u4, c4), (u5, c5)]).2.breakersCache.items
      = [(host, openedBreaker host c5.after)] ∧
    (runCalls env (New h) [(u1, c1), (u2, c2), (u3, c3), (u4, c4), (u5, c5)]).2.breakersCache.size
      = 100 ∧
    (runCalls env (New h) [(u1, c1), (u2, c2), (u3, c3), (u4, c4), (u5, c5)]).2.bkcfg
      = defaultBkcfg := by
  obtain ⟨e1, hf1⟩ := hfail h.calls.length u1 (by simp)
  obtain ⟨e2, hf2⟩ := hfail (h.calls.length + 1) u2 (by simp)
  obtain ⟨e3, hf3⟩ := hfail (h.calls.length + 2) u3 (by simp)
  obtain ⟨e4, hf4⟩ := hfail (h.calls.length + 3) u4 (by simp)
  obtain ⟨e5, hf5⟩ := hfail (h.calls.length + 4) u5 (by simp)
  have hexec := execSeq_five_failures env h host u1 u2 u3 u4 u5 c1 c2 c3 c4 c5
    e1 e2 e3 e4 e5 hf1 hf2 hf3 hf4 hf5 hw
  simp only [List.mem_cons, List.mem_singleton, forall_eq_or_imp, forall_eq, List.not_mem_nil,
    false_implies, implies_true, and_true] at hu
  obtain ⟨g1, g2, g3, g4, g5⟩ := hu
  obtain ⟨r1, r2, r3, r4, r5⟩ := runCalls_fresh_same_host env h host hne u1 c1
    [(u2, c2), (u3, c3), (u4, c4), (u5, c5)] g1 (by
      intro p hp
      simp only [List.mem_cons, List.mem_singleton, List.not_mem_nil, or_false] at hp
      rcases hp with hp | hp | hp | hp <;> simp [hp, g2, g3, g4, g5])
  rw [hexec] at r1 r2 r3
  exact ⟨⟨e1, e2, e3, e4, e5, r1⟩, r2, r3, r4, r5⟩

/-! ## C1 -/

theorem currentState_closed_bounds (cb : CircuitBreaker) (now : Nat)
    (hs : cb.state = State.StateClosed) :
    (cb.currentState now).counts.Requests ≤ cb.counts.Requests ∧
    (cb.currentState now).tripCfg = cb.tripCfg := by
  unfold CircuitBreaker.currentState
  rw [hs]
  by_cases hx : cb.expiry.isSome ∧ expiryBefore cb.expiry now
  · simp [if_pos hx, CircuitBreaker.toNewGeneration, Counts.clear]
  · simp [if_neg hx]

/-- An outcome recorded by a closed breaker that holds fewer than five requests
leaves it closed, whatever the clock reads: five requests are needed to trip. -/
theorem afterRequest_closed_below_five (cb : CircuitBreaker) (tA m : Nat) (success : Bool)
    (hs : cb.state = State.StateClosed) (hcfg : cb.tripCfg = defaultBkcfg)
    (hreq : cb.counts.Requests ≤ m) (hm : m < 5) :
    (cb.afterRequest cb.generation success tA).state = State.StateClosed ∧
    (cb.afterRequest cb.generation success tA).tripCfg = defaultBkcfg ∧
    (cb.afterRequest cb.generation success tA).counts.Requests ≤ m := by
  obtain ⟨name, mr, iv, tmo, cfg, st, gen, cnt, ex⟩ := cb
  simp only at hs hcfg hreq
  subst hs hcfg
  have hlt : ¬ 5 ≤ cnt.Requests := by omega
  simp only [CircuitBreaker.afterRequest, CircuitBreaker.currentState]
  by_cases hx : ex.isSome = true ∧ expiryBefore ex tA = true
  · simp only [if_pos hx]
    cases success <;>
      split_ifs <;>
        simp [CircuitBreaker.toNewGeneration, CircuitBreaker.onSuccess,
          CircuitBreaker.onFailure, CircuitBreaker.setState, Counts.clear, Counts.onSuccess,
          Counts.onFailure, ReadyToTrip, ratioGe, defaultBkcfg, u32]
  · simp only [if_neg hx]
    cases success <;>
      simp [CircuitBreaker.onSuccess, CircuitBreaker.onFailure, CircuitBreaker.setState,
        Counts.onSuccess, Counts.onFailure, ReadyToTrip, ratioGe, defaultBkcfg, u32, hlt, hreq]

/-- A failure on a closed breaker that has recorded fewer than four requests
leaves it closed, whatever the clock reads. -/
theorem Execute_closed_failure_below_five {σ T : Type} (cb : CircuitBreaker) (tB tA n : Nat)
    (req : σ → (Option T × Option Error) × σ) (w : σ) (hs : cb.state = State.StateClosed)
    (hcfg : cb.tripCfg = defaultBkcfg) (hreq : cb.counts.Requests ≤ n) (hn : n + 1 < 5) :
    (cb.Execute tB tA req w).2.1.state = State.StateClosed ∧
    (cb.Execute tB tA req w).2.1.tripCfg = defaultBkcfg ∧
    (cb.Execute tB tA req w).2.1.counts.Requests ≤ n + 1 := by
  obtain ⟨b1, b2⟩ := currentState_closed_bounds cb tB hs
  have hs1 := currentState_closed_state cb tB hs
  have hle : ({ cb.currentState tB with counts := (cb.currentState tB).counts.onRequest } :
      CircuitBreaker).counts.Requests ≤ n + 1 := by
    show u32 ((cb.currentState tB).counts.Requests + 1) ≤ n + 1
    unfold u32
    exact Nat.le_trans (Nat.mod_le _ _) (by omega)
  have key := afterRequest_closed_below_five
    ({ cb.currentState tB with counts := (cb.currentState tB).counts.onRequest } :
      CircuitBreaker) tA (n + 1) (req w).1.2.isNone hs1 (by rw [← hcfg, ← b2]) hle hn
  simp only [CircuitBreaker.Execute, beforeRequest_closed cb tB hs]
  exact key

/-- On a closed breaker that has recorded at most `n` requests, up to `5 - n`
failing fetches are all run, whatever the clock reads. -/
theorem execSeq_failures_any_time (env : Env) (h : HTTPClient)
    (hfail : ∀ k u, ∃ e, h.GetFunc k u = .error e) :
    ∀ (calls : List (String × Clock)) (cb : CircuitBreaker) (hc : HTTPClient) (n : Nat),
      cb.state = State.StateClosed → cb.tripCfg = defaultBkcfg → cb.counts.Requests ≤ n →
      n + calls.length ≤ 5 → hc.GetFunc = h.GetFunc →
      (∀ r ∈ (execSeq env cb hc calls).1, ∃ e, r = fetchFailed e) ∧
      (execSeq env cb hc calls).1.length = calls.length ∧
      (execSeq env cb hc calls).2.2.calls = hc.calls ++ calls.map Prod.fst := by
  intro calls
  induction calls with
  | nil => intro cb hc n _ _ _ _ _; simp [execSeq]
  | cons p rest ih =>
    intro cb hc n hs hcfg hreq hlen hg
    obtain ⟨url, clk⟩ := p
    obtain ⟨e, he⟩ := hfail hc.calls.length url
    rw [← hg] at he
    have hfetch := fetchOGTags_fail env hc url e he
    obtain ⟨x1, x2⟩ := Execute_closed_runs cb clk.before clk.after (fetchOGTags env url) hc hs
    rw [hfetch] at x1 x2
    rw [execSeq_cons, x1, x2]
    by_cases hr : rest = []
    · subst hr
      simp [execSeq]
    · have hrl : 1 ≤ rest.length := by
        cases rest with
        | nil => exact absurd rfl hr
        | cons _ _ => simp
      simp only [List.length_cons] at hlen
      obtain ⟨y1, y2, y3⟩ := Execute_closed_failure_below_five cb clk.before clk.after n
        (fetchOGTags env url) hc hs hcfg hreq (by omega)
      obtain ⟨i1, i2, i3⟩ := ih _ { hc with calls := hc.calls ++ [url] } (n + 1) y1 y2 y3
        (by omega) hg
      refine ⟨?_, by simp [i2], by rw [i3]; simp⟩
      intro r hrm
      rcases List.mem_cons.1 hrm with hrm | hrm
      · exact ⟨e, hrm⟩
      · exact i1 r hrm

/-- C1: on a fresh client whose HTTP client always fails, each of five
consecutive calls of `GetOGTags` for one URL calls the HTTP client once and
returns a nil result with the fetch-failure error, the fifth included, whatever
the clock reads. When the five calls fall within the first counting window of
the host's breaker, the fifth opens it: the sixth call, made before the open
timeout has passed, returns the breaker-open error and the HTTP client is not
called again (five calls in all). -/
theorem five_failures_open_breaker (env : Env) (h : HTTPClient) (url host : String)
    (c1 c2 c3 c4 c5 c6 : Clock)
    (hh : getHost env url = (host, none)) (hne : host ≠ "")
    (hfail : ∀ k u, ∃ e, h.GetFunc k u = .error e) :
    (∀ k, k ≤ 5 →
      (∀ r ∈ (runCalls env (New h)
          (List.take k [(url, c1), (url, c2), (url, c3), (url, c4), (url, c5)])).1,
        ∃ e, r = fetchFailed e) ∧
      (runCalls env (New h)
          (List.take k [(url, c1), (url, c2), (url, c3), (url, c4), (url, c5)])).1.length = k ∧
      (runCalls env (New h)
          (List.take k [(url, c1), (url, c2), (url, c3), (url, c4), (url, c5)])).2.client.calls
        = h.calls ++ List.replicate k url) ∧
    ((∀ clk ∈ [c1, c2, c3, c4, c5],
        clk.before ≤ c1.created + 10 * Second ∧ clk.after ≤ c1.created + 10 * Second) →
      c6.before ≤ c5.after + 30 * Second →
      (∃ e1 e2 e3 e4 e5,
        (runCalls env (New h)
          [(url, c1), (url, c2), (url, c3), (url, c4), (url, c5), (url, c6)]).1
          = [fetchFailed e1, fetchFailed e2, fetchFailed e3, fetchFailed e4, fetchFailed e5,
              breakerOpen]) ∧
      (runCalls env (New h)
        [(url, c1), (url, c2), (url, c3), (url, c4), (url, c5), (url, c6)]).2.client.calls
        = h.calls ++ List.replicate 5 url) := by
  have hall : ∀ (l : List (String × Clock)), (∀ p ∈ l, p.1 = url) →
      ∀ p ∈ l, getHost env p.1 = (host, none) := by
    intro l hl p hp
    rw [hl p hp]; exact hh
  have hfive : ∀ p ∈ [(url, c1), (url, c2), (url, c3), (url, c4), (url, c5)], p.1 = url := by
    intro p hp
    simp only [List.mem_cons, List.mem_singleton, List.not_mem_nil, or_false] at hp
    rcases hp with hp | hp | hp | hp | hp <;> rw [hp]
  constructor
  · intro k hk
    cases hl : List.take k [(url, c1), (url, c2), (url, c3), (url, c4), (url, c5)] with
    | nil =>
      have hk0 : k = 0 := by
        cases k with
        | zero => rfl
        | succ m => simp at hl
      subst hk0
      simp [runCalls, New]
    | cons p rest =>
      obtain ⟨u, clk⟩ := p
      have hsub : ∀ q ∈ (u, clk) :: rest, q.1 = url := by
        intro q hq
        rw [← hl] at hq
        exact hfive q (List.mem_of_mem_take hq)
      have hlenk : ((u, clk) :: rest).length = k := by
        rw [← hl, List.length_take]
        simp only [List.length_cons, List.length_nil]
        omega
      have hmap : ((u, clk) :: rest).map Prod.fst = List.replicate k url := by
        rw [List.eq_replicate_iff]
        refine ⟨by rw [List.length_map, hlenk], ?_⟩
        intro b hb
        obtain ⟨q, hq, hqb⟩ := List.mem_map.1 hb
        rw [← hqb]
        exact hsub q hq
      obtain ⟨r1, r2, _⟩ := runCalls_fresh_same_host env h host hne u clk rest
        (hall _ hsub (u, clk) (List.mem_cons_self _ _))
        (fun q hq => hall _ hsub q (List.mem_cons_of_mem _ hq))
      obtain ⟨a1, a2, a3⟩ := execSeq_failures_any_time env h hfail ((u, clk) :: rest)
        (newHostBreaker host defaultBkcfg clk.created) h 0 rfl rfl (Nat.le_refl 0)
        (by rw [hlenk]; omega) rfl
      rw [r1, r2]
      exact ⟨a1, by rw [a2, hlenk], by rw [a3, hmap]⟩
  · intro hw h6
    obtain ⟨⟨e1, e2, e3, e4, e5, r1⟩, r2, r3, r4, _⟩ := runCalls_fresh_five_failures env h host
      hne url url url url url c1 c2 c3 c4 c5
      (fun u hu => by
        simp only [List.mem_cons, List.mem_singleton, List.not_mem_nil, or_false, or_self] at hu
        rw [hu]; exact hh)
      (fun k u _ => hfail k u) hw
    obtain ⟨s1, s2, _⟩ := GetOGTags_rejected_when_open env
      (runCalls env (New h) [(url, c1), (url, c2), (url, c3), (url, c4), (url, c5)]).2 url c6
      host (openedBreaker host c5.after) (c5.after + 30 * Second) hh hne
      (by rw [r4]; decide) (Cache.peek_front _ host _ [] r3) rfl rfl h6
    have hrun6 : runCalls env (New h)
        [(url, c1), (url, c2), (url, c3), (url, c4), (url, c5), (url, c6)]
        = runCalls env (New h)
          ([(url, c1), (url, c2), (url, c3), (url, c4), (url, c5)] ++ [(url, c6)]) := rfl
    refine ⟨⟨e1, e2, e3, e4, e5, ?_⟩, ?_⟩
    · rw [hrun6, runCalls_append, r1, runCalls_single, s1]
      rfl
    · rw [hrun6, runCalls_append, runCalls_single]
      show (GetOGTags env _ url c6).2.client.calls = _
      rw [s2, r2]
      rfl

/-- The closed instance of C1 on the collaborators of the examples: five
failing calls at instant 0, the sixth exactly 30 s later. -/
theorem five_failures_open_breaker_witness :
    (∃ e1 e2 e3 e4 e5,
      (runCalls exEnv (New exFailing)
        [("https://example.com", at_ 0), ("https://example.com", at_ 0),
         ("https://example.com", at_ 0), ("https://example.com", at_ 0),
         ("https://example.com", at_ 0), ("https://example.com", at_ (30 * Second))]).1
        = [fetchFailed e1, fetchFailed e2, fetchFailed e3, fetchFailed e4, fetchFailed e5,
            breakerOpen]) ∧
    (runCalls exEnv (New exFailing)
      [("https://example.com", at_ 0), ("https://example.com", at_ 0),
       ("https://example.com", at_ 0), ("https://example.com", at_ 0),
       ("https://example.com", at_ 0), ("https://example.com", at_ (30 * Second))]).2.client.calls
      = exFailing.calls ++ List.replicate 5 "https://example.com" :=
  (five_failures_open_breaker exEnv exFailing "https://example.com" "example.com"
    (at_ 0) (at_ 0) (at_ 0) (at_ 0) (at_ 0) (at_ (30 * Second)) (by decide) (by decide)
    (fun _ _ => ⟨_, rfl⟩)).2 (by decide) (by decide)

/-! ## C4 -/

/-- C4: URLs with one host share one breaker, whatever their paths. On a fresh
client whose HTTP client always fails, five calls split in any way between two
URLs of one host (within the first counting window of the breaker) are all run,
the breaker is open after the fifth, the cache holds exactly one entry, that of
the host, and the next call to either URL (before the open timeout has passed)
gets the breaker-open error without a call of the HTTP client. -/
theorem same_host_shares_breaker (env : Env) (h : HTTPClient) (host url1 url2 : String)
    (u1 u2 u3 u4 u5 u6 : String) (c1 c2 c3 c4 c5 c6 : Clock)
    (hh1 : getHost env url1 = (host, none)) (hh2 : getHost env url2 = (host, none))
    (hne : host ≠ "")
    (hu : ∀ u ∈ [u1, u2, u3, u4, u5, u6], u = url1 ∨ u = url2)
    (hfail : ∀ k u, ∃ e, h.GetFunc k u = .error e)
    (hw : ∀ clk ∈ [c1, c2, c3, c4, c5],
      clk.before ≤ c1.created + 10 * Second ∧ clk.after ≤ c1.created + 10 * Second)
    (h6 : c6.before ≤ c5.after + 30 * Second) :
    (∃ e1 e2 e3 e4 e5,
      (runCalls env (New h) [(u1, c1), (u2, c2), (u3, c3), (u4, c4), (u5, c5)]).1
        = [fetchFailed e1, fetchFailed e2, fetchFailed e3, fetchFailed e4, fetchFailed e5]) ∧
    (runCalls env (New h) [(u1, c1), (u2, c2), (u3, c3), (u4, c4), (u5, c5)]).2.client.calls
      = h.calls ++ [u1, u2, u3, u4, u5] ∧
    (∃ cb, (runCalls env (New h)
        [(u1, c1), (u2, c2), (u3, c3), (u4, c4), (u5, c5)]).2.breakersCache.items = [(host, cb)] ∧
      cb.state = State.StateOpen) ∧
    (GetOGTags env (runCalls env (New h)
        [(u1, c1), (u2, c2), (u3, c3), (u4, c4), (u5, c5)]).2 u6 c6).1 = breakerOpen ∧
    (GetOGTags env (runCalls env (New h)
        [(u1, c1), (u2, c2), (u3, c3), (u4, c4), (u5, c5)]).2 u6 c6).2.client.calls
      = h.calls ++ [u1, u2, u3, u4, u5] ∧
    (GetOGTags env (runCalls env (New h)
        [(u1, c1), (u2, c2), (u3, c3), (u4, c4), (u5, c5)]).2 u6 c6).2.breakersCache.Keys
      = [host] := by
  have hget : ∀ u ∈ [u1, u2, u3, u4, u5, u6], getHost env u = (host, none) := by
    intro u hmem
    rcases hu u hmem with h1 | h1 <;> rw [h1] <;> assumption
  obtain ⟨r1, r2, r3, r4, _⟩ := runCalls_fresh_five_failures env h host hne u1 u2 u3 u4 u5
    c1 c2 c3 c4 c5 (fun u hmem => hget u (by
      simp only [List.mem_cons, List.mem_singleton, List.not_mem_nil, or_false] at hmem ⊢
      tauto)) (fun k u _ => hfail k u) hw
  obtain ⟨s1, s2, _, s4, _, _⟩ := GetOGTags_rejected_when_open env
    (runCalls env (New h) [(u1, c1), (u2, c2), (u3, c3), (u4, c4), (u5, c5)]).2 u6 c6 host
    (openedBreaker host c5.after) (c5.after + 30 * Second) (hget u6 (by simp)) hne
    (by rw [r4]; decide) (Cache.peek_front _ host _ [] r3) rfl rfl h6
  refine ⟨r1, by rw [r2], ⟨_, r3, rfl⟩, s1, by rw [s2, r2], ?_⟩
  rw [s4, Cache.touch_front _ host _ _ [] r3]
  simp [Cache.Keys, r3]

/-- The split of the test: three failures on `/page1`, two on `/page2`, then
one more call to `/page1`. -/
theorem same_host_shares_breaker_witness :
    (∃ e1 e2 e3 e4 e5,
      (runCalls exEnv (New exFailing)
        [("https://example.com/page1", at_ 0), ("https://example.com/page1", at_ 0),
         ("https://example.com/page1", at_ 0), ("https://example.com/page2", at_ 0),
         ("https://example.com/page2", at_ 0)]).1
        = [fetchFailed e1, fetchFailed e2, fetchFailed e3, fetchFailed e4, fetchFailed e5]) ∧
    (runCalls exEnv (New exFailing)
        [("https://example.com/page1", at_ 0), ("https://example.com/page1", at_ 0),
         ("https://example.com/page1", at_ 0), ("https://example.com/page2", at_ 0),
         ("https://example.com/page2", at_ 0)]).2.client.calls
      = exFailing.calls ++ ["https://example.com/page1", "https://example.com/page1",
          "https://example.com/page1", "https://example.com/page2",
          "https://example.com/page2"] ∧
    (∃ cb, (runCalls exEnv (New exFailing)
        [("https://example.com/page1", at_ 0), ("https://example.com/page1", at_ 0),
         ("https://example.com/page1", at_ 0), ("https://example.com/page2", at_ 0),
         ("https://example.com/page2", at_ 0)]).2.breakersCache.items = [("example.com", cb)] ∧
      cb.state = State.StateOpen) ∧
    (GetOGTags exEnv (runCalls exEnv (New exFailing)
        [("https://example.com/page1", at_ 0), ("https://example.com/page1", at_ 0),
         ("https://example.com/page1", at_ 0), ("https://example.com/page2", at_ 0),
         ("https://example.com/page2", at_ 0)]).2 "https://example.com/page1" (at_ 1)).1
      = breakerOpen ∧
    (GetOGTags exEnv (runCalls exEnv (New exFailing)
        [("https://example.com/page1", at_ 0), ("https://example.com/page1", at_ 0),
         ("https://example.com/page1", at_ 0), ("https://example.com/page2", at_ 0),
         ("https://example.com/page2", at_ 0)]).2 "https://example.com/page1"
        (at_ 1)).2.client.calls
      = exFailing.calls ++ ["https://example.com/page1", "https://example.com/page1",
          "https://example.com/page1", "https://example.com/page2",
          "https://example.com/page2"] ∧
    (GetOGTags exEnv (runCalls exEnv (New exFailing)
        [("https://example.com/page1", at_ 0), ("https://example.com/page1", at_ 0),
         ("https://example.com/page1", at_ 0), ("https://example.com/page2", at_ 0),
         ("https://example.com/page2", at_ 0)]).2 "https://example.com/page1"
        (at_ 1)).2.breakersCache.Keys
      = ["example.com"] :=
  same_host_shares_breaker exEnv exFailing "example.com" "https://example.com/page1"
    "https://example.com/page2" "https://example.com/page1" "https://example.com/page1"
    "https://example.com/page1" "https://example.com/page2" "https://example.com/page2"
    "https://example.com/page1" (at_ 0) (at_ 0) (at_ 0) (at_ 0) (at_ 0) (at_ 1)
    (by decide) (by decide) (by decide) (by decide) (fun _ _ => ⟨_, rfl⟩) (by decide)
    (by decide)

/-! ## C2 -/

theorem ReadyToTrip_default_iff (counts : Counts) :
    ReadyToTrip defaultBkcfg counts = true ↔
      5 ≤ counts.Requests ∧ 6 * counts.Requests ≤ 10 * counts.TotalFailures := by
  unfold ReadyToTrip ratioGe
  by_cases h0 : counts.Requests = 0
  · simp [defaultBkcfg, u32, h0]
  · simp only [defaultBkcfg, u32, h0, if_false, Bool.and_eq_true, decide_eq_true_eq]
    constructor <;> intro h <;> refine ⟨?_, ?_⟩ <;> omega

/-- Three failures followed by two successes at one instant: the breaker has
recorded five requests of which three failed (ratio 0.6, so the trip condition
holds on its counts), yet it is closed, and the sixth call is run against the
HTTP client. -/
theorem no_trip_after_success :
    (runCalls exEnv (New (exFailingFirst 3))
        (List.replicate 5 ("https://example.com", at_ 0))).2.breakersCache.items.map
        (fun e => (e.1, e.2.summary))
      = [("example.com", State.StateClosed, 5, 3)] ∧
    ReadyToTrip defaultBkcfg ⟨5, 2, 3, 2, 0⟩ = true ∧
    (GetOGTags exEnv (runCalls exEnv (New (exFailingFirst 3))
        (List.replicate 5 ("https://example.com", at_ 0))).2 "https://example.com" (at_ 0)).1
      = (some ⟨"https://example.com", some []⟩, none) ∧
    (GetOGTags exEnv (runCalls exEnv (New (exFailingFirst 3))
        (List.replicate 5 ("https://example.com", at_ 0))).2 "https://example.com"
        (at_ 0)).2.client.calls.length = 6 := by
  decide

/-- C2 (amended): for every host, while its breaker is closed and a call is
recorded in the current counting window: a failing call after which the counts
hold at least five requests with at least six failures in ten opens the
breaker, and the next call for the host, made before the 30 s timeout has
passed, is rejected without a call of the HTTP client; a successful call leaves
the breaker closed whatever the counts are. -/
theorem trip_after_recorded_failure (env : Env) (c : Client) (url url2 : String)
    (clk clk2 : Clock) (host : String) (e : Nat)
    (hh : getHost env url = (host, none)) (hh2 : getHost env url2 = (host, none))
    (hne : host ≠ "") (hsize : 1 ≤ c.breakersCache.size)
    (hs : (c.breakerFor host clk.created).state = State.StateClosed)
    (he : (c.breakerFor host clk.created).expiry = some e)
    (hb : clk.before ≤ e) (ha : clk.after ≤ e)
    (hcfg : (c.breakerFor host clk.created).tripCfg = defaultBkcfg)
    (htmo : (c.breakerFor host clk.created).timeout = 30 * Second) :
    ((fetchOGTags env url c.client).1.2.isSome = true →
      5 ≤ (c.breakerFor host clk.created).counts.onRequest.onFailure.Requests →
      6 * (c.breakerFor host clk.created).counts.onRequest.onFailure.Requests
        ≤ 10 * (c.breakerFor host clk.created).counts.onRequest.onFailure.TotalFailures →
      (∃ cb, (GetOGTags env c url clk).2.breakersCache.Peek host = some cb ∧
        cb.state = State.StateOpen ∧ cb.expiry = some (clk.after + 30 * Second)) ∧
      (clk2.before ≤ clk.after + 30 * Second →
        (GetOGTags env (GetOGTags env c url clk).2 url2 clk2).1 = breakerOpen ∧
        (GetOGTags env (GetOGTags env c url clk).2 url2 clk2).2.client
          = (GetOGTags env c url clk).2.client)) ∧
    ((fetchOGTags env url c.client).1.2 = none →
      ∃ cb, (GetOGTags env c url clk).2.breakersCache.Peek host = some cb ∧
        cb.state = State.StateClosed ∧
        cb.counts = (c.breakerFor host clk.created).counts.onRequest.onSuccess) := by
  obtain ⟨_, _, ⟨l, f3⟩, _, f5, _⟩ := GetOGTags_valid_facts env c url clk host hh hne hsize
  rw [Execute_closed_in_window _ e clk.before clk.after _ _ hs he hb ha] at f3
  constructor
  · intro hfail h5 h6
    have hn : ¬ ((fetchOGTags env url c.client).1.2.isNone = true) := by
      cases hx : (fetchOGTags env url c.client).1.2 with
      | none => simp [hx] at hfail
      | some _ => simp
    have htrip : ReadyToTrip (c.breakerFor host clk.created).tripCfg
        (c.breakerFor host clk.created).counts.onRequest.onFailure = true := by
      rw [hcfg]
      exact (ReadyToTrip_default_iff _).2 ⟨h5, h6⟩
    have hopen : (({ c.breakerFor host clk.created with
          counts := (c.breakerFor host clk.created).counts.onRequest } :
          CircuitBreaker).onFailure State.StateClosed clk.after).state = State.StateOpen ∧
        (({ c.breakerFor host clk.created with
          counts := (c.breakerFor host clk.created).counts.onRequest } :
          CircuitBreaker).onFailure State.StateClosed clk.after).expiry
          = some (clk.after + 30 * Second) := by
      simp [CircuitBreaker.onFailure, htrip, CircuitBreaker.setState, hs,
        CircuitBreaker.toNewGeneration, htmo]
    simp only [if_neg hn] at f3
    have hpeek := Cache.peek_front _ host _ l f3
    refine ⟨⟨_, hpeek, hopen.1, hopen.2⟩, ?_⟩
    intro hb2
    obtain ⟨s1, s2, _⟩ := GetOGTags_rejected_when_open env (GetOGTags env c url clk).2 url2 clk2
      host _ (clk.after + 30 * Second) hh2 hne (by rw [f5]; exact hsize) hpeek hopen.1 hopen.2 hb2
    exact ⟨s1, s2⟩
  · intro hok
    have hy : (fetchOGTags env url c.client).1.2.isNone = true := by simp [hok]
    simp only [if_pos hy] at f3
    refine ⟨_, Cache.peek_front _ host _ l f3, ?_, ?_⟩
    · simp [CircuitBreaker.onSuccess, hs]
    · simp [CircuitBreaker.onSuccess]

/-- The fifth failure in a row at instant 0 opens the breaker until 30 s, and a
call one nanosecond later is rejected. -/
theorem trip_after_recorded_failure_witness :
    (∃ cb, (GetOGTags exEnv (runCalls exEnv (New exFailing)
          (List.replicate 4 ("https://example.com", at_ 0))).2 "https://example.com"
          (at_ 0)).2.breakersCache.Peek "example.com" = some cb ∧
        cb.state = State.StateOpen ∧ cb.expiry = some ((at_ 0).after + 30 * Second)) ∧
      ((at_ 1).before ≤ (at_ 0).after + 30 * Second →
        (GetOGTags exEnv (GetOGTags exEnv (runCalls exEnv (New exFailing)
          (List.replicate 4 ("https://example.com", at_ 0))).2 "https://example.com"
          (at_ 0)).2 "https://example.com/again" (at_ 1)).1 = breakerOpen ∧
        (GetOGTags exEnv (GetOGTags exEnv (runCalls exEnv (New exFailing)
          (List.replicate 4 ("https://example.com", at_ 0))).2 "https://example.com"
          (at_ 0)).2 "https://example.com/again" (at_ 1)).2.client
          = (GetOGTags exEnv (runCalls exEnv (New exFailing)
          (List.replicate 4 ("https://example.com", at_ 0))).2 "https://example.com"
          (at_ 0)).2.client) :=
  (trip_after_recorded_failure exEnv (runCalls exEnv (New exFailing)
      (List.replicate 4 ("https://example.com", at_ 0))).2 "https://example.com"
      "https://example.com/again" (at_ 0) (at_ 1) "example.com" (10 * Second)
      (by decide) (by decide) (by decide) (by decide) (by decide) (by decide) (by decide)
      (by decide) (by decide) (by decide)).1 (by decide) (by decide) (by decide)

/-! ## C3 -/

theorem GetOGTags_front (env : Env) (c : Client) (url : String) (clk : Clock) (host : String)
    (hh : getHost env url = (host, none)) (hne : host ≠ "") (hsize : 1 ≤ c.breakersCache.size) :
    (GetOGTags env c url clk).2.breakersCache.Contains host = true ∧
    (GetOGTags env c url clk).2.breakersCache.size = c.breakersCache.size := by
  obtain ⟨_, _, ⟨l, f3⟩, _, f5, _⟩ := GetOGTags_valid_facts env c url clk host hh hne hsize
  exact ⟨by simp [Cache.Contains, f3], f5⟩

/-- Calls for a host `b` leave the breaker cached for another host `a` as it
is, provided `b` is cached already or the cache has room. -/
theorem runCalls_peek_other (env : Env) (a b : String) (hne : b ≠ "") (hab : a ≠ b) :
    ∀ (calls : List (String × Clock)) (c : Client), 1 ≤ c.breakersCache.size →
      (c.breakersCache.Contains b = true ∨ c.breakersCache.Len < c.breakersCache.size) →
      (∀ p ∈ calls, getHost env p.1 = (b, none)) →
      (runCalls env c calls).2.breakersCache.Peek a = c.breakersCache.Peek a := by
  intro calls
  induction calls with
  | nil => intro c _ _ _; rfl
  | cons p rest ih =>
    intro c hsize hroom hall
    obtain ⟨url, clk⟩ := p
    have hh : getHost env url = (b, none) := hall (url, clk) (List.mem_cons_self _ _)
    obtain ⟨g1, g2⟩ := GetOGTags_front env c url clk b hh hne hsize
    rw [runCalls_cons]
    show (runCalls env (GetOGTags env c url clk).2 rest).2.breakersCache.Peek a = _
    rw [ih (GetOGTags env c url clk).2 (by rw [g2]; exact hsize) (Or.inl g1)
      (fun q hq => hall q (List.mem_cons_of_mem _ hq)),
      GetOGTags_peek_other env c url clk a b hh hne hab hroom]

/-- The full cache of the example: `example.com` is open and its calls are
rejected; one call for the new host `different.com` evicts its breaker, and the
next call for `example.com` is run against the HTTP client again. -/
theorem isolation_broken_by_eviction :
    exFull.breakersCache.Len = 100 ∧
    (exFull.breakersCache.Peek "example.com").map (fun cb => cb.state)
      = some State.StateOpen ∧
    (GetOGTags exEnv exFull "https://example.com" (at_ 0)).1 = breakerOpen ∧
    (GetOGTags exEnv exFull "https://different.com" (at_ 0)).2.breakersCache.Peek "example.com"
      = none ∧
    (GetOGTags exEnv (GetOGTags exEnv exFull "https://different.com" (at_ 0)).2
        "https://example.com" (at_ 0)).1 = fetchFailed (Error.ext "network error") := by
  set_option maxRecDepth 100000 in decide

/-- C3 (amended): for two distinct hosts `a` and `b`, the breaker cached for `a`
(its state and counts) is unchanged by any number of calls for URLs of `b`,
provided `b` is cached already or the cache has room, so that no call for `b`
evicts the entry of `a`. In particular, on a fresh client, after five failures
within one counting window have opened the breaker of `a`, a call for `b` is
run against the HTTP client and succeeds, and a call for `a` made before the
open timeout has passed is still rejected with the breaker-open error, the HTTP
client not being called. -/
theorem breaker_isolation (env : Env) (a b : String) (ha : a ≠ "") (hb : b ≠ "")
    (hab : a ≠ b) :
    (∀ (c : Client) (calls : List (String × Clock)), 1 ≤ c.breakersCache.size →
      (c.breakersCache.Contains b = true ∨ c.breakersCache.Len < c.breakersCache.size) →
      (∀ p ∈ calls, getHost env p.1 = (b, none)) →
      (runCalls env c calls).2.breakersCache.Peek a = c.breakersCache.Peek a) ∧
    (∀ (h : HTTPClient) (urlA urlB : String) (c1 c2 c3 c4 c5 cB c7 : Clock),
      getHost env urlA = (a, none) → getHost env urlB = (b, none) →
      (∀ k, ∃ e, h.GetFunc k urlA = .error e) →
      (∀ k, ∃ res doc, h.GetFunc k urlB = .ok res ∧ env.htmlParse res.Body = .ok doc) →
      (∀ clk ∈ [c1, c2, c3, c4, c5],
        clk.before ≤ c1.created + 10 * Second ∧ clk.after ≤ c1.created + 10 * Second) →
      c7.before ≤ c5.after + 30 * Second →
      (∃ r, (GetOGTags env (runCalls env (New h)
          [(urlA, c1), (urlA, c2), (urlA, c3), (urlA, c4), (urlA, c5)]).2 urlB cB).1
          = (some r, none) ∧ r.URL = urlB) ∧
      (GetOGTags env (runCalls env (New h)
          [(urlA, c1), (urlA, c2), (urlA, c3), (urlA, c4), (urlA, c5)]).2 urlB cB).2.client.calls
        = h.calls ++ [urlA, urlA, urlA, urlA, urlA, urlB] ∧
      (GetOGTags env (GetOGTags env (runCalls env (New h)
          [(urlA, c1), (urlA, c2), (urlA, c3), (urlA, c4), (urlA, c5)]).2 urlB cB).2
          urlA c7).1 = breakerOpen ∧
      (GetOGTags env (GetOGTags env (runCalls env (New h)
          [(urlA, c1), (urlA, c2), (urlA, c3), (urlA, c4), (urlA, c5)]).2 urlB cB).2
          urlA c7).2.client.calls = h.calls ++ [urlA, urlA, urlA, urlA, urlA, urlB]) := by
  refine ⟨fun c calls hsize hroom hall =>
    runCalls_peek_other env a b hb hab calls c hsize hroom hall, ?_⟩
  intro h urlA urlB c1 c2 c3 c4 c5 cB c7 hA hB hfail hserve hw h7
  obtain ⟨_, r2, r3, r4, r5⟩ := runCalls_fresh_five_failures env h a ha urlA urlA urlA urlA urlA
    c1 c2 c3 c4 c5 (fun u hu => by
      simp only [List.mem_cons, List.mem_singleton, List.not_mem_nil, or_false, or_self] at hu
      rw [hu]; exact hA)
    (fun k u hu => by
      simp only [List.mem_cons, List.mem_singleton, List.not_mem_nil, or_false, or_self] at hu
      rw [hu]; exact hfail k) hw
  -- the call for `b` runs on a new, closed breaker
  have hsz : 1 ≤ (runCalls env (New h)
      [(urlA, c1), (urlA, c2), (urlA, c3), (urlA, c4), (urlA, c5)]).2.breakersCache.size := by
    rw [r4]; decide
  have hba : ¬ a = b := hab
  have hpb : (runCalls env (New h)
      [(urlA, c1), (urlA, c2), (urlA, c3), (urlA, c4), (urlA, c5)]).2.breakersCache.Peek b
      = none := by
    simp [Cache.Peek, r3, hba]
  obtain ⟨f1, f2, _, _, f5, _⟩ := GetOGTags_valid_facts env _ urlB cB b hB hb hsz
  have hbf : ((runCalls env (New h)
      [(urlA, c1), (urlA, c2), (urlA, c3), (urlA, c4), (urlA, c5)]).2.breakerFor b
      cB.created).state = State.StateClosed := by
    simp [Client.breakerFor, hpb, newHostBreaker, NewCircuitBreaker,
      CircuitBreaker.toNewGeneration]
  obtain ⟨x1, x2⟩ := Execute_closed_runs _ cB.before cB.after (fetchOGTags env urlB)
    (runCalls env (New h)
      [(urlA, c1), (urlA, c2), (urlA, c3), (urlA, c4), (urlA, c5)]).2.client hbf
  rw [x1] at f1
  rw [x2] at f2
  obtain ⟨res, doc, hok, hdoc⟩ := hserve (h.calls ++ [urlA, urlA, urlA, urlA, urlA]).length
  have hfetch := fetchOGTags_ok env { h with calls := h.calls ++ [urlA, urlA, urlA, urlA, urlA] }
    urlB res doc hok hdoc
  rw [r2, hfetch] at f1 f2
  -- the breaker of `a` is still the opened one
  have hpa : (GetOGTags env (runCalls env (New h)
      [(urlA, c1), (urlA, c2), (urlA, c3), (urlA, c4), (urlA, c5)]).2 urlB
      cB).2.breakersCache.Peek a = some (openedBreaker a c5.after) := by
    rw [GetOGTags_peek_other env _ urlB cB a b hB hb hab (Or.inr (by
      simp [Cache.Len, r3, r4]))]
    exact Cache.peek_front _ a _ [] r3
  obtain ⟨s1, s2, _⟩ := GetOGTags_rejected_when_open env (GetOGTags env (runCalls env (New h)
      [(urlA, c1), (urlA, c2), (urlA, c3), (urlA, c4), (urlA, c5)]).2 urlB cB).2 urlA c7 a
    (openedBreaker a c5.after) (c5.after + 30 * Second) hA ha (by rw [f5]; exact hsz) hpa
    rfl rfl h7
  refine ⟨⟨buildOGTags urlB doc, f1, rfl⟩, ?_, s1, ?_⟩
  · rw [f2]; simp
  · rw [s2, f2]; simp

/-- The isolation test: `example.com` fails five times, `different.com` is
served, and `example.com` is rejected one second later. -/
theorem breaker_isolation_witness :
    (∃ r, (GetOGTags exEnv (runCalls exEnv (New (exFailingFor "https://example.com" exPage))
          [("https://example.com", at_ 0), ("https://example.com", at_ 0),
           ("https://example.com", at_ 0), ("https://example.com", at_ 0),
           ("https://example.com", at_ 0)]).2 "https://different.com" (at_ 0)).1
          = (some r, none) ∧ r.URL = "https://different.com") ∧
    (GetOGTags exEnv (runCalls exEnv (New (exFailingFor "https://example.com" exPage))
          [("https://example.com", at_ 0), ("https://example.com", at_ 0),
           ("https://example.com", at_ 0), ("https://example.com", at_ 0),
           ("https://example.com", at_ 0)]).2 "https://different.com" (at_ 0)).2.client.calls
        = (exFailingFor "https://example.com" exPage).calls ++
          ["https://example.com", "https://example.com", "https://example.com",
           "https://example.com", "https://example.com", "https://different.com"] ∧
    (GetOGTags exEnv (GetOGTags exEnv
          (runCalls exEnv (New (exFailingFor "https://example.com" exPage))
          [("https://example.com", at_ 0), ("https://example.com", at_ 0),
           ("https://example.com", at_ 0), ("https://example.com", at_ 0),
           ("https://example.com", at_ 0)]).2 "https://different.com" (at_ 0)).2
          "https://example.com" (at_ Second)).1 = breakerOpen ∧
    (GetOGTags exEnv (GetOGTags exEnv
          (runCalls exEnv (New (exFailingFor "https://example.com" exPage))
          [("https://example.com", at_ 0), ("https://example.com", at_ 0),
           ("https://example.com", at_ 0), ("https://example.com", at_ 0),
           ("https://example.com", at_ 0)]).2 "https://different.com" (at_ 0)).2
          "https://example.com" (at_ Second)).2.client.calls
        = (exFailingFor "https://example.com" exPage).calls ++
          ["https://example.com", "https://example.com", "https://example.com",
           "https://example.com", "https://example.com", "https://different.com"] :=
  (breaker_isolation exEnv "example.com" "different.com" (by decide) (by decide) (by decide)).2
    (exFailingFor "https://example.com" exPage) "https://example.com" "https://different.com"
    (at_ 0) (at_ 0) (at_ 0) (at_ 0) (at_ 0) (at_ 0) (at_ Second) (by decide) (by decide)
    (fun _ => ⟨_, rfl⟩) (fun _ => ⟨_, exPageTree, rfl, rfl⟩) (by decide) (by decide)

/-! ## C5 -/

theorem find_dropLast_of_isSome (items : List (String × CircuitBreaker)) (a : String)
    (h : (items.dropLast.find? (fun e => e.1 = a)).isSome = true) :
    items.dropLast.find? (fun e => e.1 = a) = items.find? (fun e => e.1 = a) := by
  by_cases hn : items = []
  · subst hn; rfl
  · conv_rhs => rw [← List.dropLast_append_getLast hn, List.find?_append]
    cases hf : items.dropLast.find? (fun e => e.1 = a) with
    | none => simp [hf] at h
    | some x => simp

/-- The lookup of `GetOGTags` for `b` leaves the entry of another host `a` as
it is whenever `a` is still a key afterwards. -/
theorem Cache.peek_touch_ne_of_mem (cache : Cache) (a b : String) (cb : CircuitBreaker)
    (hab : a ≠ b) (hmem : a ∈ (cache.touch b cb).Keys) :
    (cache.touch b cb).Peek a = cache.Peek a := by
  by_cases hroom : cache.Contains b = true ∨ cache.Len < cache.size
  · exact Cache.peek_touch_ne cache a b cb hab hroom
  · have hnc : cache.items.find? (fun e => e.1 = b) = none := by
      cases hf : cache.items.find? (fun e => e.1 = b) with
      | none => rfl
      | some x => exact absurd (Or.inl (by simp [Cache.Contains, hf])) hroom
    have hfull : ((b, cb) :: cache.items).length > cache.size := by
      have : ¬ cache.Len < cache.size := fun h => hroom (Or.inr h)
      simp only [Cache.Len] at this
      simp only [List.length_cons]
      omega
    have htouch : (cache.touch b cb).items = ((b, cb) :: cache.items).dropLast := by
      have hfull2 : cache.size < cache.items.length + 1 := by
        simpa using hfull
      simp [Cache.touch, Cache.Get, Cache.Add, hnc, hfull2]
    have hba : ¬ b = a := fun h => hab h.symm
    have hsome : ((((b, cb) :: cache.items).dropLast).find? (fun e => e.1 = a)).isSome = true := by
      rw [List.find?_isSome]
      simp only [Cache.Keys, htouch, List.mem_map] at hmem
      obtain ⟨x, hx, hxa⟩ := hmem
      exact ⟨x, hx, by simp [hxa]⟩
    simp only [Cache.Peek, htouch, find_dropLast_of_isSome _ a hsome]
    simp [List.find?_cons, hba]

theorem fetchOGTags_client (env : Env) (url : String) (h : HTTPClient) :
    (fetchOGTags env url h).2 = { h with calls := h.calls ++ [url] } := by
  unfold fetchOGTags HTTPClient.Get
  cases hg : h.GetFunc h.calls.length url with
  | error e => rfl
  | ok res =>
    cases hd : env.htmlParse res.Body with
    | error e => simp [hd]
    | ok doc => simp [hd]

theorem Execute_world {σ T : Type} (cb : CircuitBreaker) (tB tA : Nat)
    (req : σ → (Option T × Option Error) × σ) (w : σ) :
    (cb.Execute tB tA req w).2.2 = w ∨ (cb.Execute tB tA req w).2.2 = (req w).2 := by
  unfold CircuitBreaker.Execute
  rcases hbr : cb.beforeRequest tB with ⟨cb1, g, err⟩
  cases err with
  | none => right; rfl
  | some e => left; rfl

/-- A call either has an invalid target, and leaves the client as it is, or has
a valid host. -/
theorem GetOGTags_target_cases (env : Env) (c : Client) (url : String) (clk : Clock) :
    ((GetOGTags env c url clk).2 = c ∧ ∀ host, host ≠ "" → getHost env url ≠ (host, none)) ∨
    (∃ host, host ≠ "" ∧ getHost env url = (host, none)) := by
  rcases hg : getHost env url with ⟨h1, err⟩
  by_cases hv : err.isSome = true ∨ h1 = ""
  · left
    refine ⟨by simp [GetOGTags, hg, hv], ?_⟩
    intro host hne heq
    simp only [Prod.mk.injEq] at heq
    rcases hv with hv | hv
    · rw [heq.2] at hv; simp at hv
    · exact hne (heq.1.symm.trans hv)
  · right
    have h1ne : h1 ≠ "" := fun h => hv (Or.inr h)
    have herr : err = none := by
      cases err with
      | none => rfl
      | some e => exact absurd (Or.inl rfl) hv
    exact ⟨h1, h1ne, by rw [herr]⟩

/-- While the entry of a host with an open breaker stays in the cache and the
calls for that host come before the expiry of the breaker, a run of calls
rejects every call for the host, calls the HTTP client for other hosts only,
and leaves the breaker as it is. -/
theorem runCalls_open_kept (env : Env) (host : String) (cb : CircuitBreaker) (e : Nat)
    (hne : host ≠ "") (hs : cb.state = State.StateOpen) (he : cb.expiry = some e) :
    ∀ (calls : List (String × Clock)) (c : Client), 1 ≤ c.breakersCache.size →
      c.breakersCache.Peek host = some cb →
      (∀ k, k ≤ calls.length →
        host ∈ (runCalls env c (calls.take k)).2.breakersCache.Keys) →
      (∀ p ∈ calls, getHost env p.1 = (host, none) → p.2.before ≤ e) →
      (∀ pr ∈ calls.zip (runCalls env c calls).1,
        getHost env pr.1.1 = (host, none) → pr.2 = breakerOpen) ∧
      (∃ L, (runCalls env c calls).2.client.calls = c.client.calls ++ L ∧
        ∀ u ∈ L, getHost env u ≠ (host, none)) ∧
      (runCalls env c calls).2.breakersCache.Peek host = some cb ∧
      (runCalls env c calls).2.breakersCache.size = c.breakersCache.size := by
  intro calls
  induction calls with
  | nil =>
    intro c _ hp _ _
    exact ⟨by simp [runCalls], ⟨[], by simp [runCalls], by simp⟩, hp, rfl⟩
  | cons p rest ih =>
    intro c hsize hp hkept hearly
    obtain ⟨url, clk⟩ := p
    have hkept1 : host ∈ (GetOGTags env c url clk).2.breakersCache.Keys := by
      have := hkept 1 (by simp)
      simpa [runCalls_single] using this
    have hkeptRest : ∀ k, k ≤ rest.length →
        host ∈ (runCalls env (GetOGTags env c url clk).2 (rest.take k)).2.breakersCache.Keys := by
      intro k hk
      have := hkept (k + 1) (by simp; omega)
      simpa [runCalls_cons] using this
    have hearlyRest : ∀ q ∈ rest, getHost env q.1 = (host, none) → q.2.before ≤ e :=
      fun q hq => hearly q (List.mem_cons_of_mem _ hq)
    -- what the first call does
    have first : ((getHost env url = (host, none) → (GetOGTags env c url clk).1 = breakerOpen) ∧
        (∃ L, (GetOGTags env c url clk).2.client.calls = c.client.calls ++ L ∧
          ∀ u ∈ L, getHost env u ≠ (host, none)) ∧
        (GetOGTags env c url clk).2.breakersCache.Peek host = some cb ∧
        (GetOGTags env c url clk).2.breakersCache.size = c.breakersCache.size) := by
      rcases GetOGTags_target_cases env c url clk with ⟨hsame, hinv⟩ | ⟨b, hb, hgb⟩
      · rw [hsame]
        exact ⟨fun hg => absurd hg (hinv host hne), ⟨[], by simp, by simp⟩, hp, rfl⟩
      · by_cases hbh : b = host
        · subst hbh
          obtain ⟨s1, s2, ⟨l, s3⟩, _, s5, _⟩ := GetOGTags_rejected_when_open env c url clk b cb e
            hgb hne hsize hp hs he (hearly (url, clk) (List.mem_cons_self _ _) hgb)
          exact ⟨fun _ => s1, ⟨[], by rw [s2]; simp, by simp⟩, Cache.peek_front _ b _ l s3, s5⟩
        · have hhb : host ≠ b := fun h => hbh h.symm
          obtain ⟨_, f2, _, f4, f5, _⟩ := GetOGTags_valid_facts env c url clk b hgb hb hsize
          refine ⟨fun hg => ?_, ?_, ?_, f5⟩
          · rw [hgb] at hg
            exact absurd (congrArg Prod.fst hg) hbh
          · rcases Execute_world (c.breakerFor b clk.created) clk.before clk.after
              (fetchOGTags env url) c.client with hw | hw
            · exact ⟨[], by rw [f2, hw]; simp, by simp⟩
            · refine ⟨[url], by rw [f2, hw, fetchOGTags_client], ?_⟩
              intro u hu
              simp only [List.mem_singleton] at hu
              rw [hu, hgb]
              intro hcontra
              exact hbh (congrArg Prod.fst hcontra)
          · rw [f4] at hkept1
            rw [GetOGTags_valid env c url clk b hgb hb]
            show (Cache.store _ b _).Peek host = _
            rw [Cache.peek_store_ne _ host b hhb,
              Cache.peek_touch_ne_of_mem _ host b _ hhb hkept1]
            exact hp
    obtain ⟨a1, ⟨L1, a2, a2'⟩, a3, a4⟩ := first
    obtain ⟨b1, ⟨L2, b2, b2'⟩, b3, b4⟩ := ih (GetOGTags env c url clk).2
      (by rw [a4]; exact hsize) a3 hkeptRest hearlyRest
    rw [runCalls_cons]
    refine ⟨?_, ⟨L1 ++ L2, ?_, ?_⟩, b3, by rw [b4, a4]⟩
    · intro pr hpr hg
      simp only [List.zip_cons_cons, List.mem_cons] at hpr
      rcases hpr with hpr | hpr
      · rw [hpr] at hg ⊢
        exact a1 hg
      · exact b1 pr hpr hg
    · show (runCalls env (GetOGTags env c url clk).2 rest).2.client.calls = _
      rw [b2, a2, List.append_assoc]
    · intro u hu
      rcases List.mem_append.1 hu with hu | hu
      · exact a2' u hu
      · exact b2' u hu

/-- The first request after the timeout of an open breaker: the breaker becomes
half-open and runs the request; a success leaves it half-open, a failure opens
it again for a full timeout. -/
theorem Execute_open_after_timeout {σ T : Type} (cb : CircuitBreaker) (e tB tA : Nat)
    (req : σ → (Option T × Option Error) × σ) (w : σ)
    (hs : cb.state = State.StateOpen) (he : cb.expiry = some e) (hb : e < tB)
    (hmax : cb.maxRequests = 3) :
    (cb.currentState tB).state = State.StateHalfOpen ∧
    (cb.Execute tB tA req w).1 = (req w).1 ∧
    (cb.Execute tB tA req w).2.2 = (req w).2 ∧
    ((req w).1.2 = none → (cb.Execute tB tA req w).2.1.state = State.StateHalfOpen) ∧
    ((req w).1.2.isSome = true → (cb.Execute tB tA req w).2.1.state = State.StateOpen ∧
      (cb.Execute tB tA req w).2.1.expiry = some (tA + cb.timeout)) := by
  obtain ⟨name, mr, iv, tmo, cfg, st, gen, cnt, ex⟩ := cb
  simp only at hs he hmax
  subst hs he hmax
  refine ⟨?_, ?_, ?_, ?_, ?_⟩
  · simp [CircuitBreaker.currentState, expiryBefore, hb, CircuitBreaker.setState,
      CircuitBreaker.toNewGeneration]
  · simp [CircuitBreaker.Execute, CircuitBreaker.beforeRequest, CircuitBreaker.currentState,
      expiryBefore, hb, CircuitBreaker.setState, CircuitBreaker.toNewGeneration, Counts.clear]
  · simp [CircuitBreaker.Execute, CircuitBreaker.beforeRequest, CircuitBreaker.currentState,
      expiryBefore, hb, CircuitBreaker.setState, CircuitBreaker.toNewGeneration, Counts.clear]
  · intro hok
    simp [CircuitBreaker.Execute, CircuitBreaker.beforeRequest, CircuitBreaker.currentState,
      expiryBefore, hb, CircuitBreaker.setState, CircuitBreaker.toNewGeneration, Counts.clear,
      CircuitBreaker.afterRequest, hok, CircuitBreaker.onSuccess, Counts.onRequest,
      Counts.onSuccess, u32]
  · intro hfail
    have hn : ¬ ((req w).1.2 = none) := by
      intro h0; rw [h0] at hfail; simp at hfail
    simp [CircuitBreaker.Execute, CircuitBreaker.beforeRequest, CircuitBreaker.currentState,
      expiryBefore, hb, CircuitBreaker.setState, CircuitBreaker.toNewGeneration, Counts.clear,
      CircuitBreaker.afterRequest, hn, CircuitBreaker.onFailure]

/-- Five failures at instant 0 open the breaker of `example.com`; then 100 other
hosts are called, still at instant 0, which evicts its entry; the next call for
`example.com`, at instant 0 and so well before the 30 s timeout, is run against
the HTTP client. -/
theorem open_breaker_lost_by_eviction :
    (exTripped.breakersCache.Peek "example.com").map (fun cb => (cb.state, cb.expiry))
      = some (State.StateOpen, some (30 * Second)) ∧
    (runCalls exEnv exTripped (exFiller 100)).2.client.calls.length = 105 ∧
    (GetOGTags exEnv (runCalls exEnv exTripped (exFiller 100)).2
        "https://example.com" (at_ 0)).1 = fetchFailed (Error.ext "network error") ∧
    (GetOGTags exEnv (runCalls exEnv exTripped (exFiller 100)).2
        "https://example.com" (at_ 0)).2.client.calls.length = 106 := by
  set_option maxRecDepth 100000 in decide

/-- C5 (amended): for every host whose cached breaker is open, with `opened` the
instant it opened (its expiry is `opened` plus the 30 s timeout), and every
sequence of calls during which the host's entry stays in the cache (it can be
evicted once 100 other hosts have been used since): every call for the host
made while the clock reads at most `opened + 30 s` is rejected, the HTTP client
is called for other hosts only, and the breaker is unchanged; the first call
for the host made when the clock reads more than `opened + 30 s` moves the
breaker to half-open and is run against the HTTP client (a success leaves it
half-open). -/
theorem open_until_timeout (env : Env) (c : Client) (host : String) (cb : CircuitBreaker)
    (opened : Nat) (calls : List (String × Clock))
    (hne : host ≠ "") (hsize : 1 ≤ c.breakersCache.size)
    (hp : c.breakersCache.Peek host = some cb) (hs : cb.state = State.StateOpen)
    (he : cb.expiry = some (opened + 30 * Second)) (hmax : cb.maxRequests = 3)
    (hkept : ∀ k, k ≤ calls.length →
      host ∈ (runCalls env c (calls.take k)).2.breakersCache.Keys)
    (hearly : ∀ p ∈ calls, getHost env p.1 = (host, none) →
      p.2.before ≤ opened + 30 * Second) :
    (∀ pr ∈ calls.zip (runCalls env c calls).1,
      getHost env pr.1.1 = (host, none) → pr.2 = breakerOpen) ∧
    (∃ L, (runCalls env c calls).2.client.calls = c.client.calls ++ L ∧
      ∀ u ∈ L, getHost env u ≠ (host, none)) ∧
    (runCalls env c calls).2.breakersCache.Peek host = some cb ∧
    (∀ url clk, getHost env url = (host, none) → opened + 30 * Second < clk.before →
      (cb.currentState clk.before).state = State.StateHalfOpen ∧
      (GetOGTags env (runCalls env c calls).2 url clk).1
        = (fetchOGTags env url (runCalls env c calls).2.client).1 ∧
      (GetOGTags env (runCalls env c calls).2 url clk).2.client.calls
        = (runCalls env c calls).2.client.calls ++ [url] ∧
      ((fetchOGTags env url (runCalls env c calls).2.client).1.2 = none →
        ∃ cb1, (GetOGTags env (runCalls env c calls).2 url clk).2.breakersCache.Peek host
          = some cb1 ∧ cb1.state = State.StateHalfOpen)) := by
  obtain ⟨k1, k2, k3, k4⟩ := runCalls_open_kept env host cb (opened + 30 * Second) hne hs he
    calls c hsize hp hkept hearly
  refine ⟨k1, k2, k3, ?_⟩
  intro url clk hg hlate
  obtain ⟨f1, f2, ⟨l, f3⟩, _⟩ := GetOGTags_valid_facts env (runCalls env c calls).2 url clk host
    hg hne (by rw [k4]; exact hsize)
  have hbf : (runCalls env c calls).2.breakerFor host clk.created = cb := by
    simp [Client.breakerFor, k3]
  rw [hbf] at f1 f2 f3
  obtain ⟨x1, x2, x3, x4, _⟩ := Execute_open_after_timeout cb (opened + 30 * Second) clk.before
    clk.after (fetchOGTags env url) (runCalls env c calls).2.client hs he hlate hmax
  refine ⟨x1, by rw [f1, x2], by rw [f2, x3, fetchOGTags_client], ?_⟩
  intro hok
  exact ⟨_, Cache.peek_front _ host _ l f3, x4 hok⟩

/-- The breaker of `example.com` opened at instant 0: a call for another host,
then two calls for `example.com` at 1 s and at exactly 30 s are rejected, the
HTTP client being called for the other host only, and the breaker is as before. -/
theorem open_until_timeout_witness :
    (∀ pr ∈ [("https://different.com", at_ 0), ("https://example.com", at_ Second),
          ("https://example.com", at_ (30 * Second))].zip
        (runCalls exEnv exTripped [("https://different.com", at_ 0),
          ("https://example.com", at_ Second), ("https://example.com", at_ (30 * Second))]).1,
      getHost exEnv pr.1.1 = ("example.com", none) → pr.2 = breakerOpen) ∧
    (runCalls exEnv exTripped [("https://different.com", at_ 0),
        ("https://example.com", at_ Second),
        ("https://example.com", at_ (30 * Second))]).2.breakersCache.Peek "example.com"
      = some (openedBreaker "example.com" 0) ∧
    (GetOGTags exEnv (runCalls exEnv exTripped [("https://different.com", at_ 0),
        ("https://example.com", at_ Second),
        ("https://example.com", at_ (30 * Second))]).2 "https://example.com"
        (at_ (30 * Second + 1))).2.client.calls
      = (runCalls exEnv exTripped [("https://different.com", at_ 0),
        ("https://example.com", at_ Second),
        ("https://example.com", at_ (30 * Second))]).2.client.calls ++ ["https://example.com"] :=
  have h := open_until_timeout exEnv exTripped "example.com" (openedBreaker "example.com" 0) 0
    [("https://different.com", at_ 0), ("https://example.com", at_ Second),
      ("https://example.com", at_ (30 * Second))]
    (by decide) (by decide) (by decide) (by decide) (by decide) (by decide) (by decide)
    (by decide)
  ⟨h.1, h.2.2.1, (h.2.2.2 "https://example.com" (at_ (30 * Second + 1)) (by decide)
    (by decide)).2.2.1⟩

/-! ## C7 -/

theorem Execute_result {σ T : Type} (cb : CircuitBreaker) (tB tA : Nat)
    (req : σ → (Option T × Option Error) × σ) (w : σ) :
    (cb.Execute tB tA req w).1 = (req w).1 ∨ ∃ err, (cb.Execute tB tA req w).1 = (none, some err) := by
  unfold CircuitBreaker.Execute
  rcases hbr : cb.beforeRequest tB with ⟨cb1, g, err⟩
  cases err with
  | none => left; rfl
  | some e => right; exact ⟨e, rfl⟩

theorem fetchOGTags_success (env : Env) (url : String) (h : HTTPClient) (r : OGTags)
    (hr : (fetchOGTags env url h).1 = (some r, none)) :
    ∃ res doc, h.GetFunc h.calls.length url = .ok res ∧ env.htmlParse res.Body = .ok doc ∧
      r = buildOGTags url doc := by
  unfold fetchOGTags HTTPClient.Get at hr
  cases hg : h.GetFunc h.calls.length url with
  | error e => simp [hg, Errorf_w] at hr
  | ok res =>
    cases hd : env.htmlParse res.Body with
    | error e => simp [hg, hd, Errorf_w] at hr
    | ok doc =>
      simp only [hg, hd, Prod.mk.injEq, Option.some.injEq, and_true] at hr
      exact ⟨res, doc, rfl, hd, hr.symm⟩

/-- C7: a successful `GetOGTags` returns the input URL, and its tags are those
of the tree the response body parses to: in document order, one item per `meta`
element that is a descendant of the first `head` element in document order (in
a parsed document, the top-level head) and whose `property` value starts with
`og:`. What precedes that element, what follows it (the body, any later `head`)
contributes nothing, and a tree without `head` gives the empty list. -/
theorem GetOGTags_tags_of_first_head (env : Env) (c c1 : Client) (url : String) (clk : Clock)
    (r : OGTags) (h : GetOGTags env c url clk = ((some r, none), c1)) :
    r.URL = url ∧
    ∃ res doc, c.client.GetFunc c.client.calls.length url = .ok res ∧
      env.htmlParse res.Body = .ok doc ∧
      ((∀ n ∈ doc.Descendants, ¬ isHead n) → r.Tags = some []) ∧
      (∀ pre hd post, doc.Descendants = pre ++ hd :: post → (∀ n ∈ pre, ¬ isHead n) →
        isHead hd → r.Tags = some (hd.Descendants.filterMap ogItem)) := by
  have h1 : (GetOGTags env c url clk).1 = (some r, none) := by rw [h]
  rcases GetOGTags_target_cases env c url clk with ⟨_, hinv⟩ | ⟨host, hne, hg⟩
  · exfalso
    rcases hgh : getHost env url with ⟨h0, err⟩
    have hv : err.isSome = true ∨ h0 = "" := by
      by_contra hv
      have h0ne : h0 ≠ "" := fun hx => hv (Or.inr hx)
      have herr : err = none := by
        cases err with
        | none => rfl
        | some e => exact absurd (Or.inl rfl) hv
      exact hinv h0 h0ne (by rw [hgh, herr])
    simp [GetOGTags, hgh, hv] at h1
  · rw [GetOGTags_valid env c url clk host hg hne] at h1
    simp only at h1
    rcases Execute_result (c.breakerFor host clk.created) clk.before clk.after
      (fetchOGTags env url) c.client with hx | ⟨err, hx⟩
    · rw [hx] at h1
      obtain ⟨res, doc, hok, hdoc, hr⟩ := fetchOGTags_success env url c.client r h1
      obtain ⟨b1, b2, b3⟩ := buildOGTags_eq url doc
      rw [hr]
      exact ⟨b1, res, doc, hok, hdoc, b2, b3⟩
    · rw [hx] at h1
      simp at h1

/-- The page with og tags in the head and one more `meta` in the body: the two
og tags of the head are returned, in order. -/
theorem GetOGTags_tags_of_first_head_witness :
    (⟨"https://ogp.me/", some ["og:title A", "og:url C"]⟩ : OGTags).URL = "https://ogp.me/" ∧
    ∃ res doc, (New (exServing exBodyPage)).client.GetFunc
        (New (exServing exBodyPage)).client.calls.length "https://ogp.me/" = .ok res ∧
      exEnv.htmlParse res.Body = .ok doc ∧
      ((∀ n ∈ doc.Descendants, ¬ isHead n) →
        (⟨"https://ogp.me/", some ["og:title A", "og:url C"]⟩ : OGTags).Tags = some []) ∧
      (∀ pre hd post, doc.Descendants = pre ++ hd :: post → (∀ n ∈ pre, ¬ isHead n) →
        isHead hd →
        (⟨"https://ogp.me/", some ["og:title A", "og:url C"]⟩ : OGTags).Tags
          = some (hd.Descendants.filterMap ogItem)) :=
  GetOGTags_tags_of_first_head exEnv (New (exServing exBodyPage))
    (GetOGTags exEnv (New (exServing exBodyPage)) "https://ogp.me/" (at_ 0)).2
    "https://ogp.me/" (at_ 0) ⟨"https://ogp.me/", some ["og:title A", "og:url C"]⟩
    (by set_option maxRecDepth 100000 in exact Prod.ext (by decide) rfl)

/-! ## C9 -/

theorem afterRequest_closed_success (cb : CircuitBreaker) (tA : Nat)
    (hs : cb.state = State.StateClosed) :
    (cb.afterRequest cb.generation true tA).counts.ConsecutiveFailures = 0 := by
  obtain ⟨name, mr, iv, tmo, cfg, st, gen, cnt, ex⟩ := cb
  simp only at hs
  subst hs
  simp only [CircuitBreaker.afterRequest, CircuitBreaker.currentState]
  by_cases hx : ex.isSome = true ∧ expiryBefore ex tA = true
  · simp only [if_pos hx]
    split_ifs <;> simp [CircuitBreaker.toNewGeneration, CircuitBreaker.onSuccess, Counts.clear,
      Counts.onSuccess]
  · simp [if_neg hx, CircuitBreaker.onSuccess, Counts.onSuccess]

/-- A success recorded by a closed breaker, whatever the clock reads: the run of
consecutive failures is over. -/
theorem Execute_closed_success_counts {σ T : Type} (cb : CircuitBreaker) (tB tA : Nat)
    (req : σ → (Option T × Option Error) × σ) (w : σ) (hs : cb.state = State.StateClosed)
    (hok : (req w).1.2 = none) :
    (cb.Execute tB tA req w).2.1.counts.ConsecutiveFailures = 0 := by
  have h1 : ({ cb.currentState tB with counts := (cb.currentState tB).counts.onRequest } :
      CircuitBreaker).state = State.StateClosed := currentState_closed_state cb tB hs
  have h2 := afterRequest_closed_success _ tA h1
  simp only [CircuitBreaker.Execute, beforeRequest_closed cb tB hs, hok, Option.isNone_none]
  exact h2

theorem buildOGTags_noOGItems (url : String) (doc : Node) (h : noOGItems doc) :
    buildOGTags url doc = ⟨url, some []⟩ := by
  obtain ⟨b1, b2, b3⟩ := buildOGTags_eq url doc
  have ht : (buildOGTags url doc).Tags = some [] := by
    rcases h with h | ⟨pre, hd, post, hdoc, hpre, hhd, hnone⟩
    · exact b2 h
    · rw [b3 pre hd post hdoc hpre hhd]
      have : hd.Descendants.filterMap ogItem = [] := by
        rw [List.filterMap_eq_nil_iff]
        exact hnone
      rw [this]
  have hu : (buildOGTags url doc).URL = url := b1
  cases hbd : buildOGTags url doc with
  | mk u t =>
    rw [hbd] at ht hu
    simp only at ht hu
    rw [ht, hu]

/-- C9: when every response parses to a tree with no `head` element, or whose
first `head` holds no matching `meta` element, any number of consecutive calls
for one host whose breaker is closed or not yet created are all run against the
HTTP client, each returns a nil error and the empty, non-nil list of tags, and
each is recorded as a success: the breaker of the host is closed afterwards. -/
theorem no_tags_is_success (env : Env) (host : String) (hne : host ≠ "")
    (calls : List (String × Clock)) (c : Client) (hsize : 1 ≤ c.breakersCache.size)
    (hclosed : ∀ cb, c.breakersCache.Peek host = some cb → cb.state = State.StateClosed)
    (hall : ∀ p ∈ calls, getHost env p.1 = (host, none))
    (hserve : ∀ k u, ∃ res doc, c.client.GetFunc k u = .ok res ∧
      env.htmlParse res.Body = .ok doc ∧ noOGItems doc) :
    (runCalls env c calls).1 = calls.map (fun p => (some ⟨p.1, some []⟩, none)) ∧
    (runCalls env c calls).2.client.calls = c.client.calls ++ calls.map Prod.fst ∧
    (∀ cb, (runCalls env c calls).2.breakersCache.Peek host = some cb →
      cb.state = State.StateClosed) ∧
    (calls ≠ [] → ∃ cb, (runCalls env c calls).2.breakersCache.Peek host = some cb ∧
      cb.state = State.StateClosed ∧ cb.counts.ConsecutiveFailures = 0) := by
  induction calls generalizing c with
  | nil => exact ⟨rfl, by simp [runCalls], hclosed, fun h => absurd rfl h⟩
  | cons p rest ih =>
    obtain ⟨url, clk⟩ := p
    have hg : getHost env url = (host, none) := hall (url, clk) (List.mem_cons_self _ _)
    obtain ⟨f1, f2, ⟨l, f3⟩, _, f5, _⟩ := GetOGTags_valid_facts env c url clk host hg hne hsize
    have hbf : (c.breakerFor host clk.created).state = State.StateClosed := by
      unfold Client.breakerFor
      cases hp : c.breakersCache.Peek host with
      | none => rfl
      | some cb => exact hclosed cb hp
    obtain ⟨res, doc, hok, hdoc, hno⟩ := hserve c.client.calls.length url
    have hfetch := fetchOGTags_ok env c.client url res doc hok hdoc
    rw [buildOGTags_noOGItems url doc hno] at hfetch
    obtain ⟨x1, x2⟩ := Execute_closed_runs (c.breakerFor host clk.created) clk.before clk.after
      (fetchOGTags env url) c.client hbf
    have x3 := Execute_closed_success (c.breakerFor host clk.created) clk.before clk.after
      (fetchOGTags env url) c.client hbf (by rw [hfetch])
    rw [x1, hfetch] at f1
    rw [x2, hfetch] at f2
    have hpeek := Cache.peek_front _ host _ l f3
    obtain ⟨i1, i2, i3, i4⟩ := ih (GetOGTags env c url clk).2 (by rw [f5]; exact hsize)
      (fun cb hcb => by
        rw [hpeek] at hcb
        rw [← Option.some.inj hcb]
        exact x3)
      (fun q hq => hall q (List.mem_cons_of_mem _ hq))
      (by rw [f2]; exact hserve)
    rw [runCalls_cons]
    refine ⟨?_, ?_, i3, ?_⟩
    · rw [f1, i1]
      rfl
    · show (runCalls env (GetOGTags env c url clk).2 rest).2.client.calls = _
      rw [i2, f2]
      simp
    · intro _
      by_cases hr : rest = []
      · subst hr
        exact ⟨_, hpeek, x3, Execute_closed_success_counts (c.breakerFor host clk.created)
          clk.before clk.after (fetchOGTags env url) c.client hbf (by rw [hfetch])⟩
      · exact i4 hr

theorem noOGItems_exEmptyTree : noOGItems exEmptyTree :=
  Or.inr ⟨[elem "html" [] [elem "head" [] [], elem "body" [] []]], elem "head" [] [],
    [elem "body" [] []], rfl, by decide, by decide, fun mn hmn => by
      have : (elem "head" [] []).Descendants = [] := rfl
      rw [this] at hmn
      exact absurd hmn (List.not_mem_nil _)⟩

/-- The test with ten calls for `https://ogp.me/` answered with an empty body:
ten results with the empty list, ten calls of the HTTP client, breaker closed. -/
theorem no_tags_is_success_witness :
    (runCalls exEnv (New (exServing "")) (List.replicate 10 ("https://ogp.me/", at_ 0))).1
      = (List.replicate 10 ("https://ogp.me/", at_ 0)).map
          (fun p => (some ⟨p.1, some []⟩, none)) ∧
    (runCalls exEnv (New (exServing ""))
        (List.replicate 10 ("https://ogp.me/", at_ 0))).2.client.calls
      = (New (exServing "")).client.calls ++
          (List.replicate 10 ("https://ogp.me/", at_ 0)).map Prod.fst ∧
    (∀ cb, (runCalls exEnv (New (exServing ""))
        (List.replicate 10 ("https://ogp.me/", at_ 0))).2.breakersCache.Peek "ogp.me" = some cb →
      cb.state = State.StateClosed) ∧
    (List.replicate 10 ("https://ogp.me/", at_ 0) ≠ [] →
      ∃ cb, (runCalls exEnv (New (exServing ""))
        (List.replicate 10 ("https://ogp.me/", at_ 0))).2.breakersCache.Peek "ogp.me" = some cb ∧
      cb.state = State.StateClosed ∧ cb.counts.ConsecutiveFailures = 0) :=
  no_tags_is_success exEnv "ogp.me" (by decide) (List.replicate 10 ("https://ogp.me/", at_ 0))
    (New (exServing "")) (by decide) (fun cb hcb => by simp [New, Cache.New, Cache.Peek] at hcb)
    (by decide) (fun _ _ => ⟨_, exEmptyTree, rfl, rfl, noOGItems_exEmptyTree⟩)

/-! ## C6 -/

theorem map_fst_eraseP (items : List (String × CircuitBreaker)) (h : String) :
    (items.eraseP (fun e => e.1 = h)).map Prod.fst = (items.map Prod.fst).erase h := by
  induction items with
  | nil => rfl
  | cons x rest ih =>
    by_cases hx : x.1 = h
    · simp [List.eraseP_cons, hx]
    · have hx2 : ¬ (x.1 == h) = true := by simpa using hx
      simp [List.eraseP_cons, hx, List.erase_cons, hx2, ih]

theorem find_isSome_iff_mem_keys (items : List (String × CircuitBreaker)) (h : String) :
    (items.find? (fun e => e.1 = h)).isSome = true ↔ h ∈ items.map Prod.fst := by
  constructor
  · intro hs
    obtain ⟨x, hx, hxh⟩ := List.find?_isSome.1 hs
    exact List.mem_map.2 ⟨x, hx, by simpa using hxh⟩
  · intro hm
    obtain ⟨x, hx, hxh⟩ := List.mem_map.1 hm
    exact List.find?_isSome.2 ⟨x, hx, by simpa using hxh⟩

theorem Cache.keys_touch (cache : Cache) (h : String) (cb : CircuitBreaker) :
    (cache.touch h cb).Keys = keysStep cache.size cache.Keys h := by
  unfold Cache.touch Cache.Get keysStep Cache.Keys
  cases hf : cache.items.find? (fun e => e.1 = h) with
  | some e =>
    have he := find_some_fst _ _ _ hf
    have hmem : h ∈ cache.items.map Prod.fst :=
      (find_isSome_iff_mem_keys _ _).1 (by rw [hf]; rfl)
    simp only [if_pos hmem, List.map_cons, he, map_fst_eraseP]
  | none =>
    have hmem : ¬ h ∈ cache.items.map Prod.fst := by
      intro hm
      have := (find_isSome_iff_mem_keys _ _).2 hm
      rw [hf] at this
      simp at this
    simp only [if_neg hmem, Cache.Add, hf, Option.isSome_none, Bool.false_eq_true, if_false,
      List.length_cons, List.length_map]
    split_ifs
    · simp only [List.map_dropLast, List.map_cons]
    · simp only [List.map_cons]

/-- What one call does to the keys of the cache: the lookup of its host, or
nothing for a rejected target; the size of the cache stays. -/
theorem GetOGTags_keys (env : Env) (c : Client) (url : String) (clk : Clock) :
    (GetOGTags env c url clk).2.breakersCache.Keys
      = (match validHost env url with
        | some h => keysStep c.breakersCache.size c.breakersCache.Keys h
        | none => c.breakersCache.Keys) ∧
    (GetOGTags env c url clk).2.breakersCache.size = c.breakersCache.size := by
  rcases hg : getHost env url with ⟨h0, err⟩
  cases err with
  | some e =>
    have : (GetOGTags env c url clk).2 = c := by simp [GetOGTags, hg]
    simp [validHost, hg, this]
  | none =>
    by_cases h0e : h0 = ""
    · have : (GetOGTags env c url clk).2 = c := by simp [GetOGTags, hg, h0e]
      simp [validHost, hg, this, h0e]
    · rw [GetOGTags_valid env c url clk h0 hg h0e]
      simp only [validHost, hg, if_neg h0e, Cache.keys_store, Cache.keys_touch]
      exact ⟨trivial, Cache.size_touch _ _ _⟩

theorem erase_take_of_mem (R : List String) (h : String) :
    ∀ n, h ∈ R.take n → (R.take n).erase h = (R.erase h).take (n - 1) := by
  induction R with
  | nil => intro n hm; simp at hm
  | cons x rest ih =>
    intro n hm
    cases n with
    | zero => simp at hm
    | succ m =>
      by_cases hx : x = h
      · subst hx
        simp
      · have hx2 : ¬ (x == h) = true := by simpa using hx
        have hm2 : h ∈ rest.take m := by
          simp only [List.take_succ_cons, List.mem_cons] at hm
          rcases hm with hm | hm
          · exact absurd hm.symm hx
          · exact hm
        have hmpos : 1 ≤ m := by
          cases m with
          | zero => simp at hm2
          | succ k => omega
        obtain ⟨k, hk⟩ : ∃ k, m = k + 1 := ⟨m - 1, by omega⟩
        subst hk
        simp only [List.take_succ_cons, List.erase_cons, hx2, Bool.false_eq_true, if_false,
          Nat.add_sub_cancel]
        rw [ih (k + 1) hm2]
        simp

theorem take_erase_of_not_mem (R : List String) (h : String) :
    ∀ m, h ∉ R.take m → (R.erase h).take m = R.take m := by
  induction R with
  | nil => intro m _; simp
  | cons x rest ih =>
    intro m hm
    cases m with
    | zero => simp
    | succ k =>
      simp only [List.take_succ_cons, List.mem_cons, not_or] at hm
      have hx2 : ¬ (x == h) = true := by
        simp only [beq_iff_eq]
        exact fun hxh => hm.1 hxh.symm
      simp only [List.erase_cons, hx2, Bool.false_eq_true, if_false, List.take_succ_cons]
      rw [ih k hm.2]

/-- The keys of a cache that holds the `n` most recently used hosts of an order
hold, after the lookup of `h`, the `n` most recently used hosts of the new order. -/
theorem keysStep_take (n : Nat) (hn : 1 ≤ n) (R : List String) (h : String) :
    keysStep n (R.take n) h = (useHost R h).take n := by
  obtain ⟨m, hm⟩ : ∃ m, n = m + 1 := ⟨n - 1, by omega⟩
  subst hm
  unfold keysStep useHost
  by_cases hmem : h ∈ R.take (m + 1)
  · rw [if_pos hmem, erase_take_of_mem R h (m + 1) hmem]
    simp
  · rw [if_neg hmem]
    have hpre : h ∉ R.take m := by
      intro hx
      have e : (R.take (m + 1)).take m = R.take m := by
        rw [List.take_take, Nat.min_eq_left (Nat.le_succ m)]
      rw [← e] at hx
      exact hmem (List.mem_of_mem_take hx)
    by_cases hlen : (R.take (m + 1)).length + 1 > m + 1
    · rw [if_pos hlen]
      have hRlen : m + 1 ≤ R.length := by
        simp only [List.length_take] at hlen
        omega
      have hne : R.take (m + 1) ≠ [] := by
        intro h0
        have := congrArg List.length h0
        simp only [List.length_take, List.length_nil] at this
        omega
      rw [List.dropLast_cons_of_ne_nil hne, List.dropLast_eq_take, List.take_take]
      simp only [List.length_take, Nat.min_eq_left hRlen, Nat.add_sub_cancel,
        List.take_succ_cons, Nat.min_eq_left (Nat.le_succ m)]
      rw [take_erase_of_not_mem R h m hpre]
    · rw [if_neg hlen]
      have hRlen : R.length ≤ m := by
        simp only [List.length_take] at hlen
        omega
      have hall : R.take (m + 1) = R := List.take_of_length_le (by omega)
      rw [hall] at hmem ⊢
      rw [List.erase_of_not_mem hmem, List.take_succ_cons, List.take_of_length_le hRlen]

/-- The keys of the cache after a run of calls, when it held the `n` most
recently used hosts of an order `R` before: the `n` most recently used hosts of
`R` followed by the lookups of the run. -/
theorem runCalls_keys (env : Env) (n : Nat) (hn : 1 ≤ n) :
    ∀ (calls : List (String × Clock)) (c : Client) (R : List String),
      c.breakersCache.size = n → c.breakersCache.Keys = R.take n →
      (runCalls env c calls).2.breakersCache.Keys
        = ((hostsOf env calls).foldl useHost R).take n ∧
      (runCalls env c calls).2.breakersCache.size = n := by
  intro calls
  induction calls with
  | nil => intro c R hs hk; exact ⟨hk, hs⟩
  | cons p rest ih =>
    intro c R hs hk
    obtain ⟨url, clk⟩ := p
    obtain ⟨g1, g2⟩ := GetOGTags_keys env c url clk
    rw [runCalls_cons]
    show (runCalls env (GetOGTags env c url clk).2 rest).2.breakersCache.Keys = _ ∧
      (runCalls env (GetOGTags env c url clk).2 rest).2.breakersCache.size = n
    cases hv : validHost env url with
    | none =>
      rw [hv] at g1
      have hh : hostsOf env ((url, clk) :: rest) = hostsOf env rest := by
        simp [hostsOf, List.filterMap_cons, hv]
      rw [hh]
      exact ih _ R (by rw [g2, hs]) (by rw [g1, hk])
    | some h =>
      rw [hv] at g1
      have hh : hostsOf env ((url, clk) :: rest) = h :: hostsOf env rest := by
        simp [hostsOf, List.filterMap_cons, hv]
      rw [hh, List.foldl_cons]
      exact ih _ (useHost R h) (by rw [g2, hs]) (by
        rw [g1, hs, hk]
        exact keysStep_take n hn R h)

theorem foldl_useHost_nodup (hosts : List String) :
    ∀ R : List String, R.Nodup → (hosts.foldl useHost R).Nodup ∧
      ∀ x, x ∈ hosts.foldl useHost R ↔ x ∈ R ∨ x ∈ hosts := by
  induction hosts with
  | nil => intro R hR; exact ⟨hR, by simp⟩
  | cons h rest ih =>
    intro R hR
    have hnd : (useHost R h).Nodup := by
      unfold useHost
      rw [List.nodup_cons]
      exact ⟨fun hm => ((List.Nodup.mem_erase_iff hR).1 hm).1 rfl, hR.erase h⟩
    obtain ⟨i1, i2⟩ := ih (useHost R h) hnd
    refine ⟨i1, fun x => ?_⟩
    rw [List.foldl_cons, i2 x]
    unfold useHost
    rw [List.mem_cons, List.Nodup.mem_erase_iff hR, List.mem_cons]
    by_cases hx : x = h
    · simp [hx]
    · simp [hx]

/-- C6: after any sequence of calls on a fresh client the cache holds the (at
most) 100 most recently used hosts, in order of last use by a `GetOGTags` call,
so never more than 100. A call for a host that is not cached removes, when the
cache is full, exactly one entry, the last of that order (the least recently
used host), and none when there is room; a call for a cached host removes none
(the keys are permuted); a rejected target changes nothing. When the calls
touch at most 100 distinct valid hosts, the cache holds exactly those hosts,
each once. -/
theorem lru_registry (env : Env) (h : HTTPClient) (calls : List (String × Clock)) :
    (runCalls env (New h) calls).2.breakersCache.Keys
      = (recency (hostsOf env calls)).take 100 ∧
    (runCalls env (New h) calls).2.breakersCache.Len ≤ 100 ∧
    (∀ url clk host, validHost env url = some host →
      (host ∉ (runCalls env (New h) calls).2.breakersCache.Keys →
        (runCalls env (New h) calls).2.breakersCache.Len = 100 →
        (GetOGTags env (runCalls env (New h) calls).2 url clk).2.breakersCache.Keys
          = host :: (runCalls env (New h) calls).2.breakersCache.Keys.dropLast ∧
        (GetOGTags env (runCalls env (New h) calls).2 url clk).2.breakersCache.Len = 100) ∧
      (host ∉ (runCalls env (New h) calls).2.breakersCache.Keys →
        (runCalls env (New h) calls).2.breakersCache.Len < 100 →
        (GetOGTags env (runCalls env (New h) calls).2 url clk).2.breakersCache.Keys
          = host :: (runCalls env (New h) calls).2.breakersCache.Keys) ∧
      (host ∈ (runCalls env (New h) calls).2.breakersCache.Keys →
        (GetOGTags env (runCalls env (New h) calls).2 url clk).2.breakersCache.Keys
          = host :: (runCalls env (New h) calls).2.breakersCache.Keys.erase host ∧
        ((GetOGTags env (runCalls env (New h) calls).2 url clk).2.breakersCache.Keys).Perm
          (runCalls env (New h) calls).2.breakersCache.Keys)) ∧
    (∀ url clk, validHost env url = none →
      (GetOGTags env (runCalls env (New h) calls).2 url clk).2.breakersCache.Keys
        = (runCalls env (New h) calls).2.breakersCache.Keys) ∧
    ((hostsOf env calls).dedup.length ≤ 100 →
      (runCalls env (New h) calls).2.breakersCache.Keys.Nodup ∧
      (∀ x, x ∈ (runCalls env (New h) calls).2.breakersCache.Keys ↔ x ∈ hostsOf env calls) ∧
      (runCalls env (New h) calls).2.breakersCache.Keys.length
        = (hostsOf env calls).dedup.length) := by
  obtain ⟨k1, k2⟩ := runCalls_keys env 100 (by decide) calls (New h) [] rfl rfl
  have hrec : List.foldl useHost [] (hostsOf env calls) = recency (hostsOf env calls) := rfl
  rw [hrec] at k1
  have hlen : (runCalls env (New h) calls).2.breakersCache.Len
      = (runCalls env (New h) calls).2.breakersCache.Keys.length := by
    simp [Cache.Len, Cache.Keys]
  refine ⟨k1, ?_, ?_, ?_, ?_⟩
  · rw [hlen, k1]
    exact List.length_take_le _ _
  · intro url clk host hv
    obtain ⟨g1, _⟩ := GetOGTags_keys env (runCalls env (New h) calls).2 url clk
    rw [hv, k2] at g1
    simp only at g1
    have hlen2 : (GetOGTags env (runCalls env (New h) calls).2 url clk).2.breakersCache.Len
        = (GetOGTags env (runCalls env (New h) calls).2 url clk).2.breakersCache.Keys.length := by
      simp [Cache.Len, Cache.Keys]
    refine ⟨?_, ?_, ?_⟩
    · intro hnm hfull
      rw [hlen] at hfull
      have hne : (runCalls env (New h) calls).2.breakersCache.Keys ≠ [] := by
        intro h0
        rw [h0] at hfull
        simp at hfull
      have hk : (GetOGTags env (runCalls env (New h) calls).2 url clk).2.breakersCache.Keys
          = host :: (runCalls env (New h) calls).2.breakersCache.Keys.dropLast := by
        rw [g1, keysStep, if_neg hnm, if_pos (by omega), List.dropLast_cons_of_ne_nil hne]
      refine ⟨hk, ?_⟩
      rw [hlen2, hk]
      simp only [List.length_cons, List.length_dropLast]
      omega
    · intro hnm hroom
      rw [hlen] at hroom
      rw [g1, keysStep, if_neg hnm, if_neg (by omega)]
    · intro hm
      have hk : (GetOGTags env (runCalls env (New h) calls).2 url clk).2.breakersCache.Keys
          = host :: (runCalls env (New h) calls).2.breakersCache.Keys.erase host := by
        rw [g1, keysStep, if_pos hm]
      exact ⟨hk, by rw [hk]; exact (List.perm_cons_erase hm).symm⟩
  · intro url clk hv
    obtain ⟨g1, _⟩ := GetOGTags_keys env (runCalls env (New h) calls).2 url clk
    rw [hv] at g1
    exact g1
  · intro hd
    obtain ⟨n1, n2⟩ := foldl_useHost_nodup (hostsOf env calls) [] List.nodup_nil
    rw [hrec] at n1 n2
    have hperm : (recency (hostsOf env calls)).Perm (hostsOf env calls).dedup :=
      (List.perm_ext_iff_of_nodup n1 (List.nodup_dedup _)).2 (fun x => by
        rw [List.mem_dedup]
        have := n2 x
        simp only [List.not_mem_nil, false_or] at this
        exact this)
    have hall : (recency (hostsOf env calls)).take 100 = recency (hostsOf env calls) :=
      List.take_of_length_le (by rw [hperm.length_eq]; exact hd)
    rw [k1, hall]
    refine ⟨n1, fun x => ?_, hperm.length_eq⟩
    have := n2 x
    simp only [List.not_mem_nil, false_or] at this
    exact this

/-! ## C10 -/

/-- C10: when the target fails URL parsing or its parsed host is empty,
`GetOGTags` returns a nil result and an error whose message contains
`GetOGTags:getHost`, and the client is left as it was: no call of the HTTP
client, no lookup and no insertion in the breaker cache. -/
theorem GetOGTags_getHost_error (env : Env) (c : Client) (url : String) (clk : Clock)
    (h : (∃ err, env.urlParse url = .error err) ∨
      (∃ u, env.urlParse url = .ok u ∧ u.Host = "")) :
    ∃ e, GetOGTags env c url clk = ((none, some e), c) ∧
      Contains e.Error "GetOGTags:getHost" := by
  rcases h with ⟨err, herr⟩ | ⟨u, hu, hhost⟩
  · refine ⟨Errorf_w "GetOGTags:getHost" (some err), ?_, contains_of_wrap _ _⟩
    simp [GetOGTags, getHost, herr]
  · refine ⟨Errorf_w "GetOGTags:getHost" none, ?_, contains_of_wrap _ _⟩
    simp [GetOGTags, getHost, hu, hhost]

/-- The target `haha` of the test: a nil result, the `getHost` error, and the
fresh client unchanged. -/
theorem GetOGTags_getHost_error_witness :
    ∃ e, GetOGTags exEnv (New exFailing) "haha" (at_ 0) = ((none, some e), New exFailing) ∧
      Contains e.Error "GetOGTags:getHost" :=
  GetOGTags_getHost_error exEnv (New exFailing) "haha" (at_ 0) (Or.inr ⟨_, rfl, rfl⟩)

/-! ## C11 -/

theorem hexEncode_length (l : List (Fin 256)) : (hexEncode l).length = 2 * l.length := by
  induction l with
  | nil => rfl
  | cons v rest ih => simp [hexEncode, ih]; omega

theorem hexDigit_mem (n : Nat) (h : n < 16) : hexDigit n ∈ hextable := by
  interval_cases n <;> decide

theorem hexEncode_mem (l : List (Fin 256)) : ∀ ch ∈ hexEncode l, ch ∈ hextable := by
  induction l with
  | nil => intro ch h; simp [hexEncode] at h
  | cons v rest ih =>
    intro ch h
    simp only [hexEncode, List.mem_cons] at h
    rcases h with h | h | h
    · rw [h]; exact hexDigit_mem _ (Nat.div_lt_of_lt_mul (by have := v.isLt; omega))
    · rw [h]; exact hexDigit_mem _ (Nat.mod_lt _ (by decide))
    · exact ih ch h

theorem hexEncode_get (l : List (Fin 256)) :
    ∀ (i : Nat) (h : i < l.length),
      (hexEncode l)[2 * i]? = some (hexDigit ((l.get ⟨i, h⟩).val / 16)) ∧
      (hexEncode l)[2 * i + 1]? = some (hexDigit ((l.get ⟨i, h⟩).val % 16)) := by
  induction l with
  | nil => intro i h; simp at h
  | cons v rest ih =>
    intro i h
    cases i with
    | zero => simp [hexEncode]
    | succ j =>
      have hj : j < rest.length := by simpa using h
      obtain ⟨a, b⟩ := ih j hj
      have e1 : 2 * (j + 1) = (2 * j) + 1 + 1 := by omega
      have e2 : 2 * (j + 1) + 1 = (2 * j + 1) + 1 + 1 := by omega
      constructor
      · rw [e1]; simpa [hexEncode] using a
      · rw [e2]; simpa [hexEncode] using b

theorem hexDigit_injective : ∀ a b : Fin 16, hexDigit a.val = hexDigit b.val → a = b := by
  decide

theorem hexEncode_injective (l1 l2 : List (Fin 256)) (h : hexEncode l1 = hexEncode l2) :
    l1 = l2 := by
  induction l1 generalizing l2 with
  | nil =>
    cases l2 with
    | nil => rfl
    | cons v rest => simp [hexEncode] at h
  | cons v rest ih =>
    cases l2 with
    | nil => simp [hexEncode] at h
    | cons w rest2 =>
      simp only [hexEncode, List.cons.injEq] at h
      obtain ⟨h1, h2, h3⟩ := h
      have hv := v.isLt
      have hw := w.isLt
      have d1 := hexDigit_injective ⟨v.val / 16, by omega⟩ ⟨w.val / 16, by omega⟩ h1
      have d2 := hexDigit_injective ⟨v.val % 16, by omega⟩ ⟨w.val % 16, by omega⟩ h2
      simp only [Fin.mk.injEq] at d1 d2
      have hvw : v = w := Fin.ext (by omega)
      rw [hvw, ih rest2 h3]

/-- C11: `createKey` depends on the raw string only through its SHA-256 digest:
the key is `ogtag:` followed by the hexadecimal encoding of the 32 bytes of the
digest, two lowercase digits for each byte, the high half first, so 64
characters and a key of length 70 whatever the string is. No normalisation is
applied: two strings get the same key exactly when their digests are equal, and
`OGCache.Set` writes under the key under which `OGCache.Get` reads. -/
theorem createKey_spec (sum256 : String → Digest) (u v : String) :
    createKey sum256 u = "ogtag:" ++ EncodeToString (List.ofFn (sum256 u)) ∧
    (EncodeToString (List.ofFn (sum256 u))).length = 64 ∧
    (∀ i : Fin 32,
      (EncodeToString (List.ofFn (sum256 u))).toList[2 * i.val]?
        = some ("0123456789abcdef".toList.getD ((sum256 u i).val / 16) '0') ∧
      (EncodeToString (List.ofFn (sum256 u))).toList[2 * i.val + 1]?
        = some ("0123456789abcdef".toList.getD ((sum256 u i).val % 16) '0')) ∧
    (∀ ch ∈ (EncodeToString (List.ofFn (sum256 u))).toList, ch ∈ "0123456789abcdef".toList) ∧
    (createKey sum256 u).length = 70 ∧
    (createKey sum256 u = createKey sum256 v ↔ sum256 u = sum256 v) ∧
    (∀ (rc : Store) (now : Nat) (p : String),
      (OGCache.Set ⟨rc, sum256⟩ now none u p).2.rc.lookup now (createKey sum256 u)
        = some ⟨createKey sum256 u, p, now + ttl⟩ ∧
      OGCache.Get (OGCache.Set ⟨rc, sum256⟩ now none u p).2 now none u = (p, none)) := by
  have hlen : (hexEncode (List.ofFn (sum256 u))).length = 64 := by
    rw [hexEncode_length, List.length_ofFn]
  refine ⟨rfl, ?_, ?_, ?_, ?_, ?_, ?_⟩
  · simpa [EncodeToString, String.length] using hlen
  · intro i
    have hi : i.val < (List.ofFn (sum256 u)).length := by rw [List.length_ofFn]; exact i.isLt
    obtain ⟨a, b⟩ := hexEncode_get (List.ofFn (sum256 u)) i.val hi
    have hget : (List.ofFn (sum256 u)).get ⟨i.val, hi⟩ = sum256 u i := by
      rw [List.get_ofFn]
      exact congrArg (sum256 u) (Fin.ext rfl)
    rw [hget] at a b
    exact ⟨a, b⟩
  · intro ch hch
    exact hexEncode_mem _ ch hch
  · simp only [createKey, sessionKeyPrefix, EncodeToString, String.length, String.data_append]
    simp only [List.length_append, hlen]
    rfl
  · constructor
    · intro h
      have h1 : hexEncode (List.ofFn (sum256 u)) = hexEncode (List.ofFn (sum256 v)) := by
        have := congrArg String.data h
        simpa [createKey, EncodeToString, String.data_append] using this
      exact List.ofFn_injective (hexEncode_injective _ _ h1)
    · intro h
      simp only [createKey, h]
  · intro rc now p
    have hlt : now < now + ttl := by
      have : 0 < ttl := by decide
      omega
    constructor
    · simp [OGCache.Set, Store.Set, Store.lookup, hlt]
    · simp [OGCache.Get, OGCache.Set, Store.Set, Store.Get, Store.lookup, hlt]

/-! ## C12 -/

/-- C12: `OGCache.Get` returns the empty string with `ErrKeyNotFound` exactly
when the store answers `redis.Nil` for the key `createKey url`, which it does
exactly when no fault occurs and every entry under the key has expired (no
entry at all included); on any other error of the store it returns the empty
string and the store's error wrapped under `Get:redisClient.Get:`, an error that
`errors.Is` does not match with `ErrKeyNotFound`; otherwise it returns the
stored string and a nil error. -/
theorem OGCache_Get_spec (c : OGCache) (now : Nat) (fault : Option String) (url : String) :
    (OGCache.Get c now fault url = ("", some Error.ErrKeyNotFound) ↔
      c.rc.Get now fault (createKey c.sum256 url) = .error RedisError.Nil) ∧
    (c.rc.Get now fault (createKey c.sum256 url) = .error RedisError.Nil ↔
      fault = none ∧ ∀ e ∈ c.rc.entries, e.key = createKey c.sum256 url → e.expiresAt ≤ now) ∧
    (∀ msg, c.rc.Get now fault (createKey c.sum256 url) = .error (RedisError.other msg) →
      OGCache.Get c now fault url
        = ("", some (Error.wrap "Get:redisClient.Get:" (Error.redis (RedisError.other msg)))) ∧
      (Error.wrap "Get:redisClient.Get:" (Error.redis (RedisError.other msg))).Error
        = "Get:redisClient.Get: " ++ msg ∧
      (Error.wrap "Get:redisClient.Get:" (Error.redis (RedisError.other msg))).Is
        (Error.redis (RedisError.other msg)) = true ∧
      (Error.wrap "Get:redisClient.Get:" (Error.redis (RedisError.other msg))).Is
        Error.ErrKeyNotFound = false) ∧
    (∀ s, c.rc.Get now fault (createKey c.sum256 url) = .ok s →
      OGCache.Get c now fault url = (s, none)) := by
  refine ⟨?_, ?_, ?_, ?_⟩
  · unfold OGCache.Get
    cases h : c.rc.Get now fault (createKey c.sum256 url) with
    | error err =>
      cases err with
      | Nil => simp [h, Error.Is]
      | other msg => simp [h, Error.Is, Errorf_w]
    | ok s => simp [h]
  · unfold Store.Get
    cases fault with
    | some msg => simp
    | none =>
      cases h : c.rc.lookup now (createKey c.sum256 url) with
      | some e =>
        simp only [Store.lookup] at h
        have hm := List.mem_of_find?_eq_some h
        have hp := List.find?_some h
        simp only [Bool.decide_and, Bool.and_eq_true, decide_eq_true_eq] at hp
        constructor
        · intro hne
          cases hne
        · intro hall
          have := hall.2 e hm hp.1
          omega
      | none =>
        simp only [Store.lookup, List.find?_eq_none, Bool.decide_and, Bool.and_eq_true,
          decide_eq_true_eq, not_and, not_lt] at h
        exact ⟨fun _ => ⟨rfl, h⟩, fun _ => rfl⟩
  · intro msg h
    refine ⟨?_, ?_, ?_, ?_⟩
    · simp [OGCache.Get, h, Error.Is, Errorf_w]
    · simp [Error.Error]
    · simp [Error.Is]
    · simp [Error.Is]
  · intro s h
    simp [OGCache.Get, h]

/-! ## C13 -/

/-- C13: after `OGCache.Set c now none u p` (a write that the store accepts)
the call returns nil and the store holds under `createKey u` exactly one entry,
with the payload `p` and the expiry `now` plus one hour, whatever it held under
that key before (so a repeated `Set` replaces the value and restarts the hour);
`OGCache.Get` of `u` at any instant before that expiry returns `p` with a nil
error, and from the expiry on it returns `ErrKeyNotFound`. When the write
fails, `Set` returns the store's error wrapped under `Set:redisClient.Set:`
and the store is unchanged. -/
theorem OGCache_Set_Get_round_trip (c : OGCache) (now : Nat) (u p : String) :
    (OGCache.Set c now none u p).1 = none ∧
    (OGCache.Set c now none u p).2.sum256 = c.sum256 ∧
    (OGCache.Set c now none u p).2.rc.entries.filter (fun e => e.key = createKey c.sum256 u)
      = [⟨createKey c.sum256 u, p, now + 3600 * 1000000000⟩] ∧
    (∀ t, t < now + ttl → OGCache.Get (OGCache.Set c now none u p).2 t none u = (p, none)) ∧
    (∀ t, now + ttl ≤ t →
      OGCache.Get (OGCache.Set c now none u p).2 t none u = ("", some Error.ErrKeyNotFound)) ∧
    (∀ now2 p2,
      (OGCache.Set (OGCache.Set c now none u p).2 now2 none u p2).1 = none ∧
      (OGCache.Set (OGCache.Set c now none u p).2 now2 none u p2).2.rc.entries.filter
          (fun e => e.key = createKey c.sum256 u)
        = [⟨createKey c.sum256 u, p2, now2 + 3600 * 1000000000⟩] ∧
      ∀ t, t < now2 + ttl →
        OGCache.Get (OGCache.Set (OGCache.Set c now none u p).2 now2 none u p2).2 t none u
          = (p2, none)) ∧
    (∀ msg,
      OGCache.Set c now (some msg) u p
        = (some (Error.wrap "Set:redisClient.Set:" (Error.redis (RedisError.other msg))), c) ∧
      (Error.wrap "Set:redisClient.Set:" (Error.redis (RedisError.other msg))).Error
        = "Set:redisClient.Set: " ++ msg ∧
      HasPrefix (Error.wrap "Set:redisClient.Set:" (Error.redis (RedisError.other msg))).Error
        "Set:redisClient.Set:" = true) := by
  have hfilter : ∀ (l : List Entry) (k : String),
      (l.filter (fun e => decide (e.key ≠ k))).filter (fun e => decide (e.key = k)) = [] := by
    intro l k
    simp [List.filter_filter]
  have hget : ∀ (l : List Entry) (k v : String) (exp t : Nat), t < exp →
      Store.Get ⟨⟨k, v, exp⟩ :: l⟩ t none k = .ok v := by
    intro l k v exp t h
    simp [Store.Get, Store.lookup, h]
  have hmiss : ∀ (l : List Entry) (k v : String) (exp t : Nat), exp ≤ t →
      Store.Get ⟨⟨k, v, exp⟩ :: l.filter (fun e => decide (e.key ≠ k))⟩ t none k
        = .error RedisError.Nil := by
    intro l k v exp t h
    have h1 : ¬ t < exp := by omega
    have h2 : List.find? (fun e => decide (e.key = k ∧ t < e.expiresAt))
        (l.filter (fun e => decide (e.key ≠ k))) = none := by
      rw [List.find?_eq_none]
      intro e he
      simp only [List.mem_filter, decide_eq_true_eq] at he
      simp [he.2]
    have h3 : decide (True ∧ t < exp) = false := by simp [h1]
    simp only [Store.Get, Store.lookup, List.find?_cons, h3, h2]
  refine ⟨rfl, rfl, ?_, ?_, ?_, ?_, ?_⟩
  · simp only [OGCache.Set, Store.Set, List.filter_cons, decide_True, if_true, hfilter]
    rfl
  · intro t ht
    simp only [OGCache.Set, Store.Set, OGCache.Get, hget _ _ _ _ _ ht]
  · intro t ht
    simp only [OGCache.Set, Store.Set, OGCache.Get, hmiss _ _ _ _ _ ht]
    simp [Error.Is]
  · intro now2 p2
    refine ⟨rfl, ?_, ?_⟩
    · simp only [OGCache.Set, Store.Set, List.filter_cons, decide_True, if_true, hfilter,
        decide_not, Bool.not_true, Bool.false_eq_true, if_false]
      simp only [← decide_not, hfilter]
      rfl
    · intro t ht
      simp only [OGCache.Set, Store.Set, OGCache.Get, hget _ _ _ _ _ ht]
  · intro msg
    refine ⟨?_, ?_, ?_⟩
    · simp [OGCache.Set, Store.Set, Errorf_w]
    · simp [Error.Error]
    · simp only [Error.Error, HasPrefix]
      simp [String.toList, String.data_append]

/-! ## Lemmas on the handler -/

theorem writeJSON_ok (m : envelope → Except Error String) (status : Nat) (data : envelope)
    (js : String) (hm : m data = .ok js) :
    writeJSON m NewRecorder status data
      = (none, { header := [("Content-Type", "application/json")], status := some status,
                 body := js ++ "\n" }) := by
  simp [writeJSON, hm, ResponseWriter.Write, ResponseWriter.WriteHeader,
    ResponseWriter.HeaderSet, NewRecorder]

theorem ogTagHandler_hit {σ τ : Type} (app : application σ τ) (r url payload : String)
    (cs cs1 : σ) (ts : τ)
    (hr : app.readJSON r = .ok url) (hv : app.validator url = Validation.ok)
    (hg : app.cache.Get cs url = ((payload, none), cs1)) :
    ogTagHandler app NewRecorder r cs ts =
      { w := { header := [("Content-Type", "application/json")], status := some 200,
               body := payload },
        cache := cs1, client := ts,
        events := [Event.Inc "/og", Event.cacheGet url, Event.CacheHit] } := by
  simp [ogTagHandler, hr, hv, hg, ResponseWriter.Write, ResponseWriter.WriteHeader,
    ResponseWriter.HeaderSet, NewRecorder]

theorem errorResponse_status {σ τ : Type} (app : application σ τ) (status : Nat)
    (message : String) :
    (errorResponse app NewRecorder status message).status = some status ∨
    (errorResponse app NewRecorder status message).status = some 500 := by
  unfold errorResponse
  cases hm : app.MarshalIndent [("error", Value.str message)] with
  | error err =>
    right
    simp [writeJSON, hm, ResponseWriter.WriteHeader, NewRecorder]
  | ok js =>
    left
    simp [writeJSON_ok app.MarshalIndent status _ js hm]

theorem ogTagHandler_miss_fetched {σ τ : Type} (app : application σ τ) (r url js : String)
    (cs : σ) (ts ts1 : τ) (ogs : Option OGTags)
    (hr : app.readJSON r = .ok url) (hv : app.validator url = Validation.ok)
    (hg : (app.cache.Get cs url).1.2 ≠ none)
    (hc : app.client.GetOGTags ts url = ((ogs, none), ts1))
    (hm : app.MarshalIndent [("result", Value.ogs ogs)] = .ok js) :
    ogTagHandler app NewRecorder r cs ts =
      { w := { header := [("Content-Type", "application/json")], status := some 200,
               body := js ++ "\n" },
        cache := (app.cache.Set (app.cache.Get cs url).2 url (js ++ "\n")).2,
        client := ts1,
        events := [Event.Inc "/og", Event.cacheGet url, Event.CacheMiss,
          Event.clientGetOGTags url, Event.cacheSet url (js ++ "\n")] } := by
  rcases hget : app.cache.Get cs url with ⟨⟨s, e⟩, cs1⟩
  rw [hget] at hg
  cases e with
  | none => exact absurd rfl hg
  | some e =>
    simp [ogTagHandler, hr, hv, hget, hc, hm, writeJSON_ok app.MarshalIndent 200 _ js hm]

/-- The tags of the page `exPage` fetched from `https://example.com`. -/
theorem exApp_fetch :
    (Client.asClient exEnv (at_ 0)).GetOGTags (New (exServing exPage)) "https://example.com"
      = ((some ⟨"https://example.com", some ["og:title Test"]⟩, none),
         (GetOGTags exEnv (New (exServing exPage)) "https://example.com" (at_ 0)).2) :=
  Prod.ext (by decide) rfl

/-- A cache `OGCache` whose store has no fault returns from `Get` what the last
`Set` has stored, when both happen at the same instant. -/
theorem OGCache_asClient_stores (now : Nat) (s : OGCache) (u p : String) :
    ((OGCache.asClient now none).Get ((OGCache.asClient now none).Set s u p).2 u).1
      = (p, none) := by
  have hlt : now < now + ttl := by
    have : 0 < ttl := by decide
    omega
  simp [OGCache.asClient, OGCache.Get, OGCache.Set, Store.Set, Store.Get, Store.lookup, hlt]

/-! ## C14 -/

/-- C14: when the body of the request decodes, the decoded URL passes the
validation and `cache.Get` returns a payload with a nil error, `ogTagHandler`
writes status 200, the content type `application/json` and a body equal to the
cached payload; it calls neither the OG-tag client nor `cache.Set`: the only
events are `Inc`, the one `cache.Get` and `CacheHit`, and the state of the
client is untouched. -/
theorem ogTagHandler_cache_hit {σ τ : Type} (app : application σ τ) (r url payload : String)
    (cs cs1 : σ) (ts : τ)
    (hr : app.readJSON r = .ok url) (hv : app.validator url = Validation.ok)
    (hg : app.cache.Get cs url = ((payload, none), cs1)) :
    (ogTagHandler app NewRecorder r cs ts).w.status = some 200 ∧
    (ogTagHandler app NewRecorder r cs ts).w.HeaderGet "Content-Type" = "application/json" ∧
    (ogTagHandler app NewRecorder r cs ts).w.body = payload ∧
    (ogTagHandler app NewRecorder r cs ts).events
      = [Event.Inc "/og", Event.cacheGet url, Event.CacheHit] ∧
    (ogTagHandler app NewRecorder r cs ts).events.countP Event.isClientCall = 0 ∧
    (ogTagHandler app NewRecorder r cs ts).events.countP Event.isCacheSet = 0 ∧
    (ogTagHandler app NewRecorder r cs ts).client = ts ∧
    (ogTagHandler app NewRecorder r cs ts).cache = cs1 := by
  rw [ogTagHandler_hit app r url payload cs cs1 ts hr hv hg]
  refine ⟨rfl, ?_, rfl, rfl, ?_, ?_, rfl, rfl⟩
  · simp [ResponseWriter.HeaderGet]
  · simp [Event.isClientCall]
  · simp [Event.isCacheSet]

theorem ogTagHandler_cache_hit_witness :
    (ogTagHandler (exApp 0 none) NewRecorder exRequest
        (OGCache.Set exEmptyCache 0 none "https://example.com" "cached").2
        (New exFailing)).w.status = some 200 ∧
    (ogTagHandler (exApp 0 none) NewRecorder exRequest
        (OGCache.Set exEmptyCache 0 none "https://example.com" "cached").2
        (New exFailing)).w.body = "cached" :=
  have h := ogTagHandler_cache_hit (exApp 0 none) exRequest "https://example.com" "cached"
    (OGCache.Set exEmptyCache 0 none "https://example.com" "cached").2
    (OGCache.Set exEmptyCache 0 none "https://example.com" "cached").2
    (New exFailing) rfl rfl rfl
  ⟨h.1, h.2.2.1⟩

/-! ## C15 -/

/-- C15: take two caches behind the same application (same client, validator,
decoder and encoder). When the request is valid, `cache.Get` returns an error
in both (`ErrKeyNotFound` or any other), and the client returns tags with a nil
error, the two responses are equal, with status 200 and the body that
`writeJSON` makes of the tags, whatever the two `cache.Set` return; with either
cache the client is called once and `cache.Set` is called once. -/
theorem ogTagHandler_cache_failures_hidden {σ₁ σ₂ τ : Type} (client : OGTagClient τ)
    (validator : String → Validation) (readJSON : String → Except Error String)
    (MarshalIndent : envelope → Except Error String)
    (cache1 : OGCacheClient σ₁) (cache2 : OGCacheClient σ₂)
    (r url js : String) (cs1 : σ₁) (cs2 : σ₂) (ts ts1 : τ) (ogs : Option OGTags)
    (hr : readJSON r = .ok url) (hv : validator url = Validation.ok)
    (hg1 : (cache1.Get cs1 url).1.2 ≠ none) (hg2 : (cache2.Get cs2 url).1.2 ≠ none)
    (hc : client.GetOGTags ts url = ((ogs, none), ts1))
    (hm : MarshalIndent [("result", Value.ogs ogs)] = .ok js) :
    (ogTagHandler ⟨client, cache1, validator, readJSON, MarshalIndent⟩ NewRecorder r cs1 ts).w
      = (ogTagHandler ⟨client, cache2, validator, readJSON, MarshalIndent⟩ NewRecorder r cs2 ts).w ∧
    (ogTagHandler ⟨client, cache1, validator, readJSON, MarshalIndent⟩ NewRecorder r cs1
      ts).w.status = some 200 ∧
    (ogTagHandler ⟨client, cache1, validator, readJSON, MarshalIndent⟩ NewRecorder r cs1
      ts).w.body = js ++ "\n" ∧
    (ogTagHandler ⟨client, cache1, validator, readJSON, MarshalIndent⟩ NewRecorder r cs1
      ts).events.countP Event.isClientCall = 1 ∧
    (ogTagHandler ⟨client, cache1, validator, readJSON, MarshalIndent⟩ NewRecorder r cs1
      ts).events.countP Event.isCacheSet = 1 ∧
    (ogTagHandler ⟨client, cache2, validator, readJSON, MarshalIndent⟩ NewRecorder r cs2
      ts).events.countP Event.isClientCall = 1 ∧
    (ogTagHandler ⟨client, cache2, validator, readJSON, MarshalIndent⟩ NewRecorder r cs2
      ts).events.countP Event.isCacheSet = 1 := by
  rw [ogTagHandler_miss_fetched ⟨client, cache1, validator, readJSON, MarshalIndent⟩ r url js
      cs1 ts ts1 ogs hr hv hg1 hc hm,
    ogTagHandler_miss_fetched ⟨client, cache2, validator, readJSON, MarshalIndent⟩ r url js
      cs2 ts ts1 ogs hr hv hg2 hc hm]
  simp [Event.isClientCall, Event.isCacheSet]

theorem ogTagHandler_cache_failures_hidden_witness :
    (ogTagHandler ⟨Client.asClient exEnv (at_ 0), OGCache.asClient 0 none, exValidator,
        exReadJSON, exMarshalIndent⟩ NewRecorder exRequest exEmptyCache
        (New (exServing exPage))).w
      = (ogTagHandler ⟨Client.asClient exEnv (at_ 0),
          OGCache.asClient 0 (some "connection refused"), exValidator,
          exReadJSON, exMarshalIndent⟩ NewRecorder exRequest exEmptyCache
          (New (exServing exPage))).w ∧
    (ogTagHandler ⟨Client.asClient exEnv (at_ 0), OGCache.asClient 0 none, exValidator,
        exReadJSON, exMarshalIndent⟩ NewRecorder exRequest exEmptyCache
        (New (exServing exPage))).w.status = some 200 :=
  have h := ogTagHandler_cache_failures_hidden (Client.asClient exEnv (at_ 0)) exValidator
    exReadJSON exMarshalIndent (OGCache.asClient 0 none)
    (OGCache.asClient 0 (some "connection refused")) exRequest "https://example.com"
    _ exEmptyCache exEmptyCache (New (exServing exPage)) _ _
    rfl rfl (by decide) (by decide) exApp_fetch rfl
  ⟨h.1, h.2.1⟩

/-! ## C16 -/

/-- C16: when the request is valid, `cache.Get` returns an error and the
client returns an error, `ogTagHandler` has called the client once, writes
status 500 and does not call `cache.Set`: the cache is left in the state
`cache.Get` left it in. -/
theorem ogTagHandler_client_error {σ τ : Type} (app : application σ τ) (r url : String)
    (cs : σ) (ts ts1 : τ) (res : Option OGTags) (e : Error)
    (hr : app.readJSON r = .ok url) (hv : app.validator url = Validation.ok)
    (hg : (app.cache.Get cs url).1.2 ≠ none)
    (hc : app.client.GetOGTags ts url = ((res, some e), ts1)) :
    (ogTagHandler app NewRecorder r cs ts).w.status = some 500 ∧
    (ogTagHandler app NewRecorder r cs ts).events.countP Event.isClientCall = 1 ∧
    (ogTagHandler app NewRecorder r cs ts).events.countP Event.isCacheSet = 0 ∧
    (ogTagHandler app NewRecorder r cs ts).events
      = [Event.Inc "/og", Event.cacheGet url, Event.CacheMiss, Event.clientGetOGTags url,
         Event.CountResponse 500 "/og"] ∧
    (ogTagHandler app NewRecorder r cs ts).cache = (app.cache.Get cs url).2 ∧
    (ogTagHandler app NewRecorder r cs ts).client = ts1 := by
  rcases hget : app.cache.Get cs url with ⟨⟨s, e1⟩, cs1⟩
  rw [hget] at hg
  cases e1 with
  | none => exact absurd rfl hg
  | some e1 =>
    have h : ogTagHandler app NewRecorder r cs ts =
        { w := serverErrorResponse app NewRecorder e, cache := cs1, client := ts1,
          events := [Event.Inc "/og", Event.cacheGet url, Event.CacheMiss,
            Event.clientGetOGTags url, Event.CountResponse 500 "/og"] } := by
      simp [ogTagHandler, hr, hv, hget, hc]
    rw [h]
    refine ⟨?_, ?_, ?_, rfl, rfl, rfl⟩
    · rcases errorResponse_status app 500
        "the server encountered a problem and could not process your request" with h1 | h1
      · exact h1
      · exact h1
    · simp [Event.isClientCall]
    · simp [Event.isCacheSet]

theorem ogTagHandler_client_error_witness :
    (ogTagHandler (exApp 0 none) NewRecorder exRequest exEmptyCache (New exFailing)).w.status
      = some 500 ∧
    (ogTagHandler (exApp 0 none) NewRecorder exRequest exEmptyCache
      (New exFailing)).events.countP Event.isCacheSet = 0 :=
  have h := ogTagHandler_client_error (exApp 0 none) exRequest "https://example.com"
    exEmptyCache (New exFailing)
    (GetOGTags exEnv (New exFailing) "https://example.com" (at_ 0)).2 none
    (Error.wrap "GetOGTags:retryablehttp.Get" (Error.ext "network error"))
    rfl rfl (by decide) (Prod.ext (by decide) rfl)
  ⟨h.1, h.2.2.1⟩

/-! ## C17 -/

/-- C17: let the cache return from `Get` what the last `Set` for the URL has
stored. For two valid requests for the same URL in succession, where
`cache.Get` misses on the first and the fetch of the first succeeds, the two
runs of `ogTagHandler` together call the client once and `cache.Set` once; the
payload handed to `cache.Set` is the body of the first response, the marshalled
envelope of the tags followed by a newline, and the second response has the
same body and the same status 200. -/
theorem ogTagHandler_same_url_twice {σ τ : Type} (app : application σ τ) (r url js : String)
    (cs : σ) (ts ts1 : τ) (ogs : Option OGTags)
    (hr : app.readJSON r = .ok url) (hv : app.validator url = Validation.ok)
    (hstore : ∀ s u p, (app.cache.Get (app.cache.Set s u p).2 u).1 = (p, none))
    (hg : (app.cache.Get cs url).1.2 ≠ none)
    (hc : app.client.GetOGTags ts url = ((ogs, none), ts1))
    (hm : app.MarshalIndent [("result", Value.ogs ogs)] = .ok js) :
    ((ogTagHandler app NewRecorder r cs ts).events ++
      (ogTagHandler app NewRecorder r (ogTagHandler app NewRecorder r cs ts).cache
        (ogTagHandler app NewRecorder r cs ts).client).events).countP Event.isClientCall = 1 ∧
    ((ogTagHandler app NewRecorder r cs ts).events ++
      (ogTagHandler app NewRecorder r (ogTagHandler app NewRecorder r cs ts).cache
        (ogTagHandler app NewRecorder r cs ts).client).events).countP Event.isCacheSet = 1 ∧
    (ogTagHandler app NewRecorder r cs ts).events.filter Event.isCacheSet
      = [Event.cacheSet url (ogTagHandler app NewRecorder r cs ts).w.body] ∧
    (ogTagHandler app NewRecorder r cs ts).w.body = js ++ "\n" ∧
    (ogTagHandler app NewRecorder r (ogTagHandler app NewRecorder r cs ts).cache
      (ogTagHandler app NewRecorder r cs ts).client).w.body
      = (ogTagHandler app NewRecorder r cs ts).w.body ∧
    (ogTagHandler app NewRecorder r cs ts).w.status = some 200 ∧
    (ogTagHandler app NewRecorder r (ogTagHandler app NewRecorder r cs ts).cache
      (ogTagHandler app NewRecorder r cs ts).client).w.status = some 200 := by
  have h1 := ogTagHandler_miss_fetched app r url js cs ts ts1 ogs hr hv hg hc hm
  rcases hget : app.cache.Get (app.cache.Set (app.cache.Get cs url).2 url (js ++ "\n")).2 url
    with ⟨res, cs3⟩
  have hres : res = (js ++ "\n", none) := by
    have := hstore (app.cache.Get cs url).2 url (js ++ "\n")
    rw [hget] at this
    exact this
  subst hres
  have h2 := ogTagHandler_hit app r url (js ++ "\n")
    (app.cache.Set (app.cache.Get cs url).2 url (js ++ "\n")).2 cs3 ts1 hr hv hget
  have hcache : (ogTagHandler app NewRecorder r cs ts).cache
      = (app.cache.Set (app.cache.Get cs url).2 url (js ++ "\n")).2 := by rw [h1]
  have hclient : (ogTagHandler app NewRecorder r cs ts).client = ts1 := by rw [h1]
  rw [hcache, hclient, h2, h1]
  refine ⟨?_, ?_, ?_, rfl, rfl, rfl, rfl⟩
  · simp [Event.isClientCall]
  · simp [Event.isCacheSet]
  · simp [Event.isCacheSet]

theorem ogTagHandler_same_url_twice_witness :
    ((ogTagHandler (exApp 0 none) NewRecorder exRequest exEmptyCache
        (New (exServing exPage))).events ++
      (ogTagHandler (exApp 0 none) NewRecorder exRequest
        (ogTagHandler (exApp 0 none) NewRecorder exRequest exEmptyCache
          (New (exServing exPage))).cache
        (ogTagHandler (exApp 0 none) NewRecorder exRequest exEmptyCache
          (New (exServing exPage))).client).events).countP Event.isClientCall = 1 ∧
    (ogTagHandler (exApp 0 none) NewRecorder exRequest
        (ogTagHandler (exApp 0 none) NewRecorder exRequest exEmptyCache
          (New (exServing exPage))).cache
        (ogTagHandler (exApp 0 none) NewRecorder exRequest exEmptyCache
          (New (exServing exPage))).client).w.body
      = "\x7b\n\t\"result\": \x7b\n\t\t\"url\": \"https://example.com\",\n\t\t\"og_tags\": " ++
        "[\n\t\t\t\"og:title Test\"\n\t\t]\n\t\x7d\n\x7d\n" :=
  have h := ogTagHandler_same_url_twice (exApp 0 none) exRequest "https://example.com" _
    exEmptyCache (New (exServing exPage)) _ _ rfl rfl (OGCache_asClient_stores 0)
    (by decide) exApp_fetch rfl
  ⟨h.1, h.2.2.2.2.1.trans (h.2.2.2.1.trans (by decide))⟩

/-! ## C18 -/

/-- C18: when the body of the request decodes and `validator.Struct` returns
validation errors for the decoded URL, `ogTagHandler` writes status 422 (the
message of the errors marshals, as every string does) and calls neither
`cache.Get`, `cache.Set` nor the OG-tag client: the only events are `Inc` and
`CountResponse` with 422, and the states of the cache and of the client are
untouched. -/
theorem ogTagHandler_validation_failure {σ τ : Type} (app : application σ τ)
    (r url msg js : String) (cs : σ) (ts : τ)
    (hr : app.readJSON r = .ok url)
    (hv : app.validator url = Validation.ValidationErrors msg)
    (hm : app.MarshalIndent [("error", Value.str msg)] = .ok js) :
    (ogTagHandler app NewRecorder r cs ts).w.status = some 422 ∧
    (ogTagHandler app NewRecorder r cs ts).w.body = js ++ "\n" ∧
    (ogTagHandler app NewRecorder r cs ts).events
      = [Event.Inc "/og", Event.CountResponse 422 "/og"] ∧
    (ogTagHandler app NewRecorder r cs ts).events.countP Event.isCacheGet = 0 ∧
    (ogTagHandler app NewRecorder r cs ts).events.countP Event.isCacheSet = 0 ∧
    (ogTagHandler app NewRecorder r cs ts).events.countP Event.isClientCall = 0 ∧
    (ogTagHandler app NewRecorder r cs ts).cache = cs ∧
    (ogTagHandler app NewRecorder r cs ts).client = ts := by
  have h : ogTagHandler app NewRecorder r cs ts =
      { w := { header := [("Content-Type", "application/json")], status := some 422,
               body := js ++ "\n" },
        cache := cs, client := ts,
        events := [Event.Inc "/og", Event.CountResponse 422 "/og"] } := by
    simp [ogTagHandler, hr, hv, failedValidationResponse, errorResponse,
      writeJSON_ok app.MarshalIndent 422 _ js hm]
  rw [h]
  refine ⟨rfl, rfl, rfl, ?_, ?_, ?_, rfl, rfl⟩
  · simp [Event.isCacheGet]
  · simp [Event.isCacheSet]
  · simp [Event.isClientCall]

theorem ogTagHandler_validation_failure_witness :
    (ogTagHandler (exApp 0 none) NewRecorder "\x7b\"url\":\"not-a-valid-url\"\x7d" exEmptyCache
      (New exFailing)).w.status = some 422 ∧
    (ogTagHandler (exApp 0 none) NewRecorder "\x7b\"url\":\"not-a-valid-url\"\x7d" exEmptyCache
      (New exFailing)).events = [Event.Inc "/og", Event.CountResponse 422 "/og"] :=
  have h := ogTagHandler_validation_failure (exApp 0 none)
    "\x7b\"url\":\"not-a-valid-url\"\x7d" "not-a-valid-url" _ _ exEmptyCache (New exFailing)
    rfl rfl rfl
  ⟨h.1, h.2.2.1⟩

/-! ## C19 -/

theorem wrap_hasPrefix (ctx : String) (e : Error) :
    HasPrefix (Error.wrap ctx e).Error ctx = true := by
  rw [hasPrefix_iff]
  simp only [Error.Error, String.toList, String.data_append, List.append_assoc]
  exact List.prefix_append _ _

/-- What `beforeRequest` rejects with: the error of the open state when the
breaker is open, the error of the half-open state when `maxRequests` trial
calls are admitted already. -/
theorem beforeRequest_rejects (cb cb1 : CircuitBreaker) (now g : Nat) (e : Error)
    (h : cb.beforeRequest now = (cb1, g, some e)) :
    (cb1.state = State.StateOpen ∧ e = Error.ErrOpenState) ∨
    (cb1.state = State.StateHalfOpen ∧ cb1.counts.Requests ≥ cb1.maxRequests ∧
      e = Error.ErrTooManyRequests) := by
  unfold CircuitBreaker.beforeRequest at h
  by_cases h1 : (cb.currentState now).state = State.StateOpen
  · simp only [h1, if_true, Prod.mk.injEq, Option.some.injEq] at h
    left
    exact ⟨by rw [← h.1]; exact h1, h.2.2.symm⟩
  · by_cases h2 : (cb.currentState now).state = State.StateHalfOpen ∧
        (cb.currentState now).counts.Requests ≥ (cb.currentState now).maxRequests
    · simp only [if_neg h1, if_pos h2, Prod.mk.injEq, Option.some.injEq] at h
      right
      exact ⟨by rw [← h.1]; exact h2.1, by rw [← h.1]; exact h2.2, h.2.2.symm⟩
    · simp only [if_neg h1, if_neg h2, Prod.mk.injEq] at h
      exact absurd h.2.2 (by simp)

theorem Execute_rejected {σ T : Type} (cb cb1 : CircuitBreaker) (tB tA g : Nat)
    (req : σ → (Option T × Option Error) × σ) (w : σ) (e : Error)
    (h : cb.beforeRequest tB = (cb1, g, some e)) :
    cb.Execute tB tA req w = ((none, some e), cb1, w) := by
  simp [CircuitBreaker.Execute, h]

theorem Execute_admitted {σ T : Type} (cb cb1 : CircuitBreaker) (tB tA g : Nat)
    (req : σ → (Option T × Option Error) × σ) (w : σ)
    (h : cb.beforeRequest tB = (cb1, g, none)) :
    cb.Execute tB tA req w = ((req w).1, cb1.afterRequest g (req w).1.2.isNone tA, (req w).2) := by
  simp [CircuitBreaker.Execute, h]

theorem fetchOGTags_parse_fail (env : Env) (h : HTTPClient) (url : String) (res : Response)
    (e : Error) (hok : h.GetFunc h.calls.length url = .ok res)
    (hdoc : env.htmlParse res.Body = .error e) :
    fetchOGTags env url h
      = ((none, some (Error.wrap "GetOGTags:html.Parse" e)),
          { h with calls := h.calls ++ [url] }) := by
  simp [fetchOGTags, HTTPClient.Get, hok, hdoc, Errorf_w]

theorem fetchOGTags_error_nil (env : Env) (url : String) (h : HTTPClient) (e : Error)
    (he : (fetchOGTags env url h).1.2 = some e) : (fetchOGTags env url h).1.1 = none := by
  unfold fetchOGTags HTTPClient.Get at he ⊢
  cases hg : h.GetFunc h.calls.length url with
  | error e1 => simp
  | ok res =>
    cases hd : env.htmlParse res.Body with
    | error e1 => simp [hd]
    | ok doc => simp [hg, hd] at he

/-- The error of a call is nil or the result is nil. -/
theorem GetOGTags_error_nil (env : Env) (c : Client) (url : String) (clk : Clock) (e : Error)
    (he : (GetOGTags env c url clk).1.2 = some e) : (GetOGTags env c url clk).1.1 = none := by
  rcases hg : getHost env url with ⟨h1, err⟩
  by_cases hv : err.isSome = true ∨ h1 = ""
  · simp [GetOGTags, hg, hv]
  · have h1ne : h1 ≠ "" := fun h => hv (Or.inr h)
    have herr : err = none := by
      cases err with
      | none => rfl
      | some e => exact absurd (Or.inl rfl) hv
    subst herr
    rw [GetOGTags_valid env c url clk h1 hg h1ne] at he ⊢
    simp only at he ⊢
    rcases Execute_result (c.breakerFor h1 clk.created) clk.before clk.after
      (fetchOGTags env url) c.client with hr | ⟨err, hr⟩
    · rw [hr] at he ⊢
      exact fetchOGTags_error_nil env url c.client e he
    · rw [hr]

/-- A failure recorded by a closed breaker in its counting window: the breaker
trips, or its request and failure counts have grown by one. -/
theorem afterRequest_closed_failure (cb : CircuitBreaker) (ex tA : Nat)
    (hs : cb.state = State.StateClosed) (he : cb.expiry = some ex) (ha : tA ≤ ex) :
    cb.afterRequest cb.generation false tA
      = if ReadyToTrip cb.tripCfg cb.counts.onFailure then
          ({ cb with counts := cb.counts.onFailure } : CircuitBreaker).setState State.StateOpen tA
        else { cb with counts := cb.counts.onFailure } := by
  obtain ⟨name, mr, iv, tmo, cfg, st, gen, cnt, exp⟩ := cb
  simp only at hs he
  subst hs he
  have hx : ¬ ex < tA := by omega
  simp [CircuitBreaker.afterRequest, CircuitBreaker.currentState, expiryBefore, hx,
    CircuitBreaker.onFailure]

/-- An outcome that arrives in a later generation than its request is dropped. -/
theorem afterRequest_dropped (cb : CircuitBreaker) (g tA : Nat) (success : Bool)
    (hg : (cb.currentState tA).generation ≠ g) :
    cb.afterRequest g success tA = cb.currentState tA := by
  simp [CircuitBreaker.afterRequest, hg]

/-- C19 (amended): for a target with a valid host, `GetOGTags` returns a nil
result with every error. When `beforeRequest` of the host's breaker rejects the
call, the error returned is the breaker's own: `ErrOpenState` ("circuit breaker
is open") from an open breaker, `ErrTooManyRequests` ("too many requests") from
a half-open breaker that has admitted `maxRequests` calls; the HTTP client is
not called and the message contains neither `GetOGTags:retryablehttp.Get` nor
`GetOGTags:html.Parse`. When the call is admitted, a failure of the HTTP client
is returned wrapped under `GetOGTags:retryablehttp.Get` and a failure of the
parser wrapped under `GetOGTags:html.Parse`, and in both cases the breaker of
the host is left as `afterRequest` leaves it for an unsuccessful outcome: the
outcome is dropped when the generation has changed since the call was
admitted, and in a closed breaker whose counting window is still current the
failure count grows by one or the breaker trips. -/
theorem GetOGTags_error_kinds (env : Env) (c : Client) (url : String) (clk : Clock)
    (host : String) (hh : getHost env url = (host, none)) (hne : host ≠ "")
    (hsize : 1 ≤ c.breakersCache.size) :
    (∀ e, (GetOGTags env c url clk).1.2 = some e → (GetOGTags env c url clk).1.1 = none) ∧
    (∀ cb1 g e, (c.breakerFor host clk.created).beforeRequest clk.before = (cb1, g, some e) →
      (GetOGTags env c url clk).1 = (none, some e) ∧
      (GetOGTags env c url clk).2.client = c.client ∧
      ((cb1.state = State.StateOpen ∧ e = Error.ErrOpenState ∧
          e.Error = "circuit breaker is open") ∨
        (cb1.state = State.StateHalfOpen ∧ cb1.counts.Requests ≥ cb1.maxRequests ∧
          e = Error.ErrTooManyRequests ∧ e.Error = "too many requests")) ∧
      ¬ Contains e.Error "GetOGTags:retryablehttp.Get" ∧
      ¬ Contains e.Error "GetOGTags:html.Parse") ∧
    (∀ cb1 g, (c.breakerFor host clk.created).beforeRequest clk.before = (cb1, g, none) →
      (∀ e, c.client.GetFunc c.client.calls.length url = .error e →
        (GetOGTags env c url clk).1
          = (none, some (Error.wrap "GetOGTags:retryablehttp.Get" e)) ∧
        HasPrefix (Error.wrap "GetOGTags:retryablehttp.Get" e).Error
          "GetOGTags:retryablehttp.Get" = true ∧
        (GetOGTags env c url clk).2.breakersCache.Peek host
          = some (cb1.afterRequest g false clk.after)) ∧
      (∀ res e, c.client.GetFunc c.client.calls.length url = .ok res →
        env.htmlParse res.Body = .error e →
        (GetOGTags env c url clk).1 = (none, some (Error.wrap "GetOGTags:html.Parse" e)) ∧
        HasPrefix (Error.wrap "GetOGTags:html.Parse" e).Error "GetOGTags:html.Parse" = true ∧
        (GetOGTags env c url clk).2.breakersCache.Peek host
          = some (cb1.afterRequest g false clk.after)) ∧
      ((cb1.currentState clk.after).generation ≠ g →
        cb1.afterRequest g false clk.after = cb1.currentState clk.after) ∧
      (∀ ex, cb1.state = State.StateClosed → cb1.expiry = some ex → clk.after ≤ ex →
        cb1.generation = g →
        ((cb1.afterRequest g false clk.after).state = State.StateOpen ∨
          (cb1.afterRequest g false clk.after).counts.TotalFailures
            = (cb1.counts.TotalFailures + 1) % 2 ^ 32))) := by
  obtain ⟨f1, f2, ⟨l, f3⟩, _, _, _⟩ := GetOGTags_valid_facts env c url clk host hh hne hsize
  have f3p := Cache.peek_front _ _ _ _ f3
  refine ⟨fun e he => GetOGTags_error_nil env c url clk e he, ?_, ?_⟩
  · intro cb1 g e hb
    have hx := Execute_rejected (c.breakerFor host clk.created) cb1 clk.before clk.after g
      (fetchOGTags env url) c.client e hb
    rw [hx] at f1 f2
    refine ⟨f1, f2, ?_, ?_, ?_⟩
    · rcases beforeRequest_rejects _ _ _ _ _ hb with ⟨h1, h2⟩ | ⟨h1, h2, h3⟩
      · left; exact ⟨h1, h2, by rw [h2]; rfl⟩
      · right; exact ⟨h1, h2, h3, by rw [h3]; rfl⟩
    · rcases beforeRequest_rejects _ _ _ _ _ hb with ⟨_, h2⟩ | ⟨_, _, h3⟩
      · rw [h2]; unfold Contains; decide
      · rw [h3]; unfold Contains; decide
    · rcases beforeRequest_rejects _ _ _ _ _ hb with ⟨_, h2⟩ | ⟨_, _, h3⟩
      · rw [h2]; unfold Contains; decide
      · rw [h3]; unfold Contains; decide
  · intro cb1 g hb
    have hx := Execute_admitted (c.breakerFor host clk.created) cb1 clk.before clk.after g
      (fetchOGTags env url) c.client hb
    rw [hx] at f1 f3p
    refine ⟨?_, ?_, ?_, ?_⟩
    · intro e hf
      have hfe := fetchOGTags_fail env c.client url e hf
      rw [hfe] at f1 f3p
      exact ⟨f1, wrap_hasPrefix _ _, f3p⟩
    · intro res e hok hdoc
      have hfe := fetchOGTags_parse_fail env c.client url res e hok hdoc
      rw [hfe] at f1 f3p
      exact ⟨f1, wrap_hasPrefix _ _, f3p⟩
    · intro hg
      exact afterRequest_dropped cb1 g clk.after false hg
    · intro ex hs he ha hgen
      rw [← hgen, afterRequest_closed_failure cb1 ex clk.after hs he ha]
      by_cases hr : ReadyToTrip cb1.tripCfg cb1.counts.onFailure = true
      · left
        rw [if_pos hr]
        simp [CircuitBreaker.setState, hs, CircuitBreaker.toNewGeneration]
      · right
        rw [if_neg hr]
        rfl

theorem GetOGTags_error_kinds_witness :
    (GetOGTags exEnv exTripped "https://example.com" (at_ Second)).1
      = (none, some Error.ErrOpenState) ∧
    (GetOGTags exEnv (New exFailing) "https://example.com" (at_ 0)).1
      = (none, some (Error.wrap "GetOGTags:retryablehttp.Get" (Error.ext "network error"))) ∧
    (GetOGTags exEnv exHalfOpenClient "https://example.com" (at_ (31 * Second))).1
      = (none, some Error.ErrTooManyRequests) :=
  have h1 := GetOGTags_error_kinds exEnv exTripped "https://example.com" (at_ Second)
    "example.com" rfl (by decide) (by decide)
  have h2 := GetOGTags_error_kinds exEnv (New exFailing) "https://example.com" (at_ 0)
    "example.com" rfl (by decide) (by decide)
  have h3 := GetOGTags_error_kinds exEnv exHalfOpenClient "https://example.com"
    (at_ (31 * Second)) "example.com" rfl (by decide) (by decide)
  ⟨(h1.2.1 _ _ _ rfl).1, ((h2.2.2 _ _ rfl).1 _ rfl).1, (h3.2.1 _ _ _ rfl).1⟩

/-- C19, the claim as it stands fails: a transport failure that is not counted.
The first call for `example.com` is admitted at instant 0 in the window that
ends at 10 s; the HTTP client fails and the call ends at 11 s, in the next
window. The caller gets the wrapped transport error, and the breaker holds no
request and no failure. -/
theorem transport_failure_not_counted :
    (GetOGTags exEnv (New exFailing) "https://example.com" ⟨0, 0, 11 * Second⟩).1
      = (none, some (Error.wrap "GetOGTags:retryablehttp.Get" (Error.ext "network error"))) ∧
    ((GetOGTags exEnv (New exFailing) "https://example.com"
        ⟨0, 0, 11 * Second⟩).2.breakersCache.Peek "example.com").map CircuitBreaker.summary
      = some (State.StateClosed, 0, 0) := by
  decide

/-! ## C20 -/

theorem roundHalfEven_bounds (n d : Nat) :
    n / d ≤ roundHalfEven n d ∧ roundHalfEven n d ≤ n / d + 1 := by
  unfold roundHalfEven
  split_ifs <;> omega

theorem scaleFrom_spec (n d : Nat) :
    ∀ (fuel e0 : Nat),
      e0 ≤ scaleFrom n d fuel e0 ∧ scaleFrom n d fuel e0 ≤ e0 + fuel ∧
      (∀ k, e0 ≤ k → k < scaleFrom n d fuel e0 → ¬ 2 ^ 52 * d ≤ n * 2 ^ k) ∧
      (scaleFrom n d fuel e0 < e0 + fuel → 2 ^ 52 * d ≤ n * 2 ^ scaleFrom n d fuel e0) := by
  intro fuel
  induction fuel with
  | zero =>
    intro e0
    simp only [scaleFrom]
    exact ⟨Nat.le_refl _, by omega, fun k h1 h2 => by omega, fun h => by omega⟩
  | succ fuel ih =>
    intro e0
    simp only [scaleFrom]
    by_cases hc : 2 ^ 52 * d ≤ n * 2 ^ e0
    · simp only [if_pos hc]
      exact ⟨Nat.le_refl _, by omega, fun k h1 h2 => by omega, fun _ => hc⟩
    · simp only [if_neg hc]
      obtain ⟨a, b, c, e⟩ := ih (e0 + 1)
      refine ⟨by omega, by omega, ?_, fun h => e (by omega)⟩
      intro k h1 h2
      by_cases hk : k = e0
      · rw [hk]; exact hc
      · exact c k (by omega) h2

/-- The constant `0.6` as a `float64`. -/
theorem roundToFloat64_six_tenths :
    roundToFloat64 6 10 = Float64.fin 5404319552844595 53 := by
  decide

/-- The comparison of the rounded quotient of two `uint32` counts with the
rounded constant `0.6` is the comparison of the exact values. -/
theorem roundToFloat64_ge_iff (f r : Nat) (hf : 0 < f) (hfr : f ≤ r) (hr : r < 2 ^ 32) :
    (roundToFloat64 f r).ge (Float64.fin 5404319552844595 53) = true ↔ 6 * r ≤ 10 * f := by
  have hr0 : r ≠ 0 := by omega
  have hf0 : f ≠ 0 := by omega
  have hrpos : 0 < r := by omega
  simp only [roundToFloat64, if_neg hr0, if_neg hf0, Float64.ge, decide_eq_true_eq]
  obtain ⟨_, hub, hmin, hcond⟩ := scaleFrom_spec f r 1074 0
  obtain ⟨hlo, hhi⟩ := roundHalfEven_bounds (f * 2 ^ scale f r) r
  have hscale : scale f r = scaleFrom f r 1074 0 := rfl
  rw [← hscale] at hub hmin hcond
  generalize hm : roundHalfEven (f * 2 ^ scale f r) r = m at hlo hhi
  generalize he : scale f r = e at *
  -- the scale is at least 52 and at most 84
  have h84 : e ≤ 84 := by
    by_contra hgt
    have := hmin 84 (Nat.zero_le _) (by omega)
    apply this
    have h1 : 2 ^ 52 * r ≤ 2 ^ 52 * 2 ^ 32 := Nat.mul_le_mul_left _ (by omega)
    have h2 : (2 : Nat) ^ 52 * 2 ^ 32 = 1 * 2 ^ 84 := by norm_num
    have h3 : 1 * 2 ^ 84 ≤ f * 2 ^ 84 := Nat.mul_le_mul_right _ hf
    omega
  have hc : 2 ^ 52 * r ≤ f * 2 ^ e := hcond (by omega)
  have h52 : 52 ≤ e := by
    by_contra hlt
    have hle : e ≤ 51 := by omega
    have h1 : (2 : Nat) ^ e ≤ 2 ^ 51 := Nat.pow_le_pow_right (by decide) hle
    have h2 : f * 2 ^ e ≤ r * 2 ^ 51 := Nat.mul_le_mul hfr h1
    have h3 : (2 : Nat) ^ 52 = 2 * 2 ^ 51 := by norm_num
    rw [h3] at hc
    have h4 : 0 < (2 : Nat) ^ 51 := by positivity
    nlinarith
  -- the quotient is below `2 ^ 53` when the scale is above 52
  have hq : 53 ≤ e → f * 2 ^ e / r < 2 ^ 53 := by
    intro h53
    have hprev := hmin (e - 1) (Nat.zero_le _) (by omega)
    have hpow : (2 : Nat) ^ e = 2 ^ (e - 1) * 2 := by
      rw [← Nat.pow_succ]
      congr 1
      omega
    rw [Nat.div_lt_iff_lt_mul hrpos, hpow]
    have : f * 2 ^ (e - 1) < 2 ^ 52 * r := by omega
    have h3 : (2 : Nat) ^ 53 = 2 ^ 52 * 2 := by norm_num
    rw [h3]
    nlinarith
  constructor
  · -- the float test holds, so the exact one does
    intro hge
    by_contra hlt
    have hlt2 : 10 * f + 1 ≤ 6 * r := by omega
    have he53 : 53 ≤ e := by
      by_contra h
      have : e = 52 := by omega
      subst this
      have h1 : (2 : Nat) ^ 52 = 4503599627370496 := by norm_num
      rw [h1] at hc
      omega
    by_cases h53 : e = 53
    · subst h53
      have hqr : f * 2 ^ 53 / r * r ≤ f * 2 ^ 53 := Nat.div_mul_le_self _ _
      generalize hqd : f * 2 ^ 53 / r = q at *
      have h1 : (2 : Nat) ^ 53 = 9007199254740992 := by norm_num
      have h2 : (2 : Nat) ^ 32 = 4294967296 := by norm_num
      rw [h1] at hqr hge
      rw [h2] at hr
      have hmq : m ≤ q + 1 := hhi
      have hmC : 5404319552844595 ≤ m := by omega
      have hqC : 5404319552844594 ≤ q := by omega
      have h3 : 5404319552844594 * r ≤ q * r := Nat.mul_le_mul_right _ hqC
      nlinarith
    · have h54 : 54 ≤ e := by omega
      have hqlt := hq he53
      have hm53 : m ≤ 2 ^ 53 := by omega
      have hp : (2 : Nat) ^ 54 ≤ 2 ^ e := Nat.pow_le_pow_right (by decide) h54
      have h1 : m * 2 ^ 53 ≤ 2 ^ 53 * 2 ^ 53 := Nat.mul_le_mul_right _ hm53
      have h2 : 5404319552844595 * 2 ^ 54 ≤ 5404319552844595 * 2 ^ e :=
        Nat.mul_le_mul_left _ hp
      have h3 : (2 : Nat) ^ 53 * 2 ^ 53 < 5404319552844595 * 2 ^ 54 := by norm_num
      omega
  · -- the exact test holds, so the float one does
    intro hge
    have he53 : e ≤ 53 := by
      by_contra hgt
      have := hmin 53 (Nat.zero_le _) (by omega)
      apply this
      have h1 : (2 : Nat) ^ 53 = 2 * 2 ^ 52 := by norm_num
      rw [h1]
      have h4 : 0 < (2 : Nat) ^ 52 := by positivity
      nlinarith
    by_cases h53 : e = 53
    · subst h53
      have hCq : 5404319552844595 ≤ f * 2 ^ 53 / r := by
        rw [Nat.le_div_iff_mul_le hrpos]
        have h1 : (2 : Nat) ^ 53 = 9007199254740992 := by norm_num
        rw [h1]
        omega
      exact Nat.mul_le_mul_right _ (by omega)
    · have h52e : e = 52 := by omega
      subst h52e
      have hq52 : 2 ^ 52 ≤ f * 2 ^ 52 / r := by
        rw [Nat.le_div_iff_mul_le hrpos]
        exact hc
      have hm52 : 2 ^ 52 ≤ m := by omega
      have h1 : 2 ^ 52 * 2 ^ 53 ≤ m * 2 ^ 53 := Nat.mul_le_mul_right _ hm52
      have h2 : 5404319552844595 * 2 ^ 52 ≤ 2 ^ 52 * 2 ^ 53 := by norm_num
      omega

theorem ReadyToTripFloat64_default_iff (counts : Counts)
    (hle : counts.TotalFailures ≤ counts.Requests) (hr : counts.Requests < 2 ^ 32) :
    ReadyToTripFloat64 defaultBkcfg counts = true ↔
      5 ≤ counts.Requests ∧ 6 * counts.Requests ≤ 10 * counts.TotalFailures := by
  have h5 : u32 defaultBkcfg.tripRequestCount = 5 := by decide
  have hnum : defaultBkcfg.tripFailureRatio.num = 6 := rfl
  have hden : defaultBkcfg.tripFailureRatio.den = 10 := rfl
  simp only [ReadyToTripFloat64, h5, hnum, hden, roundToFloat64_six_tenths, Bool.and_eq_true,
    decide_eq_true_eq, ge_iff_le]
  by_cases hf : counts.TotalFailures = 0
  · have hfalse : (roundToFloat64 counts.TotalFailures counts.Requests).ge
        (Float64.fin 5404319552844595 53) = false := by
      rw [hf]
      by_cases hr0 : counts.Requests = 0
      · rw [hr0]; decide
      · simp [roundToFloat64, hr0, Float64.ge]
    rw [hfalse, hf]
    constructor
    · intro h; exact absurd h.2 (by simp)
    · intro h; omega
  · rw [roundToFloat64_ge_iff _ _ (by omega) hle hr]

/-- C20: the trip predicate `newHostBreaker` builds from the configuration of
`New`, evaluated in `float64` arithmetic as the source writes it, returns a
value for every pair of `uint32` counts with `TotalFailures ≤ Requests`, and it
returns true exactly when `Requests ≥ 5` and `10 * TotalFailures ≥ 6 *
Requests`: rounding the quotient and the constant `0.6` does not change the
outcome of the comparison, so the predicate in exact arithmetic is the same
function. For `Requests = 0` the quotient is NaN and the predicate is false;
for fewer than five requests it is false whatever the failure count. -/
theorem ReadyToTrip_total_exact (host : String) (now : Nat) (counts : Counts)
    (hle : counts.TotalFailures ≤ counts.Requests) (hr : counts.Requests < 2 ^ 32) :
    (ReadyToTripFloat64 (newHostBreaker host defaultBkcfg now).tripCfg counts = true ↔
      counts.Requests ≥ 5 ∧ 10 * counts.TotalFailures ≥ 6 * counts.Requests) ∧
    ReadyToTrip (newHostBreaker host defaultBkcfg now).tripCfg counts
      = ReadyToTripFloat64 (newHostBreaker host defaultBkcfg now).tripCfg counts ∧
    (counts.Requests = 0 →
      roundToFloat64 counts.TotalFailures counts.Requests = Float64.NaN ∧
      ReadyToTripFloat64 (newHostBreaker host defaultBkcfg now).tripCfg counts = false) ∧
    (counts.Requests < 5 →
      ReadyToTripFloat64 (newHostBreaker host defaultBkcfg now).tripCfg counts = false) := by
  have hcfg : (newHostBreaker host defaultBkcfg now).tripCfg = defaultBkcfg := rfl
  rw [hcfg]
  have hiff := ReadyToTripFloat64_default_iff counts hle hr
  have hfew : counts.Requests < 5 → ReadyToTripFloat64 defaultBkcfg counts = false := by
    intro h
    cases hb : ReadyToTripFloat64 defaultBkcfg counts with
    | false => rfl
    | true => have := (hiff.mp hb).1; omega
  refine ⟨?_, ?_, ?_, hfew⟩
  · exact hiff
  · rw [Bool.eq_iff_iff, hiff]
    exact ReadyToTrip_default_iff counts
  · intro h0
    have hf0 : counts.TotalFailures = 0 := by omega
    refine ⟨?_, hfew (by omega)⟩
    rw [h0, hf0]
    rfl

theorem ReadyToTrip_total_exact_witness :
    (5 : Nat) < 2 ^ 32 ∧
    ReadyToTrip (newHostBreaker "example.com" defaultBkcfg 0).tripCfg ⟨5, 2, 3, 0, 3⟩
      = ReadyToTripFloat64 (newHostBreaker "example.com" defaultBkcfg 0).tripCfg
          ⟨5, 2, 3, 0, 3⟩ :=
  ⟨by decide,
    (ReadyToTrip_total_exact "example.com" 0 ⟨5, 2, 3, 0, 3⟩ (by decide) (by decide)).2.1⟩

/-! ## C21 -/

theorem getHost_of_parse (env : Env) (u : String) (p : URL) (hp : env.urlParse u = .ok p) :
    getHost env u = (p.Host, none) := by
  simp [getHost, hp]

/-- C21 (amended): the key under which `GetOGTags` keeps breaker state is the
host of the target as `url.Parse` gives it, and nothing else of the target:
after a call for `u1` the cache holds under the host of `u1` the breaker that
call ran on. A following call for `u2` runs on that same breaker when `u2` has
the same host, whatever the schemes and paths of the two targets are; when the
hosts differ it runs on the breaker of its own host and leaves the breaker of
the host of `u1` as it is (provided its host is cached or the cache has room,
so that nothing is evicted). -/
theorem breaker_keyed_by_host (env : Env) (c : Client) (u1 u2 : String) (k1 k2 : Clock)
    (p1 p2 : URL) (hp1 : env.urlParse u1 = .ok p1) (hp2 : env.urlParse u2 = .ok p2)
    (hn1 : p1.Host ≠ "") (hn2 : p2.Host ≠ "") (hsize : 1 ≤ c.breakersCache.size) :
    (GetOGTags env c u1 k1).2.breakersCache.Peek p1.Host
      = some ((c.breakerFor p1.Host k1.created).Execute k1.before k1.after
          (fetchOGTags env u1) c.client).2.1 ∧
    (p1.Host = p2.Host →
      (GetOGTags env (GetOGTags env c u1 k1).2 u2 k2).1
        = (((c.breakerFor p1.Host k1.created).Execute k1.before k1.after
            (fetchOGTags env u1) c.client).2.1.Execute k2.before k2.after
            (fetchOGTags env u2) (GetOGTags env c u1 k1).2.client).1 ∧
      (GetOGTags env (GetOGTags env c u1 k1).2 u2 k2).2.breakersCache.Peek p1.Host
        = some (((c.breakerFor p1.Host k1.created).Execute k1.before k1.after
            (fetchOGTags env u1) c.client).2.1.Execute k2.before k2.after
            (fetchOGTags env u2) (GetOGTags env c u1 k1).2.client).2.1) ∧
    (p1.Host ≠ p2.Host →
      ((GetOGTags env c u1 k1).2.breakersCache.Contains p2.Host = true ∨
        (GetOGTags env c u1 k1).2.breakersCache.Len
          < (GetOGTags env c u1 k1).2.breakersCache.size) →
      (GetOGTags env (GetOGTags env c u1 k1).2 u2 k2).2.breakersCache.Peek p1.Host
        = (GetOGTags env c u1 k1).2.breakersCache.Peek p1.Host ∧
      (GetOGTags env (GetOGTags env c u1 k1).2 u2 k2).2.breakersCache.Peek p2.Host
        = some (((GetOGTags env c u1 k1).2.breakerFor p2.Host k2.created).Execute k2.before
            k2.after (fetchOGTags env u2) (GetOGTags env c u1 k1).2.client).2.1) := by
  have hh1 := getHost_of_parse env u1 p1 hp1
  have hh2 := getHost_of_parse env u2 p2 hp2
  obtain ⟨_, _, ⟨l, f3⟩, _, f5, _⟩ := GetOGTags_valid_facts env c u1 k1 p1.Host hh1 hn1 hsize
  have hpeek := Cache.peek_front _ _ _ _ f3
  have hsize1 : 1 ≤ (GetOGTags env c u1 k1).2.breakersCache.size := by rw [f5]; exact hsize
  obtain ⟨g1, _, ⟨l2, g3⟩, _, _, _⟩ :=
    GetOGTags_valid_facts env (GetOGTags env c u1 k1).2 u2 k2 p2.Host hh2 hn2 hsize1
  have gpeek := Cache.peek_front _ _ _ _ g3
  refine ⟨hpeek, ?_, ?_⟩
  · intro heq
    have hbf : (GetOGTags env c u1 k1).2.breakerFor p2.Host k2.created
        = ((c.breakerFor p1.Host k1.created).Execute k1.before k1.after
            (fetchOGTags env u1) c.client).2.1 := by
      unfold Client.breakerFor
      rw [← heq, hpeek]
      rfl
    rw [hbf] at g1 gpeek
    rw [← heq] at gpeek
    exact ⟨g1, gpeek⟩
  · intro hne hroom
    exact ⟨GetOGTags_peek_other env _ u2 k2 p1.Host p2.Host hh2 hn2 hne hroom, gpeek⟩

theorem breaker_keyed_by_host_witness :
    (GetOGTags exEnv (GetOGTags exEnv (New exFailing) "http://example.com/x" (at_ 0)).2
      "https://example.com/y" (at_ 0)).2.breakersCache.Peek "example.com"
      = some ((((New exFailing).breakerFor "example.com" 0).Execute 0 0
          (fetchOGTags exEnv "http://example.com/x") exFailing).2.1.Execute 0 0
          (fetchOGTags exEnv "https://example.com/y")
          (GetOGTags exEnv (New exFailing) "http://example.com/x" (at_ 0)).2.client).2.1 :=
  ((breaker_keyed_by_host exEnv (New exFailing) "http://example.com/x"
    "https://example.com/y" (at_ 0) (at_ 0) _ _ rfl rfl (by decide) (by decide)
    (by decide)).2.1 rfl).2

/-- C21, the claim as it stands fails: two targets with the same host and
different schemes are counted by one breaker. Five failing calls for
`http://example.com/x` open the breaker kept under `example.com`; the call for
`https://example.com/x` that follows is rejected by that breaker, without a call
of the HTTP client, and the cache holds this one key. -/
theorem schemes_share_one_breaker :
    (exParseChars "http://example.com/x".toList).Scheme = "http" ∧
    (exParseChars "https://example.com/x".toList).Scheme = "https" ∧
    (GetOGTags exEnv
      (runCalls exEnv (New exFailing) (List.replicate 5 ("http://example.com/x", at_ 0))).2
      "https://example.com/x" (at_ Second)).1 = (none, some Error.ErrOpenState) ∧
    (GetOGTags exEnv
      (runCalls exEnv (New exFailing) (List.replicate 5 ("http://example.com/x", at_ 0))).2
      "https://example.com/x" (at_ Second)).2.client.calls
      = List.replicate 5 "http://example.com/x" ∧
    (GetOGTags exEnv
      (runCalls exEnv (New exFailing) (List.replicate 5 ("http://example.com/x", at_ 0))).2
      "https://example.com/x" (at_ Second)).2.breakersCache.Keys = ["example.com"] := by
  decide

/-! ## C22 -/

/-- A half-open breaker that has admitted `maxRequests` calls rejects the
request: the request is not run and the breaker is unchanged. -/
theorem Execute_half_open_full {σ T : Type} (cb : CircuitBreaker) (tB tA : Nat)
    (req : σ → (Option T × Option Error) × σ) (w : σ)
    (hs : cb.state = State.StateHalfOpen) (hfull : cb.maxRequests ≤ cb.counts.Requests) :
    cb.Execute tB tA req w = ((none, some Error.ErrTooManyRequests), cb, w) := by
  obtain ⟨name, mr, iv, tmo, cfg, st, gen, cnt, ex⟩ := cb
  simp only at hs hfull
  subst hs
  simp [CircuitBreaker.Execute, CircuitBreaker.beforeRequest, CircuitBreaker.currentState, hfull]

/-- A half-open breaker with room for a trial call runs the request; a failure
opens the breaker, with cleared counts and the timeout counted from the end of
the call. -/
theorem Execute_half_open_failure {σ T : Type} (cb : CircuitBreaker) (tB tA : Nat)
    (req : σ → (Option T × Option Error) × σ) (w : σ)
    (hs : cb.state = State.StateHalfOpen) (hroom : cb.counts.Requests < cb.maxRequests)
    (hfail : (req w).1.2.isSome = true) :
    cb.Execute tB tA req w
      = ((req w).1,
         { cb with state := State.StateOpen, generation := u64 (cb.generation + 1),
                   counts := Counts.clear, expiry := some (tA + cb.timeout) },
         (req w).2) := by
  obtain ⟨name, mr, iv, tmo, cfg, st, gen, cnt, ex⟩ := cb
  simp only at hs hroom
  subst hs
  have h1 : ¬ mr ≤ cnt.Requests := by omega
  have h2 : (req w).1.2.isNone = false := by
    cases h : (req w).1.2 with
    | none => rw [h] at hfail; simp at hfail
    | some e => rfl
  simp [CircuitBreaker.Execute, CircuitBreaker.beforeRequest, CircuitBreaker.currentState, h1,
    CircuitBreaker.afterRequest, h2, CircuitBreaker.onFailure, CircuitBreaker.setState,
    CircuitBreaker.toNewGeneration]

/-- A half-open breaker with room for a trial call runs the request; a success
is counted, and the breaker closes with cleared counts once `maxRequests`
successes in a row are counted. -/
theorem Execute_half_open_success {σ T : Type} (cb : CircuitBreaker) (tB tA : Nat)
    (req : σ → (Option T × Option Error) × σ) (w : σ)
    (hs : cb.state = State.StateHalfOpen) (hroom : cb.counts.Requests < cb.maxRequests)
    (hok : (req w).1.2 = none) :
    cb.Execute tB tA req w
      = ((req w).1,
         (if cb.maxRequests ≤ u32 (cb.counts.ConsecutiveSuccesses + 1) then
            { cb with state := State.StateClosed, generation := u64 (cb.generation + 1),
                      counts := Counts.clear,
                      expiry := if cb.interval = 0 then none else some (tA + cb.interval) }
          else { cb with counts := cb.counts.onRequest.onSuccess }),
         (req w).2) := by
  obtain ⟨name, mr, iv, tmo, cfg, st, gen, cnt, ex⟩ := cb
  simp only at hs hroom
  subst hs
  have h1 : ¬ mr ≤ cnt.Requests := by omega
  by_cases hc : mr ≤ u32 (cnt.ConsecutiveSuccesses + 1)
  · simp [CircuitBreaker.Execute, CircuitBreaker.beforeRequest, CircuitBreaker.currentState, h1,
      CircuitBreaker.afterRequest, hok, CircuitBreaker.onSuccess, CircuitBreaker.setState,
      CircuitBreaker.toNewGeneration, Counts.onRequest, Counts.onSuccess, hc]
  · simp [CircuitBreaker.Execute, CircuitBreaker.beforeRequest, CircuitBreaker.currentState, h1,
      CircuitBreaker.afterRequest, hok, CircuitBreaker.onSuccess, CircuitBreaker.setState,
      CircuitBreaker.toNewGeneration, Counts.onRequest, Counts.onSuccess, hc]

theorem Execute_half_open_runs {σ T : Type} (cb : CircuitBreaker) (tB tA : Nat)
    (req : σ → (Option T × Option Error) × σ) (w : σ)
    (hs : cb.state = State.StateHalfOpen) (hroom : cb.counts.Requests < cb.maxRequests) :
    (cb.Execute tB tA req w).1 = (req w).1 ∧ (cb.Execute tB tA req w).2.2 = (req w).2 := by
  cases h : (req w).1.2 with
  | none =>
    rw [Execute_half_open_success cb tB tA req w hs hroom h]
    exact ⟨rfl, rfl⟩
  | some e =>
    rw [Execute_half_open_failure cb tB tA req w hs hroom (by rw [h]; rfl)]
    exact ⟨rfl, rfl⟩

/-- An HTTP client that answers every call with a page the parser accepts:
every fetch succeeds, and the client stays such a client. -/
theorem fetchOGTags_serving (env : Env) (url : String) (h : HTTPClient)
    (hserve : ∀ k u, ∃ res doc, h.GetFunc k u = .ok res ∧ env.htmlParse res.Body = .ok doc) :
    (fetchOGTags env url h).1.2 = none ∧
    (∀ k u, ∃ res doc, (fetchOGTags env url h).2.GetFunc k u = .ok res ∧
      env.htmlParse res.Body = .ok doc) := by
  obtain ⟨res, doc, h1, h2⟩ := hserve h.calls.length url
  rw [fetchOGTags_ok env h url res doc h1 h2]
  exact ⟨rfl, hserve⟩

/-- One call for a host whose cached breaker is half-open with room for a trial
call, when the fetch succeeds. -/
theorem GetOGTags_half_open_success (env : Env) (c : Client) (url : String) (clk : Clock)
    (host : String) (cb : CircuitBreaker)
    (hh : getHost env url = (host, none)) (hne : host ≠ "") (hsize : 1 ≤ c.breakersCache.size)
    (hp : c.breakersCache.Peek host = some cb) (hs : cb.state = State.StateHalfOpen)
    (hroom : cb.counts.Requests < cb.maxRequests)
    (hok : (fetchOGTags env url c.client).1.2 = none) :
    (GetOGTags env c url clk).1 = (fetchOGTags env url c.client).1 ∧
    (GetOGTags env c url clk).2.client = (fetchOGTags env url c.client).2 ∧
    (GetOGTags env c url clk).2.breakersCache.Peek host
      = some (if cb.maxRequests ≤ u32 (cb.counts.ConsecutiveSuccesses + 1) then
            { cb with state := State.StateClosed, generation := u64 (cb.generation + 1),
                      counts := Counts.clear,
                      expiry := if cb.interval = 0 then none else some (clk.after + cb.interval) }
          else { cb with counts := cb.counts.onRequest.onSuccess }) ∧
    (GetOGTags env c url clk).2.breakersCache.size = c.breakersCache.size := by
  obtain ⟨f1, f2, ⟨l, f3⟩, _, f5, _⟩ := GetOGTags_valid_facts env c url clk host hh hne hsize
  have hbf : c.breakerFor host clk.created = cb := by simp [Client.breakerFor, hp]
  have f3p := Cache.peek_front _ _ _ _ f3
  rw [hbf, Execute_half_open_success cb clk.before clk.after _ _ hs hroom hok] at f1 f2 f3p
  exact ⟨f1, f2, f3p, f5⟩

/-- C22: let the breaker cached for a host be half-open, with `maxRequests` 3
as `newHostBreaker` sets it. A call for the host is rejected with
`ErrTooManyRequests`, without a call of the HTTP client, once three calls have
been admitted in the half-open state. With fewer admitted the call is run as a
trial: when it fails the breaker is open again at once, with cleared counts and
its timeout counted from the end of that call; when it succeeds the success is
counted, and with the third success in a row the breaker is closed with all
counts zero. So from a breaker that has just become half-open, three
successful calls in succession leave the breaker closed with request and
failure counts zero. -/
theorem half_open_trials (env : Env) (c : Client) (url : String) (clk : Clock) (host : String)
    (cb : CircuitBreaker)
    (hh : getHost env url = (host, none)) (hne : host ≠ "") (hsize : 1 ≤ c.breakersCache.size)
    (hp : c.breakersCache.Peek host = some cb) (hs : cb.state = State.StateHalfOpen)
    (hmax : cb.maxRequests = 3) :
    (3 ≤ cb.counts.Requests →
      (GetOGTags env c url clk).1 = (none, some Error.ErrTooManyRequests) ∧
      (GetOGTags env c url clk).2.client = c.client ∧
      (GetOGTags env c url clk).2.breakersCache.Peek host = some cb) ∧
    (cb.counts.Requests < 3 →
      (GetOGTags env c url clk).1 = (fetchOGTags env url c.client).1 ∧
      (GetOGTags env c url clk).2.client.calls = c.client.calls ++ [url] ∧
      ((fetchOGTags env url c.client).1.2.isSome = true →
        (GetOGTags env c url clk).2.breakersCache.Peek host
          = some { cb with state := State.StateOpen, generation := u64 (cb.generation + 1),
                           counts := Counts.clear,
                           expiry := some (clk.after + cb.timeout) }) ∧
      ((fetchOGTags env url c.client).1.2 = none →
        (GetOGTags env c url clk).2.breakersCache.Peek host
          = some (if 3 ≤ u32 (cb.counts.ConsecutiveSuccesses + 1) then
              { cb with state := State.StateClosed, generation := u64 (cb.generation + 1),
                        counts := Counts.clear,
                        expiry :=
                          if cb.interval = 0 then none else some (clk.after + cb.interval) }
            else { cb with counts := cb.counts.onRequest.onSuccess }))) ∧
    (cb.counts = Counts.clear →
      (∀ k u, ∃ res doc, c.client.GetFunc k u = .ok res ∧ env.htmlParse res.Body = .ok doc) →
      ∀ (u2 u3 : String) (k2 k3 : Clock),
        getHost env u2 = (host, none) → getHost env u3 = (host, none) →
        ((runCalls env c [(url, clk), (u2, k2), (u3, k3)]).2.breakersCache.Peek host).map
            CircuitBreaker.summary = some (State.StateClosed, 0, 0) ∧
        (runCalls env c [(url, clk), (u2, k2), (u3, k3)]).2.client.calls
          = c.client.calls ++ [url, u2, u3]) := by
  obtain ⟨f1, f2, ⟨l, f3⟩, _, f5, _⟩ := GetOGTags_valid_facts env c url clk host hh hne hsize
  have hbf : c.breakerFor host clk.created = cb := by simp [Client.breakerFor, hp]
  have f3p := Cache.peek_front _ _ _ _ f3
  rw [hbf] at f1 f2 f3p
  refine ⟨?_, ?_, ?_⟩
  · intro hfull
    rw [Execute_half_open_full cb clk.before clk.after _ _ hs (by omega)] at f1 f2 f3p
    exact ⟨f1, f2, f3p⟩
  · intro hroom
    have hroom2 : cb.counts.Requests < cb.maxRequests := by omega
    refine ⟨?_, ?_, ?_, ?_⟩
    · rw [f1]
      exact (Execute_half_open_runs cb clk.before clk.after _ _ hs hroom2).1
    · rw [f2, (Execute_half_open_runs cb clk.before clk.after _ _ hs hroom2).2,
        fetchOGTags_client]
    · intro hfail
      rw [Execute_half_open_failure cb clk.before clk.after _ _ hs hroom2 hfail] at f3p
      exact f3p
    · intro hok
      rw [Execute_half_open_success cb clk.before clk.after _ _ hs hroom2 hok] at f3p
      rw [f3p, hmax]
  · intro hclear hserve u2 u3 k2 k3 hh2 hh3
    obtain ⟨name, mr, iv, tmo, cfg, st, gen, cnt, ex⟩ := cb
    simp only at hs hmax hclear
    subst hs hmax hclear
    -- first trial
    obtain ⟨ok1, serve1⟩ := fetchOGTags_serving env url c.client hserve
    obtain ⟨_, a2, a3, a4⟩ := GetOGTags_half_open_success env c url clk host _ hh hne hsize hp
      rfl (by show (0 : Nat) < 3; omega) ok1
    have a3s : (GetOGTags env c url clk).2.breakersCache.Peek host
        = some { name := name, maxRequests := 3, interval := iv, timeout := tmo, tripCfg := cfg,
                 state := State.StateHalfOpen, generation := gen,
                 counts := ⟨1, 1, 0, 1, 0⟩, expiry := ex } := by
      rw [a3]; rfl
    -- second trial
    rw [← a2] at serve1
    obtain ⟨ok2, serve2⟩ := fetchOGTags_serving env u2 _ serve1
    obtain ⟨_, b2, b3, b4⟩ := GetOGTags_half_open_success env (GetOGTags env c url clk).2 u2 k2
      host _ hh2 hne (by rw [a4]; exact hsize) a3s rfl (by show (1 : Nat) < 3; omega) ok2
    have b3s : (GetOGTags env (GetOGTags env c url clk).2 u2 k2).2.breakersCache.Peek host
        = some { name := name, maxRequests := 3, interval := iv, timeout := tmo, tripCfg := cfg,
                 state := State.StateHalfOpen, generation := gen,
                 counts := ⟨2, 2, 0, 2, 0⟩, expiry := ex } := by
      rw [b3]; rfl
    -- third trial
    rw [← b2] at serve2
    obtain ⟨ok3, _⟩ := fetchOGTags_serving env u3 _ serve2
    obtain ⟨_, c2, c3, _⟩ := GetOGTags_half_open_success env
      (GetOGTags env (GetOGTags env c url clk).2 u2 k2).2 u3 k3
      host _ hh3 hne (by rw [b4, a4]; exact hsize) b3s rfl (by show (2 : Nat) < 3; omega) ok3
    have hrun : (runCalls env c [(url, clk), (u2, k2), (u3, k3)]).2
        = (GetOGTags env (GetOGTags env (GetOGTags env c url clk).2 u2 k2).2 u3 k3).2 := by
      simp [runCalls]
    rw [hrun, c3, c2, fetchOGTags_client, b2, fetchOGTags_client, a2, fetchOGTags_client]
    refine ⟨?_, by simp⟩
    rfl

theorem half_open_trials_witness :
    ((runCalls exEnv exTrialClient
        [("https://example.com", at_ (31 * Second)), ("https://example.com/a", at_ (32 * Second)),
         ("https://example.com/b", at_ (33 * Second))]).2.breakersCache.Peek "example.com").map
      CircuitBreaker.summary = some (State.StateClosed, 0, 0) :=
  ((half_open_trials exEnv exTrialClient "https://example.com" (at_ (31 * Second))
    "example.com" exHalfOpen rfl (by decide) (by decide) (by decide) (by decide)
    (by decide)).2.2 (by decide) (fun _ _ => ⟨_, _, rfl, rfl⟩)
    "https://example.com/a" "https://example.com/b" (at_ (32 * Second)) (at_ (33 * Second))
    rfl rfl).1

/-! ## The counting window of a closed breaker -/

/-- A closed breaker whose counting window has expired when the request
arrives starts a new window at that instant: the counts are cleared before the
request is counted, and the outcome is recorded in the new window. -/
theorem Execute_closed_after_window {σ T : Type} (cb : CircuitBreaker) (e tB tA : Nat)
    (req : σ → (Option T × Option Error) × σ) (w : σ)
    (hs : cb.state = State.StateClosed) (he : cb.expiry = some e) (hiv : cb.interval ≠ 0)
    (hb : e < tB) (ha : tA ≤ tB + cb.interval) :
    cb.Execute tB tA req w =
      ((req w).1,
        (if (req w).1.2.isNone then
          ({ cb with generation := u64 (cb.generation + 1),
                     counts := Counts.clear.onRequest,
                     expiry := some (tB + cb.interval) } : CircuitBreaker).onSuccess
            State.StateClosed tA
        else
          ({ cb with generation := u64 (cb.generation + 1),
                     counts := Counts.clear.onRequest,
                     expiry := some (tB + cb.interval) } : CircuitBreaker).onFailure
            State.StateClosed tA),
        (req w).2) := by
  obtain ⟨name, mr, iv, tmo, cfg, st, gen, cnt, ex⟩ := cb
  simp only at hs he hiv ha
  subst hs he
  have hx : ¬ tB + iv < tA := by omega
  simp [CircuitBreaker.Execute, CircuitBreaker.beforeRequest, CircuitBreaker.currentState,
    expiryBefore, hb, CircuitBreaker.toNewGeneration, hiv, CircuitBreaker.afterRequest, hx]

/-- What a call does to the counts of a closed breaker: the counts are kept
for one counting window of 10 s, which starts when the breaker is created (or
last started a window) and whose end `e` does not move when requests arrive. A
call for the
host that begins and ends by `e` is counted on top of the counts the breaker
holds, and leaves `e` as it is. The first call that begins after `e` clears
the counts before it is counted, however recently the call before it arrived:
after it the breaker holds one request, and one failure when the fetch failed,
in a window that ends 10 s after the call began. -/
theorem closed_counts_window (env : Env) (c : Client) (url : String) (clk : Clock)
    (host : String) (cb : CircuitBreaker) (e : Nat)
    (hh : getHost env url = (host, none)) (hne : host ≠ "") (hsize : 1 ≤ c.breakersCache.size)
    (hp : c.breakersCache.Peek host = some cb) (hs : cb.state = State.StateClosed)
    (he : cb.expiry = some e) (hiv : cb.interval = 10 * Second)
    (hcfg : cb.tripCfg = defaultBkcfg) :
    (clk.before ≤ e → clk.after ≤ e →
      ((fetchOGTags env url c.client).1.2 = none →
        (GetOGTags env c url clk).2.breakersCache.Peek host
          = some { cb with counts := cb.counts.onRequest.onSuccess }) ∧
      ((fetchOGTags env url c.client).1.2.isSome = true →
        (GetOGTags env c url clk).2.breakersCache.Peek host
          = some (if ReadyToTrip defaultBkcfg cb.counts.onRequest.onFailure then
              { cb with state := State.StateOpen, generation := u64 (cb.generation + 1),
                        counts := Counts.clear, expiry := some (clk.after + cb.timeout) }
            else { cb with counts := cb.counts.onRequest.onFailure }))) ∧
    (e < clk.before → clk.after ≤ clk.before + 10 * Second →
      ((fetchOGTags env url c.client).1.2 = none →
        (GetOGTags env c url clk).2.breakersCache.Peek host
          = some { cb with generation := u64 (cb.generation + 1),
                           counts := ⟨1, 1, 0, 1, 0⟩,
                           expiry := some (clk.before + 10 * Second) }) ∧
      ((fetchOGTags env url c.client).1.2.isSome = true →
        (GetOGTags env c url clk).2.breakersCache.Peek host
          = some { cb with generation := u64 (cb.generation + 1),
                           counts := ⟨1, 0, 1, 0, 1⟩,
                           expiry := some (clk.before + 10 * Second) })) := by
  obtain ⟨_, _, ⟨l, f3⟩, _, _, _⟩ := GetOGTags_valid_facts env c url clk host hh hne hsize
  have hbf : c.breakerFor host clk.created = cb := by simp [Client.breakerFor, hp]
  have f3p := Cache.peek_front _ _ _ _ f3
  rw [hbf] at f3p
  obtain ⟨name, mr, iv, tmo, cfg, st, gen, cnt, ex⟩ := cb
  simp only at hs he hiv hcfg
  subst hs he hiv hcfg
  refine ⟨?_, ?_⟩
  · intro hb ha
    rw [Execute_closed_in_window _ e clk.before clk.after _ _ rfl rfl hb ha] at f3p
    refine ⟨?_, ?_⟩
    · intro hok
      rw [f3p]
      simp [hok, CircuitBreaker.onSuccess]
    · intro hfail
      have hnone : (fetchOGTags env url c.client).1.2.isNone = false := by
        cases h : (fetchOGTags env url c.client).1.2 with
        | none => rw [h] at hfail; simp at hfail
        | some x => rfl
      rw [f3p]
      simp only [hnone, Bool.false_eq_true, if_false, CircuitBreaker.onFailure]
      by_cases hr : ReadyToTrip defaultBkcfg cnt.onRequest.onFailure = true
      · simp [hr, CircuitBreaker.setState, CircuitBreaker.toNewGeneration]
      · simp [hr]
  · intro hb ha
    have hiv0 : (10 * Second) ≠ 0 := by decide
    rw [Execute_closed_after_window _ e clk.before clk.after _ _ rfl rfl hiv0 hb ha] at f3p
    refine ⟨?_, ?_⟩
    · intro hok
      rw [f3p]
      simp [hok, CircuitBreaker.onSuccess]
      decide
    · intro hfail
      have hnone : (fetchOGTags env url c.client).1.2.isNone = false := by
        cases h : (fetchOGTags env url c.client).1.2 with
        | none => rw [h] at hfail; simp at hfail
        | some x => rfl
      have hr : ReadyToTrip defaultBkcfg Counts.clear.onRequest.onFailure = false := by decide
      rw [f3p]
      simp [hnone, CircuitBreaker.onFailure, hr]
      decide

theorem closed_counts_window_witness :
    ((GetOGTags exEnv exFourClient "https://example.com"
        (at_ (12 * Second))).2.breakersCache.Peek "example.com").map CircuitBreaker.summary
      = some (State.StateClosed, 1, 1) :=
  (congrArg (Option.map CircuitBreaker.summary)
    (((closed_counts_window exEnv exFourClient "https://example.com" (at_ (12 * Second))
      "example.com" exFourFailures (10 * Second) rfl (by decide) (by decide) (by decide)
      (by decide) (by decide) (by decide) (by decide)).2 (by decide) (by decide)).2
      (by decide))).trans (by decide)

/-! ## C23 -/

/-- C23, the code does not do what the claim and the comment in `New` say
("how long to wait with no requests before resetting failure stats"): the
counts are reset although requests keep arriving. Five failing calls for
`example.com` arrive 3 s apart, at 0, 3, 6, 9 and 12 s, so the host is never
10 s without a request. After the fourth call the breaker holds four requests
and four failures; the window that began at 0 s ends at 10 s, so the fifth call
clears them, and the breaker is closed with one request and one failure, where
five failures that add up open it. The sixth call, at 13 s, is not rejected: it
reaches the HTTP client. -/
theorem continuous_failures_reset :
    ((runCalls exEnv (New exFailing)
        [("https://example.com", at_ 0), ("https://example.com", at_ (3 * Second)),
         ("https://example.com", at_ (6 * Second)), ("https://example.com", at_ (9 * Second))]
      ).2.breakersCache.Peek "example.com").map CircuitBreaker.summary
      = some (State.StateClosed, 4, 4) ∧
    ((runCalls exEnv (New exFailing)
        [("https://example.com", at_ 0), ("https://example.com", at_ (3 * Second)),
         ("https://example.com", at_ (6 * Second)), ("https://example.com", at_ (9 * Second)),
         ("https://example.com", at_ (12 * Second))]
      ).2.breakersCache.Peek "example.com").map CircuitBreaker.summary
      = some (State.StateClosed, 1, 1) ∧
    (GetOGTags exEnv
      (runCalls exEnv (New exFailing)
        [("https://example.com", at_ 0), ("https://example.com", at_ (3 * Second)),
         ("https://example.com", at_ (6 * Second)), ("https://example.com", at_ (9 * Second)),
         ("https://example.com", at_ (12 * Second))]).2
      "https://example.com" (at_ (13 * Second))).1
      = fetchFailed (Error.ext "network error") ∧
    (GetOGTags exEnv
      (runCalls exEnv (New exFailing)
        [("https://example.com", at_ 0), ("https://example.com", at_ (3 * Second)),
         ("https://example.com", at_ (6 * Second)), ("https://example.com", at_ (9 * Second)),
         ("https://example.com", at_ (12 * Second))]).2
      "https://example.com" (at_ (13 * Second))).2.client.calls
      = List.replicate 6 "https://example.com" := by
  decide

/-! ## C24 -/

/-- A valid request that misses the cache and whose client call fails. -/
theorem ogTagHandler_miss_failed {σ τ : Type} (app : application σ τ) (r url : String)
    (cs : σ) (ts ts1 : τ) (res : Option OGTags) (e : Error)
    (hr : app.readJSON r = .ok url) (hv : app.validator url = Validation.ok)
    (hg : (app.cache.Get cs url).1.2 ≠ none)
    (hc : app.client.GetOGTags ts url = ((res, some e), ts1)) :
    ogTagHandler app NewRecorder r cs ts =
      { w := serverErrorResponse app NewRecorder e, cache := (app.cache.Get cs url).2,
        client := ts1,
        events := [Event.Inc "/og", Event.cacheGet url, Event.CacheMiss,
          Event.clientGetOGTags url, Event.CountResponse 500 "/og"] } := by
  rcases hget : app.cache.Get cs url with ⟨⟨s, e1⟩, cs1⟩
  rw [hget] at hg
  cases e1 with
  | none => exact absurd rfl hg
  | some e1 => simp [ogTagHandler, hr, hv, hget, hc]

/-- A call for a target that does not parse or has an empty host fails in
`getHost` and leaves the client as it is. -/
theorem GetOGTags_malformed (env : Env) (c : Client) (url : String) (clk : Clock)
    (hbad : (getHost env url).2.isSome = true ∨ (getHost env url).1 = "") :
    GetOGTags env c url clk
      = ((none, some (Errorf_w "GetOGTags:getHost" (getHost env url).2)), c) := by
  rcases hg : getHost env url with ⟨h1, err⟩
  rw [hg] at hbad
  simp only at hbad
  simp [GetOGTags, hg, hbad]

/-- C24 (amended): take the handler over the client of the sources, and a
request whose body decodes to a target that does not parse or has an empty
host. When the target fails the validation, the handler calls neither
`cache.Get`, `cache.Set` nor the client. When the target passes the validation
(as `file:///path` does), the handler calls `cache.Get` once before anything
else and never calls `cache.Set`: on a miss it calls the client once, which
fails in `getHost` and is left as it is (no breaker is looked up or created, the
HTTP client is not called), and the status is 500; on a hit it writes the
cached payload with status 200 and does not call the client. -/
theorem malformed_target_at_handler {σ : Type} (env : Env) (clk : Clock)
    (app : application σ Client) (r url : String) (cs : σ) (c : Client)
    (hclient : app.client = Client.asClient env clk)
    (hr : app.readJSON r = .ok url)
    (hbad : (getHost env url).2.isSome = true ∨ (getHost env url).1 = "") :
    (∀ msg, app.validator url = Validation.ValidationErrors msg →
      (ogTagHandler app NewRecorder r cs c).events
        = [Event.Inc "/og", Event.CountResponse 422 "/og"]) ∧
    (app.validator url = Validation.ok →
      (ogTagHandler app NewRecorder r cs c).events.countP Event.isCacheGet = 1 ∧
      (ogTagHandler app NewRecorder r cs c).events.countP Event.isCacheSet = 0 ∧
      ((app.cache.Get cs url).1.2 ≠ none →
        (ogTagHandler app NewRecorder r cs c).events
          = [Event.Inc "/og", Event.cacheGet url, Event.CacheMiss, Event.clientGetOGTags url,
             Event.CountResponse 500 "/og"] ∧
        (ogTagHandler app NewRecorder r cs c).w.status = some 500 ∧
        (ogTagHandler app NewRecorder r cs c).client = c) ∧
      (∀ payload cs1, app.cache.Get cs url = ((payload, none), cs1) →
        (ogTagHandler app NewRecorder r cs c).events
          = [Event.Inc "/og", Event.cacheGet url, Event.CacheHit] ∧
        (ogTagHandler app NewRecorder r cs c).w.status = some 200 ∧
        (ogTagHandler app NewRecorder r cs c).w.body = payload)) := by
  have hcall : app.client.GetOGTags c url
      = ((none, some (Errorf_w "GetOGTags:getHost" (getHost env url).2)), c) := by
    rw [hclient]
    exact GetOGTags_malformed env c url clk hbad
  refine ⟨?_, ?_⟩
  · intro msg hv
    simp [ogTagHandler, hr, hv]
  · intro hv
    have hmiss : (app.cache.Get cs url).1.2 ≠ none →
        ogTagHandler app NewRecorder r cs c =
          { w := serverErrorResponse app NewRecorder
              (Errorf_w "GetOGTags:getHost" (getHost env url).2),
            cache := (app.cache.Get cs url).2, client := c,
            events := [Event.Inc "/og", Event.cacheGet url, Event.CacheMiss,
              Event.clientGetOGTags url, Event.CountResponse 500 "/og"] } :=
      fun hg => ogTagHandler_miss_failed app r url cs c c none _ hr hv hg hcall
    have hhit : ∀ payload cs1, app.cache.Get cs url = ((payload, none), cs1) →
        ogTagHandler app NewRecorder r cs c =
          { w := { header := [("Content-Type", "application/json")], status := some 200,
                   body := payload },
            cache := cs1, client := c,
            events := [Event.Inc "/og", Event.cacheGet url, Event.CacheHit] } :=
      fun payload cs1 hg => ogTagHandler_hit app r url payload cs cs1 c hr hv hg
    refine ⟨?_, ?_, ?_, ?_⟩
    · rcases hget : app.cache.Get cs url with ⟨⟨s, e1⟩, cs1⟩
      cases e1 with
      | none => rw [hhit s cs1 hget]; simp [Event.isCacheGet]
      | some e1 => rw [hmiss (by rw [hget]; simp)]; simp [Event.isCacheGet]
    · rcases hget : app.cache.Get cs url with ⟨⟨s, e1⟩, cs1⟩
      cases e1 with
      | none => rw [hhit s cs1 hget]; simp [Event.isCacheSet]
      | some e1 => rw [hmiss (by rw [hget]; simp)]; simp [Event.isCacheSet]
    · intro hg
      rw [hmiss hg]
      refine ⟨rfl, ?_, rfl⟩
      rcases errorResponse_status app 500
        "the server encountered a problem and could not process your request" with h1 | h1
      · exact h1
      · exact h1
    · intro payload cs1 hg
      rw [hhit payload cs1 hg]
      exact ⟨rfl, rfl, rfl⟩

theorem malformed_target_at_handler_witness :
    (ogTagHandler (exFileApp 0 none) NewRecorder exFileRequest exEmptyCache
      (New exFailing)).events.countP Event.isCacheGet = 1 :=
  ((malformed_target_at_handler exFileEnv (at_ 0) (exFileApp 0 none) exFileRequest
    "file:///path" exEmptyCache (New exFailing) rfl rfl (Or.inr rfl)).2 rfl).1

/-- C24, the claim as it stands fails: a target that passes the validation and
has an empty host reaches the cache. The request carries `file:///path`; the
validator accepts it and `getHost` gives the empty host. On an empty cache the
handler calls `cache.Get`, then the client, and answers 500; on a cache that
holds a payload under the key of that target it answers 200 with the payload. -/
theorem empty_host_reaches_cache :
    exFileValidator "file:///path" = Validation.ok ∧
    getHost exFileEnv "file:///path" = ("", none) ∧
    (ogTagHandler (exFileApp 0 none) NewRecorder exFileRequest exEmptyCache
      (New exFailing)).events
      = [Event.Inc "/og", Event.cacheGet "file:///path", Event.CacheMiss,
         Event.clientGetOGTags "file:///path", Event.CountResponse 500 "/og"] ∧
    (ogTagHandler (exFileApp 0 none) NewRecorder exFileRequest exEmptyCache
      (New exFailing)).w.status = some 500 ∧
    (ogTagHandler (exFileApp 0 none) NewRecorder exFileRequest
      (OGCache.Set exEmptyCache 0 none "file:///path" "cached").2
      (New exFailing)).events
      = [Event.Inc "/og", Event.cacheGet "file:///path", Event.CacheHit] ∧
    (ogTagHandler (exFileApp 0 none) NewRecorder exFileRequest
      (OGCache.Set exEmptyCache 0 none "file:///path" "cached").2
      (New exFailing)).w = ⟨[("Content-Type", "application/json")], some 200, "cached"⟩ := by
  refine ⟨by decide, by decide, by decide, by decide, by decide, by decide⟩

/-! ## C25 -/

/-- C25, the code does not do what the claim and the name of the histogram
say: for a duration of 1500 ms `Latency` observes in
`http_request_duration_seconds` a value equal to 1500000000, the number of
nanoseconds, where the duration divided by one second is 1.5 (the `float64`
`6755399441055744 / 2 ^ 52`). -/
theorem Latency_observes_nanoseconds :
    (Latency requestLatency ["/health"] (1500 * Millisecond)).Name
      = "http_request_duration_seconds" ∧
    (Latency requestLatency ["/health"] (1500 * Millisecond)).observations
      = [(["/health"], Float64.fin (1500000000 * 2 ^ 22) 22)] ∧
    (Float64.fin (1500000000 * 2 ^ 22) 22).ge (Float64.fin 1500000000 0) = true ∧
    (Float64.fin 1500000000 0).ge (Float64.fin (1500000000 * 2 ^ 22) 22) = true ∧
    roundToFloat64 (1500 * Millisecond) Second = Float64.fin 6755399441055744 52 ∧
    (Float64.fin 6755399441055744 52).ge (Float64.fin 3 1) = true ∧
    (Float64.fin 3 1).ge (Float64.fin 6755399441055744 52) = true ∧
    (roundToFloat64 (1500 * Millisecond) Second).ge
      (Float64.fin (1500000000 * 2 ^ 22) 22) = false := by
  decide

/-! ## C26 -/

theorem fetchOGTags_withStatus (env : Env) (url : String) (h : HTTPClient)
    (f : Nat → String → Int) :
    fetchOGTags env url (h.withStatus f)
      = ((fetchOGTags env url h).1, (fetchOGTags env url h).2.withStatus f) := by
  unfold fetchOGTags HTTPClient.Get HTTPClient.withStatus
  cases hg : h.GetFunc h.calls.length url with
  | error e => simp [hg]
  | ok res =>
    cases hd : env.htmlParse res.Body with
    | error e => simp [hg, hd]
    | ok doc => simp [hg, hd]

/-- Two requests with the same result, on two states, leave the same breaker. -/
theorem Execute_congr {σ σ₂ T : Type} (cb : CircuitBreaker) (tB tA : Nat)
    (req : σ → (Option T × Option Error) × σ) (req2 : σ₂ → (Option T × Option Error) × σ₂)
    (w : σ) (w2 : σ₂) (φ : σ → σ₂) (hw : w2 = φ w)
    (hreq : req2 w2 = ((req w).1, φ (req w).2)) :
    cb.Execute tB tA req2 w2
      = ((cb.Execute tB tA req w).1, (cb.Execute tB tA req w).2.1,
          φ (cb.Execute tB tA req w).2.2) := by
  unfold CircuitBreaker.Execute
  rcases hbr : cb.beforeRequest tB with ⟨cb1, g, err⟩
  cases err with
  | none => simp [hreq]
  | some e => simp [hw]

/-- A call on a client whose HTTP client has other status codes: the same
result, the same cache of breakers. -/
theorem GetOGTags_withStatus (env : Env) (c : Client) (url : String) (clk : Clock)
    (f : Nat → String → Int) :
    GetOGTags env { c with client := c.client.withStatus f } url clk
      = ((GetOGTags env c url clk).1,
          { (GetOGTags env c url clk).2 with
            client := (GetOGTags env c url clk).2.client.withStatus f }) := by
  rcases hg : getHost env url with ⟨h1, err⟩
  by_cases hv : err.isSome = true ∨ h1 = ""
  · simp [GetOGTags, hg, hv]
  · have h1ne : h1 ≠ "" := fun h => hv (Or.inr h)
    have herr : err = none := by
      cases err with
      | none => rfl
      | some e => exact absurd (Or.inl rfl) hv
    subst herr
    rw [GetOGTags_valid env c url clk h1 hg h1ne,
      GetOGTags_valid env { c with client := c.client.withStatus f } url clk h1 hg h1ne]
    have hbf : ({ c with client := c.client.withStatus f } : Client).breakerFor h1 clk.created
        = c.breakerFor h1 clk.created := rfl
    rw [hbf]
    have hx := Execute_congr (c.breakerFor h1 clk.created) clk.before clk.after
      (fetchOGTags env url) (fetchOGTags env url) c.client (c.client.withStatus f)
      (fun h => h.withStatus f) rfl (fetchOGTags_withStatus env url c.client f)
    simp only [hx]

theorem runCalls_withStatus (env : Env) (f : Nat → String → Int) :
    ∀ (calls : List (String × Clock)) (c : Client),
      runCalls env { c with client := c.client.withStatus f } calls
        = ((runCalls env c calls).1,
            { (runCalls env c calls).2 with
              client := (runCalls env c calls).2.client.withStatus f }) := by
  intro calls
  induction calls with
  | nil => intro c; rfl
  | cons p rest ih =>
    intro c
    obtain ⟨url, clk⟩ := p
    rw [runCalls_cons, runCalls_cons, GetOGTags_withStatus]
    simp only []
    rw [ih (GetOGTags env c url clk).2]

theorem Cache.mem_touch (cache : Cache) (host : String) (cb : CircuitBreaker)
    (x : String × CircuitBreaker) (hx : x ∈ (cache.touch host cb).items) :
    x ∈ cache.items ∨ x = (host, cb) := by
  unfold Cache.touch Cache.Get at hx
  cases hf : cache.items.find? (fun e => e.1 = host) with
  | some e =>
    simp only [hf, List.mem_cons] at hx
    rcases hx with hx | hx
    · left; rw [hx]; exact List.mem_of_find?_eq_some hf
    · left; exact List.mem_of_mem_eraseP hx
  | none =>
    simp only [hf, Cache.Add, Option.isSome_none, Bool.false_eq_true, if_false] at hx
    split_ifs at hx
    · have := List.dropLast_subset _ hx
      simp only [List.mem_cons] at this
      rcases this with h | h
      · right; exact h
      · left; exact h
    · simp only [List.mem_cons] at hx
      rcases hx with h | h
      · right; exact h
      · left; exact h

/-- Every breaker the client holds is closed. -/
theorem GetOGTags_all_closed (env : Env) (c : Client) (url : String) (clk : Clock)
    (hserve : ∀ k u, ∃ res doc, c.client.GetFunc k u = .ok res ∧
      env.htmlParse res.Body = .ok doc)
    (hall : ∀ x ∈ c.breakersCache.items, x.2.state = State.StateClosed) :
    (∀ x ∈ (GetOGTags env c url clk).2.breakersCache.items, x.2.state = State.StateClosed) ∧
    (∀ k u, ∃ res doc, (GetOGTags env c url clk).2.client.GetFunc k u = .ok res ∧
      env.htmlParse res.Body = .ok doc) ∧
    (∀ host, host ≠ "" → getHost env url = (host, none) →
      (GetOGTags env c url clk).1 = (fetchOGTags env url c.client).1 ∧
      (GetOGTags env c url clk).1.2 = none) := by
  rcases GetOGTags_target_cases env c url clk with ⟨hc, hno⟩ | ⟨host, hne, hh⟩
  · rw [hc]
    exact ⟨hall, hserve, fun host hne hh => absurd hh (hno host hne)⟩
  · rw [GetOGTags_valid env c url clk host hh hne]
    simp only []
    have hbfc : (c.breakerFor host clk.created).state = State.StateClosed := by
      unfold Client.breakerFor Cache.Peek
      cases hf : c.breakersCache.items.find? (fun e => e.1 = host) with
      | some e => exact hall e (List.mem_of_find?_eq_some hf)
      | none => rfl
    obtain ⟨ok1, serve1⟩ := fetchOGTags_serving env url c.client hserve
    obtain ⟨r1, r2⟩ := Execute_closed_runs (c.breakerFor host clk.created) clk.before clk.after
      (fetchOGTags env url) c.client hbfc
    have hcl := Execute_closed_success (c.breakerFor host clk.created) clk.before clk.after
      (fetchOGTags env url) c.client hbfc ok1
    refine ⟨?_, ?_, ?_⟩
    · intro x hx
      simp only [Cache.store, List.mem_map] at hx
      obtain ⟨y, hy, hxy⟩ := hx
      by_cases hk : y.1 = host
      · rw [if_pos hk] at hxy
        rw [← hxy]
        exact hcl
      · rw [if_neg hk] at hxy
        rw [← hxy]
        rcases Cache.mem_touch _ _ _ _ hy with h | h
        · exact hall y h
        · rw [h]; rfl
    · rw [r2]
      exact serve1
    · intro host2 _ hh2
      rw [r1]
      exact ⟨rfl, ok1⟩

theorem runCalls_never_open (env : Env) :
    ∀ (calls : List (String × Clock)) (c : Client),
      (∀ k u, ∃ res doc, c.client.GetFunc k u = .ok res ∧ env.htmlParse res.Body = .ok doc) →
      (∀ x ∈ c.breakersCache.items, x.2.state = State.StateClosed) →
      (∀ x ∈ (runCalls env c calls).2.breakersCache.items, x.2.state = State.StateClosed) ∧
      (∀ k u, ∃ res doc, (runCalls env c calls).2.client.GetFunc k u = .ok res ∧
        env.htmlParse res.Body = .ok doc) := by
  intro calls
  induction calls with
  | nil => intro c hs ha; exact ⟨ha, hs⟩
  | cons p rest ih =>
    intro c hs ha
    obtain ⟨url, clk⟩ := p
    rw [runCalls_cons]
    obtain ⟨a1, a2, _⟩ := GetOGTags_all_closed env c url clk hs ha
    exact ih (GetOGTags env c url clk).2 a2 a1

/-- C26: `GetOGTags` does not read the status code of the response. Replacing
the status codes of the responses of the HTTP client, the bodies kept, changes
neither the result of a call nor the cache of breakers it leaves, for one call
on any client and for any run of calls on a new client. A response whose body
parses is a success whatever its status code: the call returns the tags of the
body with a nil error, and a closed breaker in its counting window counts one
more request and one more success. So when the HTTP client answers every call
with a page that parses, an error page with status 500 included, every breaker
is closed after any run of calls, and the next call for a valid host returns a
nil error. -/
theorem status_code_ignored (env : Env) (c : Client) (h : HTTPClient)
    (f : Nat → String → Int) (url : String) (clk : Clock) (calls : List (String × Clock)) :
    (GetOGTags env { c with client := c.client.withStatus f } url clk).1
      = (GetOGTags env c url clk).1 ∧
    (GetOGTags env { c with client := c.client.withStatus f } url clk).2.breakersCache
      = (GetOGTags env c url clk).2.breakersCache ∧
    (runCalls env (New (h.withStatus f)) calls).1 = (runCalls env (New h) calls).1 ∧
    (runCalls env (New (h.withStatus f)) calls).2.breakersCache
      = (runCalls env (New h) calls).2.breakersCache ∧
    (∀ (host : String) (cb : CircuitBreaker) (e : Nat) (res : Response) (doc : Node),
      getHost env url = (host, none) → host ≠ "" → 1 ≤ c.breakersCache.size →
      c.breakersCache.Peek host = some cb → cb.state = State.StateClosed →
      cb.expiry = some e → clk.before ≤ e → clk.after ≤ e →
      c.client.GetFunc c.client.calls.length url = .ok res →
      env.htmlParse res.Body = .ok doc →
      (GetOGTags env c url clk).1 = (some (buildOGTags url doc), none) ∧
      (GetOGTags env c url clk).2.breakersCache.Peek host
        = some { cb with counts := cb.counts.onRequest.onSuccess }) ∧
    ((∀ k u, ∃ res doc, h.GetFunc k u = .ok res ∧ env.htmlParse res.Body = .ok doc) →
      (∀ x ∈ (runCalls env (New h) calls).2.breakersCache.items,
        x.2.state = State.StateClosed) ∧
      (∀ host, host ≠ "" → getHost env url = (host, none) →
        (GetOGTags env (runCalls env (New h) calls).2 url clk).1.2 = none)) := by
  have hnew : New (h.withStatus f) = { New h with client := (New h).client.withStatus f } := rfl
  refine ⟨?_, ?_, ?_, ?_, ?_, ?_⟩
  · rw [GetOGTags_withStatus]
  · rw [GetOGTags_withStatus]
  · rw [hnew, runCalls_withStatus]
  · rw [hnew, runCalls_withStatus]
  · intro host cb e res doc hh hne hsize hp hs he hb ha hok hdoc
    obtain ⟨f1, _, ⟨l, f3⟩, _, _, _⟩ := GetOGTags_valid_facts env c url clk host hh hne hsize
    have hbf : c.breakerFor host clk.created = cb := by simp [Client.breakerFor, hp]
    have f3p := Cache.peek_front _ _ _ _ f3
    rw [hbf, Execute_closed_in_window cb e clk.before clk.after _ _ hs he hb ha,
      fetchOGTags_ok env c.client url res doc hok hdoc] at f1 f3p
    refine ⟨f1, ?_⟩
    rw [f3p]
    simp [CircuitBreaker.onSuccess]
  · intro hserve
    obtain ⟨a1, a2⟩ := runCalls_never_open env calls (New h) hserve
      (by intro x hx; simp [New, Cache.New] at hx)
    refine ⟨a1, ?_⟩
    intro host hne hh
    exact ((GetOGTags_all_closed env _ url clk a2 a1).2.2 host hne hh).2

theorem status_code_ignored_witness :
    (runCalls exEnv (New exErrorPages)
        (List.replicate 10 ("https://example.com", at_ 0))).1
      = (runCalls exEnv (New (exServing exPage))
        (List.replicate 10 ("https://example.com", at_ 0))).1 ∧
    ∀ x ∈ (runCalls exEnv (New (exServing exPage))
        (List.replicate 10 ("https://example.com", at_ 0))).2.breakersCache.items,
      x.2.state = State.StateClosed :=
  have h := status_code_ignored exEnv (New (exServing exPage)) (exServing exPage)
    (fun _ _ => 500) "https://example.com" (at_ 0)
    (List.replicate 10 ("https://example.com", at_ 0))
  ⟨h.2.2.1, (h.2.2.2.2.2 (fun _ _ => ⟨_, _, rfl, rfl⟩)).1⟩

end ogtags
